import Mathlib

/-!
# nemo-qml-plugin-notifications: the notification encoding/decoding protocol

A shallow embedding of `src/notification.cpp` (with `notification.h` and
`notification_p.h`): the action codec (`encodeActions`, `decodeActions`), the
callback-target serializer (`encodeDBusCall` and the split-and-decode block of
`decodeActionHints`), the remote-action hint codec (`encodeActionHints`,
`decodeActionHints`) and the parts of the `Notification` object that read and
write the record (the property getters and setters, `publish`, `close`, and the
slots `checkActionInvoked`, `checkNotificationClosed`, `checkInputTextSet`), the
marshaling operators of `NotificationData` and the connection provider
(`notificationManager`, `useDBusConnection`). The Qt operations on the values of
the properties progress, timestamp and iconData (a double, a date and time, an
image) are parameters of their setters.

Conventions of the embedding:

* `QString` is `String`; `s.isEmpty()` is `s = ""`; `+` and `%` are `++`.
* `QVariant` is an inductive type with the variant kinds the program stores
  (invalid, bool, int, string, string list, variant list, variant map).
* `QVariantMap` and `QVariantHash` are association lists kept in key order, so
  that two containers with the same content are equal.
* Signals raised by an operation are returned as a list, in emission order;
  outbound D-Bus calls are returned as values.
-/

namespace Nemo

/-! ## Qt value types -/

/-- The dynamically typed value `QVariant`, restricted to the kinds of value this
program stores in hints and remote-action specifications. -/
inductive QVariant where
  | invalid
  | bool (b : Bool)
  | int (i : Int)
  | string (s : String)
  | stringList (l : List String)
  | list (l : List QVariant)
  | map (m : List (String × QVariant))

namespace QVariant

mutual
/-- Decidable equality of variants (`QVariant::operator==` on equal kinds). -/
def decEqV : (a b : QVariant) → Decidable (a = b)
  | .invalid, .invalid => isTrue rfl
  | .bool a, .bool b =>
    if h : a = b then isTrue (by rw [h]) else isFalse (by intro e; cases e; exact h rfl)
  | .int a, .int b =>
    if h : a = b then isTrue (by rw [h]) else isFalse (by intro e; cases e; exact h rfl)
  | .string a, .string b =>
    if h : a = b then isTrue (by rw [h]) else isFalse (by intro e; cases e; exact h rfl)
  | .stringList a, .stringList b =>
    if h : a = b then isTrue (by rw [h]) else isFalse (by intro e; cases e; exact h rfl)
  | .list a, .list b =>
    match decEqL a b with
    | isTrue h => isTrue (by rw [h])
    | isFalse h => isFalse (by intro e; cases e; exact h rfl)
  | .map a, .map b =>
    match decEqM a b with
    | isTrue h => isTrue (by rw [h])
    | isFalse h => isFalse (by intro e; cases e; exact h rfl)
  | .invalid, .bool _ | .invalid, .int _ | .invalid, .string _ | .invalid, .stringList _
  | .invalid, .list _ | .invalid, .map _ => isFalse (by intro e; cases e)
  | .bool _, .invalid | .bool _, .int _ | .bool _, .string _ | .bool _, .stringList _
  | .bool _, .list _ | .bool _, .map _ => isFalse (by intro e; cases e)
  | .int _, .invalid | .int _, .bool _ | .int _, .string _ | .int _, .stringList _
  | .int _, .list _ | .int _, .map _ => isFalse (by intro e; cases e)
  | .string _, .invalid | .string _, .bool _ | .string _, .int _ | .string _, .stringList _
  | .string _, .list _ | .string _, .map _ => isFalse (by intro e; cases e)
  | .stringList _, .invalid | .stringList _, .bool _ | .stringList _, .int _
  | .stringList _, .string _ | .stringList _, .list _ | .stringList _, .map _ =>
    isFalse (by intro e; cases e)
  | .list _, .invalid | .list _, .bool _ | .list _, .int _ | .list _, .string _
  | .list _, .stringList _ | .list _, .map _ => isFalse (by intro e; cases e)
  | .map _, .invalid | .map _, .bool _ | .map _, .int _ | .map _, .string _
  | .map _, .stringList _ | .map _, .list _ => isFalse (by intro e; cases e)
/-- Decidable equality of variant lists. -/
def decEqL : (a b : List QVariant) → Decidable (a = b)
  | [], [] => isTrue rfl
  | [], _ :: _ => isFalse (by intro e; cases e)
  | _ :: _, [] => isFalse (by intro e; cases e)
  | a :: as, b :: bs =>
    match decEqV a b, decEqL as bs with
    | isTrue h, isTrue h2 => isTrue (by rw [h, h2])
    | isFalse h, _ => isFalse (by intro e; cases e; exact h rfl)
    | _, isFalse h => isFalse (by intro e; cases e; exact h rfl)
/-- Decidable equality of variant maps. -/
def decEqM : (a b : List (String × QVariant)) → Decidable (a = b)
  | [], [] => isTrue rfl
  | [], _ :: _ => isFalse (by intro e; cases e)
  | _ :: _, [] => isFalse (by intro e; cases e)
  | (k, a) :: as, (l, b) :: bs =>
    if hk : k = l then
      match decEqV a b, decEqM as bs with
      | isTrue h, isTrue h2 => isTrue (by rw [hk, h, h2])
      | isFalse h, _ => isFalse (by intro e; cases e; exact h rfl)
      | _, isFalse h => isFalse (by intro e; cases e; exact h rfl)
    else isFalse (by intro e; cases e; exact hk rfl)
end

instance : DecidableEq QVariant := decEqV

instance : Inhabited QVariant := ⟨QVariant.invalid⟩

/-- The conversion `QVariant::toString()` (also `value<QString>()`): a string is
returned as it is, a number or boolean is printed, a one-element string list gives its
element, every other kind gives the empty string. -/
def toString : QVariant → String
  | .string s => s
  | .bool b => if b then "true" else "false"
  | .int i => ToString.toString i
  | .stringList [s] => s
  | _ => ""

/-- Decimal digits read from the left into an accumulator; `none` when a character is
not a digit. -/
def parseDigits : List Char → Nat → Option Nat
  | [], acc => some acc
  | ch :: rest, acc =>
    if 48 ≤ ch.toNat ∧ ch.toNat ≤ 57 then parseDigits rest (acc * 10 + (ch.toNat - 48))
    else none

/-- The conversion `QString::toInt()`: an optional sign and decimal digits; 0 when the
text is not a number or does not fit in 32 bits. -/
def parseInt (s : String) : Int :=
  let signed : Bool × List Char :=
    match s.data with
    | '-' :: rest => (true, rest)
    | '+' :: rest => (false, rest)
    | rest => (false, rest)
  match signed.2 with
  | [] => 0
  | ch :: rest =>
    match parseDigits (ch :: rest) 0 with
    | none => 0
    | some n =>
      let i : Int := if signed.1 then -(n : Int) else (n : Int)
      if -2147483648 ≤ i ∧ i ≤ 2147483647 then i else 0

/-- The conversion `QVariant::toInt()`: an int is returned as it is, a boolean is 0
or 1, a string is parsed as a decimal number, every other kind gives 0. -/
def toInt : QVariant → Int
  | .int i => i
  | .bool b => if b then 1 else 0
  | .string s => parseInt s
  | _ => 0

/-- The conversion `QVariant::toBool()`: a boolean is returned as it is, a number is
true when non-zero, a string is true unless it is empty, "0" or "false" (in any case);
every other kind gives false. -/
def toBool : QVariant → Bool
  | .bool b => b
  | .int i => i != 0
  | .string s => !(s = "" || s = "0" || s.data.map Char.toLower = "false".data)
  | _ => false

/-- The conversion `QVariant::toList()` (also `value<QVariantList>()`): the stored
list, a string list as a list of string variants, an empty list otherwise. -/
def toList : QVariant → List QVariant
  | .list l => l
  | .stringList l => l.map QVariant.string
  | _ => []

/-- The conversion `QVariant::toStringList()` (also `value<QStringList>()`): the
stored string list, a string as a one-element list, a variant list element by
element, an empty list otherwise. -/
def toStringList : QVariant → List String
  | .stringList l => l
  | .string s => [s]
  | .list l => l.map QVariant.toString
  | _ => []

end QVariant

/-- Lexicographic order on the characters of two strings, by code point: the key
order of the containers. -/
def ltChars : List Char → List Char → Bool
  | [], [] => false
  | [], _ :: _ => true
  | _ :: _, [] => false
  | a :: as, b :: bs =>
    if a.toNat < b.toNat then true
    else if b.toNat < a.toNat then false
    else ltChars as bs

/-- A string-keyed container of variants (`QVariantMap`, `QVariantHash`), as an
association list. -/
abbrev VMap := List (String × QVariant)

namespace VMap

/-- The call `insert(key, value)`: replaces the value of a key that is present, adds
the key in key order otherwise. -/
def insert (k : String) (v : QVariant) : VMap → VMap
  | [] => [(k, v)]
  | (k0, v0) :: t =>
    if k = k0 then (k, v) :: t
    else if ltChars k.data k0.data then (k, v) :: (k0, v0) :: t
    else (k0, v0) :: insert k v t

/-- The call `find(key)`: the stored value, if the key is present. -/
def find (k : String) : VMap → Option QVariant
  | [] => none
  | (k0, v0) :: t => if k = k0 then some v0 else find k t

/-- The call `contains(key)`. -/
def contains (m : VMap) (k : String) : Bool := (find k m).isSome

/-- The call `value(key)` (and `operator[]` on a constant container): the stored
value, or an invalid variant when the key is absent. -/
def value (m : VMap) (k : String) : QVariant := (find k m).getD QVariant.invalid

/-- The call `remove(key)`. -/
def remove (k : String) : VMap → VMap
  | [] => []
  | (k0, v0) :: t => if k = k0 then remove k t else (k0, v0) :: remove k t

end VMap

abbrev QVariantMap := VMap
abbrev QVariantHash := VMap

/-- The conversion `QVariant::toMap()` (also `value<QVariantMap>()`): the stored map,
or an empty map for every other kind. -/
def QVariant.toMap : QVariant → QVariantMap
  | .map m => m
  | _ => []

/-! ## Hint keys (notification.cpp, lines 47-67) -/

def HINT_CATEGORY : String := "category"
def HINT_URGENCY : String := "urgency"
def HINT_TRANSIENT : String := "transient"
def HINT_ITEM_COUNT : String := "x-nemo-item-count"
def HINT_TIMESTAMP : String := "x-nemo-timestamp"
def HINT_PREVIEW_BODY : String := "x-nemo-preview-body"
def HINT_PREVIEW_SUMMARY : String := "x-nemo-preview-summary"
def HINT_SUB_TEXT : String := "x-nemo-sub-text"
def HINT_REMOTE_ACTION_PREFIX : String := "x-nemo-remote-action-"
def HINT_REMOTE_ACTION_ICON_PREFIX : String := "x-nemo-remote-action-icon-"
def HINT_REMOTE_ACTION_INPUT_PREFIX : String := "x-nemo-remote-action-input-"
def HINT_REMOTE_ACTION_TYPE_PREFIX : String := "x-nemo-remote-action-type-"
def HINT_ORIGIN : String := "x-nemo-origin"
def HINT_OWNER : String := "x-nemo-owner"
def HINT_MAX_CONTENT_LINES : String := "x-nemo-max-content-lines"
def DEFAULT_ACTION_NAME : String := "default"
def HINT_PROGRESS : String := "x-nemo-progress"
def HINT_SOUND_FILE : String := "sound-file"
def HINT_SOUND_NAME : String := "sound-name"
def HINT_IMAGE_DATA : String := "image-data"
def HINT_IMAGE_PATH : String := "image-path"

/-! ## The wire record (notification_p.h) -/

/-- The struct `NotificationData::ActionInfo`. -/
structure ActionInfo where
  name : String
  displayName : String
deriving DecidableEq, Repr

/-- The struct `NotificationData`: the wire record. -/
structure NotificationData where
  appName : String := ""
  replacesId : Nat := 0
  appIcon : String := ""
  summary : String := ""
  body : String := ""
  actions : List ActionInfo := []
  hints : QVariantHash := []
  expireTimeout : Int := -1
deriving DecidableEq

/-! ## Action codec (notification.cpp, lines 165-196) -/

/-- The function `encodeActions`: each action appends its name, then its display
name. -/
def encodeActions : List ActionInfo → List String
  | [] => []
  | actionInfo :: rest => actionInfo.name :: actionInfo.displayName :: encodeActions rest

/-- The function `decodeActions`: two tokens at a time; a last unpaired token gets
an empty display name. -/
def decodeActions : List String → List ActionInfo
  | [] => []
  | [name] => [{ name := name, displayName := "" }]
  | name :: displayName :: rest =>
    { name := name, displayName := displayName } :: decodeActions rest

/-! ## Callback-target serializer (notification.cpp, lines 137-163 and 252-278) -/

/-- The two Qt library steps the serializer applies to one argument, taken as
parameters: `toBase64 arg` is the Base64 text of the `QDataStream` serialisation of
`arg` (lines 149-152), and `fromBase64 token` is the variant read back by
`QByteArray::fromBase64` and `QDataStream` (lines 270-274). -/
structure VariantCodec where
  toBase64 : QVariant → String
  fromBase64 : String → QVariant

/-- The loop of `QString::split(' ', SkipEmptyParts)`: `cur` is the token read so
far; a space closes it, and an empty token is dropped. -/
def splitSkipEmptyAux : List Char → List Char → List String
  | [], cur => if cur = [] then [] else [String.mk cur]
  | ch :: rest, cur =>
    if ch = ' ' then
      if cur = [] then splitSkipEmptyAux rest [] else String.mk cur :: splitSkipEmptyAux rest []
    else splitSkipEmptyAux rest (cur ++ [ch])

/-- The call `hint.split(' ', SkipEmptyParts)`. -/
def splitSkipEmpty (s : String) : List String := splitSkipEmptyAux s.data []

/-- The function `encodeDBusCall`: the four identifying fields joined by spaces, then
one space-prefixed Base64 token per argument. -/
def encodeDBusCall (c : VariantCodec) (service path iface method : String)
    (arguments : List QVariant) : String :=
  let space := " "
  let s := service ++ space ++ path ++ space ++ iface ++ space ++ method
  if arguments.isEmpty then s
  else
    let args := arguments.map (fun arg => space ++ c.toBase64 arg)
    args.foldl (fun acc arg => acc ++ arg) s

/-- The split-and-decode block of `decodeActionHints` (lines 250-278): the map
`action` after the callback-target hint has been parsed. With three elements or fewer
nothing is inserted (the hint is logged as invalid). -/
def decodeDBusCall (c : VariantCodec) (hint : String) : QVariantMap :=
  match splitSkipEmpty hint with
  | service :: path :: iface :: method :: rest =>
    let action : QVariantMap := []
    let action := action.insert "service" (.string service)
    let action := action.insert "path" (.string path)
    let action := action.insert "iface" (.string iface)
    let action := action.insert "method" (.string method)
    let args := rest.map (fun arg => c.fromBase64 arg)
    action.insert "arguments" (.list args)
  | _ => []

/-! ## Remote-action hint codec (notification.cpp, lines 198-297) -/

/-- The body of the loop of `encodeActionHints` for one remote action: `rv` is the
pair of descriptors and hints built so far. -/
def encodeActionHintsStep (c : VariantCodec) (rv : List ActionInfo × QVariantHash)
    (action : QVariant) : List ActionInfo × QVariantHash :=
  let vm := action.toMap
  let actionName := (vm.value "name").toString
  if actionName ≠ "" then
    let displayName := (vm.value "displayName").toString
    let service := (vm.value "service").toString
    let path := (vm.value "path").toString
    let iface := (vm.value "iface").toString
    let method := (vm.value "method").toString
    let arguments := (vm.value "arguments").toList
    let icon := (vm.value "icon").toString
    let input := (vm.value "input").toMap
    let type := (vm.value "type").toString
    let first := rv.1 ++ [{ name := actionName, displayName := displayName }]
    let second := rv.2
    let second :=
      if service ≠ "" ∧ path ≠ "" ∧ iface ≠ "" ∧ method ≠ "" then
        second.insert (HINT_REMOTE_ACTION_PREFIX ++ actionName)
          (.string (encodeDBusCall c service path iface method arguments))
      else second
    let second :=
      if icon ≠ "" then second.insert (HINT_REMOTE_ACTION_ICON_PREFIX ++ actionName) (.string icon)
      else second
    let second :=
      if input ≠ [] then second.insert (HINT_REMOTE_ACTION_INPUT_PREFIX ++ actionName) (.map input)
      else second
    let type := if input ≠ [] ∧ type = "" then "input" else type
    let second :=
      if type ≠ "" then second.insert (HINT_REMOTE_ACTION_TYPE_PREFIX ++ actionName) (.string type)
      else second
    (first, second)
  else rv

/-- The function `encodeActionHints`: the descriptors and the synthesized hints of a
list of remote actions. -/
def encodeActionHints (c : VariantCodec) (actions : List QVariant) :
    List ActionInfo × QVariantHash :=
  actions.foldl (encodeActionHintsStep c) ([], [])

/-- The function `decodeActionHints`: an action is emitted for each descriptor whose
callback-target hint reads as a non-empty string. -/
def decodeActionHints (c : VariantCodec) : List ActionInfo → QVariantHash → List QVariant
  | [], _ => []
  | actionInfo :: rest, hints =>
    let actionName := actionInfo.name
    let displayName := actionInfo.displayName
    let hintName := HINT_REMOTE_ACTION_PREFIX ++ actionName
    let hint := (hints.value hintName).toString
    if hint ≠ "" then
      let action := decodeDBusCall c hint
      let action := action.insert "name" (.string actionName)
      let action := action.insert "displayName" (.string displayName)
      let iconHintName := HINT_REMOTE_ACTION_ICON_PREFIX ++ actionName
      let iconHint := (hints.value iconHintName).toString
      let action := if iconHint ≠ "" then action.insert "icon" (.string iconHint) else action
      let actionInputHintName := HINT_REMOTE_ACTION_INPUT_PREFIX ++ actionName
      let action :=
        if hints.contains actionInputHintName then
          action.insert "input" (.map (hints.value actionInputHintName).toMap)
        else action
      QVariant.map action :: decodeActionHints c rest hints
    else decodeActionHints c rest hints

/-! ## The notification object (notification.h, notification.cpp lines 301-336) -/

/-- The enum `Notification::Urgency`. -/
inductive Urgency where
  | Low
  | Normal
  | Critical
deriving DecidableEq, Repr

/-- The integer value of an urgency (`static_cast<int>`). -/
def Urgency.toInt : Urgency → Int
  | .Low => 0
  | .Normal => 1
  | .Critical => 2

/-- The cast `static_cast<Urgency>` of an integer: an enumerator for 0, 1 and 2, and no
enumerator for any other value. -/
def Urgency.ofInt? (i : Int) : Option Urgency :=
  if i = 0 then some .Low
  else if i = 1 then some .Normal
  else if i = 2 then some .Critical
  else none

/-- The signals of `Notification` (notification.h, lines 187-213), and
`soundNameChanged`, which `setSoundName` emits (notification.cpp, line 1054). -/
inductive Signal where
  | clicked
  | actionInvoked (name : String)
  | inputActionInvoked (name : String) (inputText : String)
  | closed (reason : Nat)
  | categoryChanged
  | appNameChanged
  | replacesIdChanged
  | iconChanged
  | appIconChanged
  | summaryChanged
  | subTextChanged
  | bodyChanged
  | urgencyChanged
  | expireTimeoutChanged
  | timestampChanged
  | previewSummaryChanged
  | previewBodyChanged
  | soundChanged
  | iconDataChanged
  | itemCountChanged
  | remoteActionsChanged
  | remoteDBusCallChanged
  | originChanged
  | maxContentLinesChanged
  | isTransientChanged
  | progressChanged
  | soundNameChanged
deriving DecidableEq, Repr

/-- The arguments of one `Notify` call on the notification manager proxy. -/
structure NotifyCall where
  appName : String
  replacesId : Nat
  appIcon : String
  summary : String
  body : String
  actions : List String
  hints : QVariantHash
  expireTimeout : Int
deriving DecidableEq

/-- The class `NotificationPrivate`: the record, the cached remote actions and the
pending input text `inputText`, the string member that `checkActionInvoked` reads and
`checkInputTextSet` writes (lines 1283-1306). -/
structure NotificationPrivate extends NotificationData where
  remoteActions : List QVariant := []
  inputText : String := ""
deriving DecidableEq

/-- The constructor `Notification(QObject *)`: an empty record with the urgency hint
set to Normal. -/
def Notification.new : NotificationPrivate :=
  { hints := VMap.insert HINT_URGENCY (.int Urgency.Normal.toInt) [] }

/-- The constructor `Notification(const NotificationData &, QObject *)`: the record
as received, with the remote actions decoded from it. -/
def Notification.ofData (c : VariantCodec) (data : NotificationData) : NotificationPrivate :=
  { toNotificationData := data, remoteActions := decodeActionHints c data.actions data.hints }

namespace Notification

/-- The setter `setReplacesId`. -/
def setReplacesId (d : NotificationPrivate) (id : Nat) : NotificationPrivate × List Signal :=
  if d.replacesId ≠ id then ({ d with replacesId := id }, [Signal.replacesIdChanged])
  else (d, [])

/-- The getter `summary`. -/
def summary (d : NotificationPrivate) : String := d.summary

/-- The setter `setSummary`. -/
def setSummary (d : NotificationPrivate) (summary : String) : NotificationPrivate × List Signal :=
  if d.summary ≠ summary then ({ d with summary := summary }, [Signal.summaryChanged])
  else (d, [])

/-- The getter `body`. -/
def body (d : NotificationPrivate) : String := d.body

/-- The setter `setBody`. -/
def setBody (d : NotificationPrivate) (body : String) : NotificationPrivate × List Signal :=
  if d.body ≠ body then ({ d with body := body }, [Signal.bodyChanged])
  else (d, [])

/-- The integer `urgency()` casts to an enumerator: the stored hint clipped to the
bounds Low and Critical (line 793, before the cast). -/
def urgencyValue (d : NotificationPrivate) : Int :=
  max Urgency.Low.toInt (min Urgency.Critical.toInt (d.hints.value HINT_URGENCY).toInt)

/-- The getter `urgency`: `none` would be a value that is no enumerator. -/
def urgency (d : NotificationPrivate) : Option Urgency :=
  Urgency.ofInt? (urgencyValue d)

/-- The getter `previewSummary`. -/
def previewSummary (d : NotificationPrivate) : String :=
  (d.hints.value HINT_PREVIEW_SUMMARY).toString

/-- The setter `setPreviewSummary`. -/
def setPreviewSummary (d : NotificationPrivate) (previewSummary : String) :
    NotificationPrivate × List Signal :=
  if previewSummary ≠ Notification.previewSummary d then
    ({ d with hints := d.hints.insert HINT_PREVIEW_SUMMARY (.string previewSummary) },
      [Signal.previewSummaryChanged])
  else (d, [])

/-- The getter `previewBody`. -/
def previewBody (d : NotificationPrivate) : String :=
  (d.hints.value HINT_PREVIEW_BODY).toString

/-- The setter `setPreviewBody`. -/
def setPreviewBody (d : NotificationPrivate) (previewBody : String) :
    NotificationPrivate × List Signal :=
  if previewBody ≠ Notification.previewBody d then
    ({ d with hints := d.hints.insert HINT_PREVIEW_BODY (.string previewBody) },
      [Signal.previewBodyChanged])
  else (d, [])

/-- The getter `hintValue`. -/
def hintValue (d : NotificationPrivate) (hint : String) : QVariant := d.hints.value hint

/-- The setter `setHintValue`: an invalid value is refused (and logged). -/
def setHintValue (d : NotificationPrivate) (hint : String) (value : QVariant) :
    NotificationPrivate :=
  if value = QVariant.invalid then d
  else { d with hints := d.hints.insert hint value }

/-- The lambda `setDefaultPreview` of `publish` (lines 1173-1178). -/
def setDefaultPreview (hints : QVariantHash) (hint : String) (defaultValue : String) :
    QVariantHash :=
  if hints.contains hint then hints else hints.insert hint (.string defaultValue)

/-- The result of `publish`: the state afterwards, the signals raised and the `Notify`
call that was sent. -/
structure PublishResult where
  state : NotificationPrivate
  signals : List Signal
  sent : NotifyCall

/-- The method `publish`: `processName` is what `processName()` returns and `reply` is
the id the service returns from `Notify`. The validation loop (lines 1149-1162) only
logs. -/
def publish (d : NotificationPrivate) (processName : String) (reply : Nat) : PublishResult :=
  let d : NotificationPrivate :=
    if d.hints.contains HINT_OWNER then d
    else { d with hints := d.hints.insert HINT_OWNER (.string processName) }
  let hints := d.hints
  let hints := setDefaultPreview hints HINT_PREVIEW_SUMMARY d.summary
  let hints := setDefaultPreview hints HINT_PREVIEW_BODY d.body
  let sent : NotifyCall :=
    { appName := d.appName, replacesId := d.replacesId, appIcon := d.appIcon,
      summary := d.summary, body := d.body, actions := encodeActions d.actions,
      hints := hints, expireTimeout := d.expireTimeout }
  let r := setReplacesId d reply
  { state := r.1, signals := r.2, sent := sent }

/-- The test of lines 1283-1285 of `checkActionInvoked`: true when the invoked action
is rejected (no input text, or a text that is no valid choice of a non-editable
input). -/
def inputRejected (inputText : String) (input : QVariantMap) : Bool :=
  inputText = ""
    || (input.contains "choices" && !(input.value "choices").toStringList.contains inputText
        && (!input.contains "editable" || (input.value "editable").toBool == false))

/-- The loop of `checkActionInvoked` (lines 1277-1294): the signals raised for the
first remote action whose non-empty name is the action key. -/
def checkActionInvokedLoop (inputText : String) (actionKey : String) :
    List QVariant → List Signal
  | [] => []
  | action :: rest =>
    let vm := action.toMap
    let actionName := (vm.value "name").toString
    if actionName ≠ "" ∧ actionName = actionKey then
      if vm.contains "input" then
        let input := (vm.value "input").toMap
        if inputRejected inputText input then []
        else [Signal.inputActionInvoked actionKey inputText]
      else [Signal.actionInvoked actionKey]
    else checkActionInvokedLoop inputText actionKey rest

/-- The slot `checkActionInvoked`: the signals raised; the state is not written. -/
def checkActionInvoked (d : NotificationPrivate) (id : Nat) (actionKey : String) :
    List Signal :=
  if id = d.replacesId then
    checkActionInvokedLoop d.inputText actionKey d.remoteActions
      ++ (if actionKey = DEFAULT_ACTION_NAME then [Signal.clicked] else [])
  else []

end Notification

/-! ## Vocabulary of the properties -/

/-- A usable token of a callback-target string: not empty and without a space. -/
def IsToken (s : String) : Prop := s ≠ "" ∧ ' ' ∉ s.data

instance (s : String) : Decidable (IsToken s) := by
  unfold IsToken
  exact inferInstance

/-- A small argument codec for the worked examples: a true boolean is written as
`AQ==`, every other value as `AA==`, and a token is read back as a boolean. -/
def sampleCodec : VariantCodec :=
  { toBase64 := fun v => if v = QVariant.bool true then "AQ==" else "AA=="
    fromBase64 := fun s => QVariant.bool (s = "AQ==") }

/-- The first cached remote action whose non-empty name is the action key: the action
an action-invoked event is matched with. -/
def findRemoteAction (actionKey : String) : List QVariant → Option QVariantMap
  | [] => none
  | action :: rest =>
    if (action.toMap.value "name").toString ≠ "" ∧ (action.toMap.value "name").toString = actionKey
    then some action.toMap
    else findRemoteAction actionKey rest

/-- The input gate in the words of the specification: the pending text is not empty,
and the input block has no choices, or the text is one of the choices, or the block is
editable. -/
def InputAccepted (inputText : String) (input : QVariantMap) : Prop :=
  inputText ≠ ""
    ∧ (input.contains "choices" = false
        ∨ inputText ∈ (input.value "choices").toStringList
        ∨ (input.value "editable").toBool = true)

instance (inputText : String) (input : QVariantMap) : Decidable (InputAccepted inputText input) := by
  unfold InputAccepted
  exact inferInstance

/-- The action events among the signals raised: `actionInvoked` and
`inputActionInvoked`. -/
def actionEvents (signals : List Signal) : List Signal :=
  signals.filter (fun s =>
    match s with
    | Signal.actionInvoked _ => true
    | Signal.inputActionInvoked _ _ => true
    | _ => false)

/-- A notification with one cached remote action `reply` that asks for input with the
choices Yes and No, not editable, and the given pending input text. -/
def sampleInputNotification (inputText : String) : NotificationPrivate :=
  { replacesId := 7
    remoteActions :=
      [QVariant.map
        [("input", QVariant.map
            [("choices", QVariant.stringList ["Yes", "No"]), ("editable", QVariant.bool false),
             ("label", QVariant.string "Answer")]),
         ("name", QVariant.string "reply")]]
    inputText := inputText }

/-- The fields of a remote-action specification. -/
structure RemoteAction where
  name : String
  displayName : String
  icon : String
  service : String
  path : String
  iface : String
  method : String
  arguments : List QVariant
  input : QVariantMap
  type : String
deriving DecidableEq

/-- The fields of a remote action held in a variant, read the way `encodeActionHints`
reads them (lines 202-213). -/
def remoteActionFields (action : QVariant) : RemoteAction :=
  let vm := action.toMap
  { name := (vm.value "name").toString
    displayName := (vm.value "displayName").toString
    icon := (vm.value "icon").toString
    service := (vm.value "service").toString
    path := (vm.value "path").toString
    iface := (vm.value "iface").toString
    method := (vm.value "method").toString
    arguments := (vm.value "arguments").toList
    input := (vm.value "input").toMap
    type := (vm.value "type").toString }

/-- A remote action with a name and a complete callback target that the serializer can
carry: service, path, interface and method are usable tokens, and every argument has a
usable Base64 token that the decoder inverts. -/
def HasCallbackTarget (c : VariantCodec) (action : QVariant) : Prop :=
  (remoteActionFields action).name ≠ ""
    ∧ IsToken (remoteActionFields action).service
    ∧ IsToken (remoteActionFields action).path
    ∧ IsToken (remoteActionFields action).iface
    ∧ IsToken (remoteActionFields action).method
    ∧ ∀ arg ∈ (remoteActionFields action).arguments,
        IsToken (c.toBase64 arg) ∧ c.fromBase64 (c.toBase64 arg) = arg

instance (c : VariantCodec) (action : QVariant) : Decidable (HasCallbackTarget c action) := by
  unfold HasCallbackTarget
  exact inferInstance

/-- No action name of the list is `icon-`, `input-` or `type-` followed by an action
name of the list: then no two synthesized hint keys of different kinds coincide. -/
def HintKeysApart (actions : List QVariant) : Prop :=
  ∀ a ∈ actions, ∀ b ∈ actions,
    (remoteActionFields a).name ≠ "icon-" ++ (remoteActionFields b).name
      ∧ (remoteActionFields a).name ≠ "input-" ++ (remoteActionFields b).name
      ∧ (remoteActionFields a).name ≠ "type-" ++ (remoteActionFields b).name

instance (actions : List QVariant) : Decidable (HintKeysApart actions) := by
  unfold HintKeysApart
  exact inferInstance

/-- The remote actions that come back from the descriptors and hints that
`encodeActionHints` produced. -/
def roundTripActions (c : VariantCodec) (actions : List QVariant) : List QVariant :=
  decodeActionHints c (encodeActionHints c actions).1 (encodeActionHints c actions).2

/-- The hint entries `encodeActionHints` inserts for one remote action, in insertion
order. -/
def actionHintEntries (c : VariantCodec) (action : QVariant) : List (String × QVariant) :=
  let f := remoteActionFields action
  if f.name ≠ "" then
    (if f.service ≠ "" ∧ f.path ≠ "" ∧ f.iface ≠ "" ∧ f.method ≠ "" then
        [(HINT_REMOTE_ACTION_PREFIX ++ f.name,
          QVariant.string (encodeDBusCall c f.service f.path f.iface f.method f.arguments))]
      else [])
    ++ (if f.icon ≠ "" then [(HINT_REMOTE_ACTION_ICON_PREFIX ++ f.name, QVariant.string f.icon)]
        else [])
    ++ (if f.input ≠ [] then [(HINT_REMOTE_ACTION_INPUT_PREFIX ++ f.name, QVariant.map f.input)]
        else [])
    ++ (if (if f.input ≠ [] ∧ f.type = "" then "input" else f.type) ≠ "" then
          [(HINT_REMOTE_ACTION_TYPE_PREFIX ++ f.name,
            QVariant.string (if f.input ≠ [] ∧ f.type = "" then "input" else f.type))]
        else [])
  else []

/-- The descriptor `encodeActionHints` appends for one remote action. -/
def actionDescriptor (action : QVariant) : List ActionInfo :=
  if (remoteActionFields action).name ≠ "" then
    [{ name := (remoteActionFields action).name
       displayName := (remoteActionFields action).displayName }]
  else []

/-- A remote action with a complete callback target, an icon, an input block and a
type. -/
def sampleRemoteAction : QVariant :=
  QVariant.map
    [("arguments", QVariant.list [QVariant.bool true, QVariant.bool false]),
     ("displayName", QVariant.string "Reply"),
     ("icon", QVariant.string "icon-reply"),
     ("iface", QVariant.string "org.example.If"),
     ("input", QVariant.map [("editable", QVariant.bool true), ("label", QVariant.string "Text")]),
     ("method", QVariant.string "run"),
     ("name", QVariant.string "reply"),
     ("path", QVariant.string "/obj"),
     ("service", QVariant.string "org.example"),
     ("type", QVariant.string "custom")]

/-- A second remote action with a complete callback target and nothing else. -/
def sampleDefaultAction : QVariant :=
  QVariant.map
    [("iface", QVariant.string "org.example.If"),
     ("method", QVariant.string "open"),
     ("name", QVariant.string "default"),
     ("path", QVariant.string "/obj"),
     ("service", QVariant.string "org.example")]

/-- A remote action with a name and a display name only: no callback target. -/
def samplePlainAction : QVariant :=
  QVariant.map [("displayName", QVariant.string "Extra action"), ("name", QVariant.string "extra")]

/-- A remote action named `icon-a` with a complete callback target. -/
def sampleIconPrefixedAction : QVariant :=
  QVariant.map
    [("iface", QVariant.string "i"), ("method", QVariant.string "m"),
     ("name", QVariant.string "icon-a"), ("path", QVariant.string "p"),
     ("service", QVariant.string "s")]

/-- A remote action named `a` with a complete callback target and an icon. -/
def sampleIconAction : QVariant :=
  QVariant.map
    [("icon", QVariant.string "I"), ("iface", QVariant.string "i"),
     ("method", QVariant.string "m"), ("name", QVariant.string "a"),
     ("path", QVariant.string "p"), ("service", QVariant.string "s")]

/-! ## Further properties, methods and slots of the notification object -/

namespace Notification

/-- The getter `replacesId`. -/
def replacesId (d : NotificationPrivate) : Nat := d.replacesId

/-- The getter `category`. -/
def category (d : NotificationPrivate) : String := (d.hints.value HINT_CATEGORY).toString

/-- The setter `setCategory`. -/
def setCategory (d : NotificationPrivate) (category : String) :
    NotificationPrivate × List Signal :=
  if category ≠ Notification.category d then
    ({ d with hints := d.hints.insert HINT_CATEGORY (.string category) },
      [Signal.categoryChanged])
  else (d, [])

/-- The getter `appName`. -/
def appName (d : NotificationPrivate) : String := d.appName

/-- The setter `setAppName`. -/
def setAppName (d : NotificationPrivate) (appName : String) :
    NotificationPrivate × List Signal :=
  if appName ≠ Notification.appName d then
    ({ d with appName := appName }, [Signal.appNameChanged])
  else (d, [])

/-- The getter `icon`. -/
def icon (d : NotificationPrivate) : String := (d.hints.value HINT_IMAGE_PATH).toString

/-- The setter `setIcon`. -/
def setIcon (d : NotificationPrivate) (icon : String) : NotificationPrivate × List Signal :=
  if icon ≠ Notification.icon d then
    ({ d with hints := d.hints.insert HINT_IMAGE_PATH (.string icon) }, [Signal.iconChanged])
  else (d, [])

/-- The getter `appIcon`. -/
def appIcon (d : NotificationPrivate) : String := d.appIcon

/-- The setter `setAppIcon`. -/
def setAppIcon (d : NotificationPrivate) (appIcon : String) :
    NotificationPrivate × List Signal :=
  if appIcon ≠ Notification.appIcon d then
    ({ d with appIcon := appIcon }, [Signal.appIconChanged])
  else (d, [])

/-- The setter `setUrgency`. -/
def setUrgency (d : NotificationPrivate) (urgency : Urgency) :
    NotificationPrivate × List Signal :=
  if some urgency ≠ Notification.urgency d then
    ({ d with hints := d.hints.insert HINT_URGENCY (.int urgency.toInt) },
      [Signal.urgencyChanged])
  else (d, [])

/-- The getter `expireTimeout`. -/
def expireTimeout (d : NotificationPrivate) : Int := d.expireTimeout

/-- The setter `setExpireTimeout`. -/
def setExpireTimeout (d : NotificationPrivate) (milliseconds : Int) :
    NotificationPrivate × List Signal :=
  if milliseconds ≠ d.expireTimeout then
    ({ d with expireTimeout := milliseconds }, [Signal.expireTimeoutChanged])
  else (d, [])

/-- The getter `subText`. -/
def subText (d : NotificationPrivate) : String := (d.hints.value HINT_SUB_TEXT).toString

/-- The setter `setSubText`. -/
def setSubText (d : NotificationPrivate) (subText : String) :
    NotificationPrivate × List Signal :=
  if subText ≠ Notification.subText d then
    ({ d with hints := d.hints.insert HINT_SUB_TEXT (.string subText) },
      [Signal.subTextChanged])
  else (d, [])

/-- The getter `sound`. -/
def sound (d : NotificationPrivate) : String := (d.hints.value HINT_SOUND_FILE).toString

/-- The setter `setSound`. -/
def setSound (d : NotificationPrivate) (sound : String) : NotificationPrivate × List Signal :=
  if sound ≠ Notification.sound d then
    ({ d with hints := d.hints.insert HINT_SOUND_FILE (.string sound) }, [Signal.soundChanged])
  else (d, [])

/-- The getter `soundName`. -/
def soundName (d : NotificationPrivate) : String := (d.hints.value HINT_SOUND_NAME).toString

/-- The setter `setSoundName`. -/
def setSoundName (d : NotificationPrivate) (soundName : String) :
    NotificationPrivate × List Signal :=
  if soundName ≠ Notification.soundName d then
    ({ d with hints := d.hints.insert HINT_SOUND_NAME (.string soundName) },
      [Signal.soundNameChanged])
  else (d, [])

/-- The getter `itemCount`. -/
def itemCount (d : NotificationPrivate) : Int := (d.hints.value HINT_ITEM_COUNT).toInt

/-- The setter `setItemCount`. -/
def setItemCount (d : NotificationPrivate) (itemCount : Int) :
    NotificationPrivate × List Signal :=
  if itemCount ≠ Notification.itemCount d then
    ({ d with hints := d.hints.insert HINT_ITEM_COUNT (.int itemCount) },
      [Signal.itemCountChanged])
  else (d, [])

/-- The getter `origin`. -/
def origin (d : NotificationPrivate) : String := (d.hints.value HINT_ORIGIN).toString

/-- The setter `setOrigin` (it also logs a deprecation warning). -/
def setOrigin (d : NotificationPrivate) (origin : String) : NotificationPrivate × List Signal :=
  if origin ≠ Notification.origin d then
    ({ d with hints := d.hints.insert HINT_ORIGIN (.string origin) }, [Signal.originChanged])
  else (d, [])

/-- The getter `maxContentLines`. -/
def maxContentLines (d : NotificationPrivate) : Int :=
  (d.hints.value HINT_MAX_CONTENT_LINES).toInt

/-- The setter `setMaxContentLines` (it also logs a deprecation warning). -/
def setMaxContentLines (d : NotificationPrivate) (max : Int) :
    NotificationPrivate × List Signal :=
  if max ≠ Notification.maxContentLines d then
    ({ d with hints := d.hints.insert HINT_MAX_CONTENT_LINES (.int max) },
      [Signal.maxContentLinesChanged])
  else (d, [])

/-- The getter `isTransient`. -/
def isTransient (d : NotificationPrivate) : Bool := (d.hints.value HINT_TRANSIENT).toBool

/-- The setter `setIsTransient`. -/
def setIsTransient (d : NotificationPrivate) (value : Bool) :
    NotificationPrivate × List Signal :=
  if value ≠ Notification.isTransient d then
    ({ d with hints := d.hints.insert HINT_TRANSIENT (.bool value) },
      [Signal.isTransientChanged])
  else (d, [])

/-- The getter `remoteActions`. -/
def remoteActions (d : NotificationPrivate) : List QVariant := d.remoteActions

/-- The inner loop of `setRemoteActions` (lines 1583-1588): the first descriptor with
the given name is removed. -/
def removeFirstAction (actionName : String) : List ActionInfo → List ActionInfo
  | [] => []
  | actionInfo :: rest =>
    if actionInfo.name = actionName then rest
    else actionInfo :: removeFirstAction actionName rest

/-- The body of the first loop of `setRemoteActions` (lines 1579-1590) for one of the
existing remote actions: its callback-target hint and its descriptor are removed. -/
def removeExistingAction (d : NotificationPrivate) (action : QVariant) : NotificationPrivate :=
  let vm := action.toMap
  let actionName := (vm.value "name").toString
  if actionName ≠ "" then
    { d with
      hints := d.hints.remove (HINT_REMOTE_ACTION_PREFIX ++ actionName)
      actions := removeFirstAction actionName d.actions }
  else d

/-- The setter `setRemoteActions`; the comparison of the two variant lists is equality
of values. -/
def setRemoteActions (c : VariantCodec) (d : NotificationPrivate)
    (remoteActions : List QVariant) : NotificationPrivate × List Signal :=
  if remoteActions ≠ d.remoteActions then
    let d := d.remoteActions.foldl removeExistingAction d
    let actionHints := encodeActionHints c remoteActions
    let d : NotificationPrivate :=
      { d with
        remoteActions := remoteActions
        actions := d.actions ++ actionHints.1
        hints := actionHints.2.foldl (fun hints p => hints.insert p.1 p.2) d.hints }
    (d, [Signal.remoteActionsChanged, Signal.remoteDBusCallChanged])
  else (d, [])

/-- The result of `close`: the state afterwards, the signals raised and the ids of the
`CloseNotification` requests that were sent. -/
structure CloseResult where
  state : NotificationPrivate
  signals : List Signal
  sent : List Nat
deriving DecidableEq

/-- The method `close`. -/
def close (d : NotificationPrivate) : CloseResult :=
  if d.replacesId ≠ 0 then
    let r := setReplacesId d 0
    { state := r.1, signals := r.2, sent := [d.replacesId] }
  else { state := d, signals := [], sent := [] }

/-- The slot `checkNotificationClosed`. -/
def checkNotificationClosed (d : NotificationPrivate) (id : Nat) (reason : Nat) :
    NotificationPrivate × List Signal :=
  if id = d.replacesId then
    let r := setReplacesId d 0
    (r.1, Signal.closed reason :: r.2)
  else (d, [])

/-- The slot `checkInputTextSet`: it raises no signal. -/
def checkInputTextSet (d : NotificationPrivate) (id : Nat) (inputText : String) :
    NotificationPrivate × List Signal :=
  if id = d.replacesId ∧ inputText ≠ d.inputText then ({ d with inputText := inputText }, [])
  else (d, [])

/-- A sequence of `publish` calls, each with the process name of the moment and the id
the service returns. -/
def publishSequence (d : NotificationPrivate) : List (String × Nat) → NotificationPrivate
  | [] => d
  | call :: rest => publishSequence (publish d call.1 call.2).state rest

end Notification

/-- The closed events among the signals raised. -/
def closedEvents (signals : List Signal) : List Signal :=
  signals.filter (fun s =>
    match s with
    | Signal.closed _ => true
    | _ => false)

/-- A published notification: id 7, summary and body set, one cached remote action. -/
def samplePublished : NotificationPrivate :=
  { replacesId := 7
    summary := "S"
    body := "B"
    hints := VMap.insert HINT_URGENCY (.int 1) []
    remoteActions := [sampleDefaultAction]
    inputText := "pending" }

/-- A remote action named `reply` with an input map and no type. -/
def sampleUntypedInputAction : QVariant :=
  QVariant.map
    [("input", QVariant.map [("label", QVariant.string "Text")]),
     ("name", QVariant.string "reply")]

/-! ## Marshaling of the wire record (notification.cpp, lines 1938-1971) -/

/-- One item written to, or read from, a `QDBusArgument`. The Qt streaming operators of
the field types are taken to read back the value they wrote. -/
inductive DBusItem where
  | beginStructure
  | endStructure
  | string (s : String)
  | uint32 (n : Nat)
  | int32 (i : Int)
  | stringList (l : List String)
  | variantHash (h : QVariantHash)
deriving DecidableEq

/-- The operator `operator<<(QDBusArgument &, const NotificationData &)`: the items it
appends to the argument. -/
def marshalNotificationData (argument : List DBusItem) (data : NotificationData) :
    List DBusItem :=
  argument ++
    [DBusItem.beginStructure,
     DBusItem.string data.appName,
     DBusItem.uint32 data.replacesId,
     DBusItem.string data.appIcon,
     DBusItem.string data.summary,
     DBusItem.string data.body,
     DBusItem.stringList (encodeActions data.actions),
     DBusItem.variantHash data.hints,
     DBusItem.int32 data.expireTimeout,
     DBusItem.endStructure]

/-- The operator `operator>>(const QDBusArgument &, NotificationData &)`: the items it
reads from the front of the argument go into `data`; the rest of the argument is
returned with the record. The result is `none` for an argument that does not start with
a structure of the eight field types. -/
def demarshalNotificationData (argument : List DBusItem) (data : NotificationData) :
    Option (List DBusItem × NotificationData) :=
  match argument with
  | DBusItem.beginStructure :: DBusItem.string appName :: DBusItem.uint32 replacesId
      :: DBusItem.string appIcon :: DBusItem.string summary :: DBusItem.string body
      :: DBusItem.stringList tempStringList :: DBusItem.variantHash hints
      :: DBusItem.int32 expireTimeout :: DBusItem.endStructure :: rest =>
    some (rest,
      { data with
        appName := appName
        replacesId := replacesId
        appIcon := appIcon
        summary := summary
        body := body
        hints := hints
        expireTimeout := expireTimeout
        actions := decodeActions tempStringList })
  | _ => none

/-! ## Publication: validation (notification.cpp, lines 1148-1162) -/

/-- The test of the validation loop of `publish` for one cached remote action: true
when the action is logged as an invalid specification (no name, or 1, 2 or 3 of the four
callback-target fields). -/
def invalidRemoteAction (action : QVariant) : Bool :=
  let vm := action.toMap
  let callbackParameters : Nat :=
    (if (vm.value "service").toString ≠ "" then 1 else 0)
      + (if (vm.value "path").toString ≠ "" then 1 else 0)
      + (if (vm.value "iface").toString ≠ "" then 1 else 0)
      + (if (vm.value "method").toString ≠ "" then 1 else 0)
  decide ((vm.value "name").toString = "")
    || (callbackParameters != 0 && callbackParameters != 4)

/-- The remote actions the validation loop of `publish` logs a warning for. -/
def Notification.invalidRemoteActions (d : NotificationPrivate) : List QVariant :=
  d.remoteActions.filter invalidRemoteAction

/-! ## Connection provider (notification.cpp, lines 117-135 and 1973-1986) -/

/-- What the connection provider reads of a `QDBusConnection`. -/
structure QDBusConnection where
  name : String
  isConnected : Bool
  baseService : String
deriving DecidableEq

/-- The proxy to the notification manager: the arguments it was constructed with. -/
structure NotificationManagerProxy where
  service : String
  path : String
  connection : QDBusConnection
deriving DecidableEq

/-- The class `NotificationConnectionManager`: the two members the code uses, the
connection supplied from outside (`dBusConnection`) and the shared proxy (`proxy`),
each null or set. -/
structure NotificationConnectionManager where
  dBusConnection : Option QDBusConnection := none
  proxy : Option NotificationManagerProxy := none
deriving DecidableEq

def DBUS_SERVICE : String := "org.freedesktop.Notifications"
def DBUS_PATH : String := "/org/freedesktop/Notifications"

/-- The function `notificationManager`: the shared proxy, created on the first call;
`sessionBus` is what `QDBusConnection::sessionBus()` returns. -/
def notificationManager (connMgr : NotificationConnectionManager) (sessionBus : QDBusConnection) :
    NotificationManagerProxy × NotificationConnectionManager :=
  match connMgr.proxy with
  | none =>
    let serviceName :=
      match connMgr.dBusConnection with
      | some conn => if conn.isConnected ∧ conn.baseService = "" then "" else DBUS_SERVICE
      | none => DBUS_SERVICE
    let proxy : NotificationManagerProxy :=
      { service := serviceName
        path := DBUS_PATH
        connection := connMgr.dBusConnection.getD sessionBus }
    (proxy, { connMgr with proxy := some proxy })
  | some proxy => (proxy, connMgr)

/-- The function `NotificationConnectionManager::useDBusConnection`: the returned
boolean and the manager afterwards. -/
def NotificationConnectionManager.useDBusConnection (connMgr : NotificationConnectionManager)
    (conn : QDBusConnection) : Bool × NotificationConnectionManager :=
  if connMgr.proxy.isNone then
    if conn.isConnected then (true, { connMgr with dBusConnection := some conn })
    else (false, connMgr)
  else (false, connMgr)

/-- One use of the connection provider: a connection is supplied, or the proxy is asked
for. -/
inductive ConnectionCall where
  | useDBusConnection (conn : QDBusConnection)
  | notificationManager (sessionBus : QDBusConnection)

/-- The manager after a sequence of uses of the connection provider. -/
def NotificationConnectionManager.run (connMgr : NotificationConnectionManager) :
    List ConnectionCall → NotificationConnectionManager
  | [] => connMgr
  | ConnectionCall.useDBusConnection conn :: rest =>
    NotificationConnectionManager.run (connMgr.useDBusConnection conn).2 rest
  | ConnectionCall.notificationManager sessionBus :: rest =>
    NotificationConnectionManager.run (notificationManager connMgr sessionBus).2 rest

/-! ## Vocabulary of the properties: hint-backed setters -/

/-- The state `after` differs from the state `before` at most in the hint stored under
`key`: when `changed` holds that key has the value `stored`, every other hint key has
what it had, and no field outside the hint map differs. -/
def StoredOnlyUnder (key : String) (changed : Bool) (stored : QVariant)
    (before after : NotificationPrivate) : Prop :=
  (∀ k : String, VMap.find k after.hints
      = if k = key ∧ changed = true then some stored else VMap.find k before.hints)
    ∧ after = { before with hints := after.hints }

/-- A notification with two cached remote actions that the validation of `publish`
logs: one without a name and one with only a service. -/
def sampleInvalidActions : NotificationPrivate :=
  { appName := "app"
    summary := "S"
    actions := [{ name := "partial", displayName := "Partial" }]
    hints := VMap.insert HINT_URGENCY (.int 1) []
    remoteActions :=
      [QVariant.map [("displayName", QVariant.string "No name")],
       QVariant.map [("name", QVariant.string "partial"), ("service", QVariant.string "s")]] }

/-- A connected connection, as supplied from outside. -/
def sampleConnection : QDBusConnection :=
  { name := "peer", isConnected := true, baseService := "" }

/-- The session bus. -/
def sampleSessionBus : QDBusConnection :=
  { name := "session", isConnected := true, baseService := ":1.7" }

/-! ## The obsolete `remoteDBusCall...` setters (notification.cpp, lines 316-333 and 1345-1495) -/

namespace Notification

/-- The method `NotificationPrivate::firstRemoteAction`: the map of the first cached
remote action, or an empty map. -/
def firstRemoteAction (d : NotificationPrivate) : QVariantMap :=
  let firstAction := d.remoteActions.headD QVariant.invalid
  if firstAction ≠ QVariant.invalid then firstAction.toMap else []

/-- The method `NotificationPrivate::setFirstRemoteAction`: the map, named `default`
when it has no name, becomes the only remote action. -/
def setFirstRemoteAction (c : VariantCodec) (d : NotificationPrivate) (vm : QVariantMap) :
    NotificationPrivate × List Signal :=
  let name := (vm.value "name").toString
  let vm := if name = "" then vm.insert "name" (.string DEFAULT_ACTION_NAME) else vm
  setRemoteActions c d [QVariant.map vm]

/-- The common shape of `setRemoteDBusCallServiceName`, `setRemoteDBusCallObjectPath`,
`setRemoteDBusCallInterface` and `setRemoteDBusCallMethodName`: the text field `key` of
the first remote action is replaced when it differs. -/
def setRemoteDBusCallText (key : String) (c : VariantCodec) (d : NotificationPrivate)
    (text : String) : NotificationPrivate × List Signal :=
  let vm := firstRemoteAction d
  if (vm.value key).toString ≠ text then
    let vm := vm.insert key (.string text)
    let r := setFirstRemoteAction c d vm
    (r.1, r.2 ++ [Signal.remoteActionsChanged, Signal.remoteDBusCallChanged])
  else (d, [])

/-- The setter `setRemoteDBusCallServiceName`. -/
def setRemoteDBusCallServiceName (c : VariantCodec) (d : NotificationPrivate)
    (serviceName : String) : NotificationPrivate × List Signal :=
  setRemoteDBusCallText "service" c d serviceName

/-- The setter `setRemoteDBusCallObjectPath`. -/
def setRemoteDBusCallObjectPath (c : VariantCodec) (d : NotificationPrivate)
    (objectPath : String) : NotificationPrivate × List Signal :=
  setRemoteDBusCallText "path" c d objectPath

/-- The setter `setRemoteDBusCallInterface`. -/
def setRemoteDBusCallInterface (c : VariantCodec) (d : NotificationPrivate)
    (interface : String) : NotificationPrivate × List Signal :=
  setRemoteDBusCallText "iface" c d interface

/-- The setter `setRemoteDBusCallMethodName`. -/
def setRemoteDBusCallMethodName (c : VariantCodec) (d : NotificationPrivate)
    (methodName : String) : NotificationPrivate × List Signal :=
  setRemoteDBusCallText "method" c d methodName

/-- The setter `setRemoteDBusCallArguments`. -/
def setRemoteDBusCallArguments (c : VariantCodec) (d : NotificationPrivate)
    (arguments : List QVariant) : NotificationPrivate × List Signal :=
  let vm := firstRemoteAction d
  if (vm.value "arguments").toList ≠ arguments then
    let vm := vm.insert "arguments" (.list arguments)
    let r := setFirstRemoteAction c d vm
    (r.1, r.2 ++ [Signal.remoteActionsChanged, Signal.remoteDBusCallChanged])
  else (d, [])

end Notification

/-! ## The properties timestamp, iconData and progress
(notification.cpp, lines 860-873, 1081-1094 and 1737-1766) -/

/-- The Qt library operations on the values of the properties timestamp, iconData and
progress, taken as parameters. `QDateTime` and `QImage` are the types of a date and time
and of an image; the fields are, in this order: `QVariant::toDateTime()`, `operator!=` of
two dates, `QDateTime::toString(Qt::ISODate)`, `QVariant::value<NotificationImage>()`,
`operator!=` of two images, `QVariant::fromValue(NotificationImage(image))`, the variant
`QVariant(value.toDouble())` that holds the double of a value, `operator!=` of that
variant and a stored one, and `QVariant::isNull()`. -/
structure QtLibrary (QDateTime QImage : Type) where
  toDateTime : QVariant → QDateTime
  dateTimeNe : QDateTime → QDateTime → Bool
  toISODate : QDateTime → String
  toImage : QVariant → QImage
  imageNe : QImage → QImage → Bool
  imageVariant : QImage → QVariant
  doubleVariant : QVariant → QVariant
  variantNe : QVariant → QVariant → Bool
  isNull : QVariant → Bool

namespace Notification

/-- The getter `timestamp`. -/
def timestamp {QDateTime QImage : Type} (q : QtLibrary QDateTime QImage)
    (d : NotificationPrivate) : QDateTime :=
  q.toDateTime (d.hints.value HINT_TIMESTAMP)

/-- The setter `setTimestamp`: the date is stored as its ISO text. -/
def setTimestamp {QDateTime QImage : Type} (q : QtLibrary QDateTime QImage)
    (d : NotificationPrivate) (timestamp : QDateTime) : NotificationPrivate × List Signal :=
  if q.dateTimeNe timestamp (Notification.timestamp q d) then
    ({ d with hints := d.hints.insert HINT_TIMESTAMP (.string (q.toISODate timestamp)) },
      [Signal.timestampChanged])
  else (d, [])

/-- The getter `iconData`. -/
def iconData {QDateTime QImage : Type} (q : QtLibrary QDateTime QImage)
    (d : NotificationPrivate) : QImage :=
  q.toImage (d.hints.value HINT_IMAGE_DATA)

/-- The setter `setIconData`. -/
def setIconData {QDateTime QImage : Type} (q : QtLibrary QDateTime QImage)
    (d : NotificationPrivate) (image : QImage) : NotificationPrivate × List Signal :=
  if q.imageNe image (Notification.iconData q d) then
    ({ d with hints := d.hints.insert HINT_IMAGE_DATA (q.imageVariant image) },
      [Signal.iconDataChanged])
  else (d, [])

/-- The getter `progress`. -/
def progress (d : NotificationPrivate) : QVariant := d.hints.value HINT_PROGRESS

/-- The method `resetProgress`. -/
def resetProgress (d : NotificationPrivate) : NotificationPrivate × List Signal :=
  if d.hints.contains HINT_PROGRESS then
    ({ d with hints := d.hints.remove HINT_PROGRESS }, [Signal.progressChanged])
  else (d, [])

/-- The setter `setProgress`: a null value resets the progress, every other value is
stored as a double. -/
def setProgress {QDateTime QImage : Type} (q : QtLibrary QDateTime QImage)
    (d : NotificationPrivate) (value : QVariant) : NotificationPrivate × List Signal :=
  if q.isNull value then resetProgress d
  else
    let filteredValue := q.doubleVariant value
    if q.variantNe filteredValue (Notification.progress d) then
      ({ d with hints := d.hints.insert HINT_PROGRESS filteredValue }, [Signal.progressChanged])
    else (d, [])

/-- The inline setter `setRemoteAction` (notification.h, line 155). -/
def setRemoteAction (c : VariantCodec) (d : NotificationPrivate) (remoteAction : QVariant) :
    NotificationPrivate × List Signal :=
  setRemoteActions c d [remoteAction]

end Notification

/-! ## Vocabulary of the properties: sequences of operations -/

/-- One operation on a notification object: a call of one of its public setters or
methods that are not `const`, or an inbound event of the service (one of its three
slots). -/
inductive Operation (QDateTime QImage : Type) where
  | setCategory (category : String)
  | setAppName (appName : String)
  | setReplacesId (id : Nat)
  | setIcon (icon : String)
  | setAppIcon (appIcon : String)
  | setSummary (summary : String)
  | setBody (body : String)
  | setUrgency (urgency : Urgency)
  | setExpireTimeout (milliseconds : Int)
  | setTimestamp (timestamp : QDateTime)
  | setPreviewSummary (previewSummary : String)
  | setPreviewBody (previewBody : String)
  | setSubText (subText : String)
  | setSound (sound : String)
  | setSoundName (soundName : String)
  | setIconData (image : QImage)
  | setItemCount (itemCount : Int)
  | setIsTransient (value : Bool)
  | setOrigin (origin : String)
  | setMaxContentLines (max : Int)
  | setProgress (value : QVariant)
  | resetProgress
  | setRemoteActions (remoteActions : List QVariant)
  | setRemoteAction (remoteAction : QVariant)
  | setRemoteDBusCallServiceName (serviceName : String)
  | setRemoteDBusCallObjectPath (objectPath : String)
  | setRemoteDBusCallInterface (interface : String)
  | setRemoteDBusCallMethodName (methodName : String)
  | setRemoteDBusCallArguments (arguments : List QVariant)
  | setHintValue (hint : String) (value : QVariant)
  | publish (processName : String) (reply : Nat)
  | close
  | actionInvoked (id : Nat) (actionKey : String)
  | notificationClosed (id : Nat) (reason : Nat)
  | inputTextSet (id : Nat) (inputText : String)

/-- The state after one operation. -/
def Notification.apply {QDateTime QImage : Type} (c : VariantCodec)
    (q : QtLibrary QDateTime QImage) (d : NotificationPrivate) :
    Operation QDateTime QImage → NotificationPrivate
  | .setCategory v => (Notification.setCategory d v).1
  | .setAppName v => (Notification.setAppName d v).1
  | .setReplacesId v => (Notification.setReplacesId d v).1
  | .setIcon v => (Notification.setIcon d v).1
  | .setAppIcon v => (Notification.setAppIcon d v).1
  | .setSummary v => (Notification.setSummary d v).1
  | .setBody v => (Notification.setBody d v).1
  | .setUrgency v => (Notification.setUrgency d v).1
  | .setExpireTimeout v => (Notification.setExpireTimeout d v).1
  | .setTimestamp v => (Notification.setTimestamp q d v).1
  | .setPreviewSummary v => (Notification.setPreviewSummary d v).1
  | .setPreviewBody v => (Notification.setPreviewBody d v).1
  | .setSubText v => (Notification.setSubText d v).1
  | .setSound v => (Notification.setSound d v).1
  | .setSoundName v => (Notification.setSoundName d v).1
  | .setIconData v => (Notification.setIconData q d v).1
  | .setItemCount v => (Notification.setItemCount d v).1
  | .setIsTransient v => (Notification.setIsTransient d v).1
  | .setOrigin v => (Notification.setOrigin d v).1
  | .setMaxContentLines v => (Notification.setMaxContentLines d v).1
  | .setProgress v => (Notification.setProgress q d v).1
  | .resetProgress => (Notification.resetProgress d).1
  | .setRemoteActions v => (Notification.setRemoteActions c d v).1
  | .setRemoteAction v => (Notification.setRemoteAction c d v).1
  | .setRemoteDBusCallServiceName v => (Notification.setRemoteDBusCallServiceName c d v).1
  | .setRemoteDBusCallObjectPath v => (Notification.setRemoteDBusCallObjectPath c d v).1
  | .setRemoteDBusCallInterface v => (Notification.setRemoteDBusCallInterface c d v).1
  | .setRemoteDBusCallMethodName v => (Notification.setRemoteDBusCallMethodName c d v).1
  | .setRemoteDBusCallArguments v => (Notification.setRemoteDBusCallArguments c d v).1
  | .setHintValue hint value => Notification.setHintValue d hint value
  | .publish processName reply => (Notification.publish d processName reply).state
  | .close => (Notification.close d).state
  | .actionInvoked _ _ => d
  | .notificationClosed id reason => (Notification.checkNotificationClosed d id reason).1
  | .inputTextSet id inputText => (Notification.checkInputTextSet d id inputText).1

/-- The state after a sequence of operations. -/
def Notification.run {QDateTime QImage : Type} (c : VariantCodec)
    (q : QtLibrary QDateTime QImage) (d : NotificationPrivate) :
    List (Operation QDateTime QImage) → NotificationPrivate
  | [] => d
  | op :: rest => Notification.run c q (Notification.apply c q d op) rest

end Nemo

/-! # Properties -/

namespace Nemo

/-! ## Action codec -/

/-- C1: decoding the flat list produced by `encodeActions` gives back the list of action
descriptors: the same length, the same order, the same names and display names. -/
theorem C1_decodeActions_encodeActions (actions : List ActionInfo) :
    decodeActions (encodeActions actions) = actions
      ∧ (decodeActions (encodeActions actions)).length = actions.length := by
  have h : decodeActions (encodeActions actions) = actions := by
    induction actions with
    | nil => rfl
    | cons a rest ih => simp [encodeActions, decodeActions, ih]
  exact ⟨h, by rw [h]⟩

theorem decodeActions_length (l : List String) :
    (decodeActions l).length = (l.length + 1) / 2 := by
  induction l using decodeActions.induct with
  | case1 => rfl
  | case2 name => simp [decodeActions]
  | case3 name displayName rest ih =>
    simp only [decodeActions, List.length_cons, ih]
    omega

theorem decodeActions_getElem? (l : List String) (i : Nat) :
    (decodeActions l)[i]? =
      if 2 * i < l.length then
        some { name := l.getD (2 * i) "", displayName := l.getD (2 * i + 1) "" }
      else none := by
  induction l using decodeActions.induct generalizing i with
  | case1 => simp [decodeActions]
  | case2 name =>
    cases i with
    | zero => simp [decodeActions]
    | succ j => simp [decodeActions]
  | case3 name displayName rest ih =>
    cases i with
    | zero => simp [decodeActions]
    | succ j =>
      have e1 : 2 * (j + 1) = (2 * j) + 1 + 1 := by omega
      have e2 : 2 * (j + 1) + 1 = (2 * j + 1) + 1 + 1 := by omega
      simp only [decodeActions, List.getElem?_cons_succ, ih j, List.length_cons, e1, e2,
        List.getD_cons_succ]
      simp

/-- C2: for a flat list of n tokens, even or odd, `decodeActions` returns ceil(n/2)
descriptors; descriptor i has the name token 2i and the display name token 2i+1, or the
empty string when that token does not exist. The function is total, and
`decodeActions ["a","b","c"] = [{a,b},{c,""}]`. -/
theorem C2_decodeActions_pairs (l : List String) :
    (decodeActions l).length = (l.length + 1) / 2
      ∧ (∀ i : Nat, (decodeActions l)[i]? =
          if 2 * i < l.length then
            some { name := l.getD (2 * i) "", displayName := l.getD (2 * i + 1) "" }
          else none)
      ∧ decodeActions ["a", "b", "c"]
          = [{ name := "a", displayName := "b" }, { name := "c", displayName := "" }] :=
  ⟨decodeActions_length l, decodeActions_getElem? l, by decide⟩

/-! ## Callback-target serializer -/

theorem splitSkipEmptyAux_word (w : List Char) (hw : ' ' ∉ w) (rest cur : List Char) :
    splitSkipEmptyAux (w ++ rest) cur = splitSkipEmptyAux rest (cur ++ w) := by
  induction w generalizing cur with
  | nil => simp
  | cons ch w ih =>
    have hch : ch ≠ ' ' := fun h => hw (by simp [h])
    have hw2 : ' ' ∉ w := fun h => hw (by simp [h])
    have h := ih hw2 (cur ++ [ch])
    simp only [List.append_assoc, List.singleton_append] at h
    show splitSkipEmptyAux (ch :: (w ++ rest)) cur = _
    rw [splitSkipEmptyAux]
    simp only [hch, if_false, h]

/-- The text of a list of tokens, each preceded by one space. -/
theorem splitSkipEmptyAux_tokens (ts : List String) (hts : ∀ t ∈ ts, IsToken t)
    (cur : List Char) :
    splitSkipEmptyAux (ts.flatMap (fun t => ' ' :: t.data)) cur
      = (if cur = [] then [] else [String.mk cur]) ++ ts := by
  induction ts generalizing cur with
  | nil => simp [splitSkipEmptyAux]
  | cons t ts ih =>
    have ht : IsToken t := hts t (by simp)
    have hts2 : ∀ u ∈ ts, IsToken u := fun u hu => hts u (by simp [hu])
    have hne : t.data ≠ [] := by
      intro h
      apply ht.1
      cases t
      simp_all
    have hX : splitSkipEmptyAux (t.data ++ ts.flatMap (fun t => ' ' :: t.data)) [] = t :: ts := by
      rw [splitSkipEmptyAux_word _ ht.2, ih hts2]
      simp [hne]
    rw [List.flatMap_cons]
    show splitSkipEmptyAux (' ' :: (t.data ++ ts.flatMap (fun t => ' ' :: t.data))) cur = _
    rw [splitSkipEmptyAux]
    simp only [if_true, hX]
    split <;> simp

theorem foldl_append_data (args : List String) (s : String) :
    (args.foldl (fun acc arg => acc ++ arg) s).data = s.data ++ args.flatMap (fun a => a.data) := by
  induction args generalizing s with
  | nil => simp
  | cons a args ih => simp [ih, List.append_assoc]

theorem encodeDBusCall_data (c : VariantCodec) (service path iface method : String)
    (arguments : List QVariant) :
    (encodeDBusCall c service path iface method arguments).data
      = service.data ++ (path :: iface :: method :: arguments.map c.toBase64).flatMap
          (fun t => ' ' :: t.data) := by
  unfold encodeDBusCall
  cases arguments with
  | nil => simp
  | cons a args =>
    simp only [List.isEmpty_cons, Bool.false_eq_true, if_false, foldl_append_data]
    simp [List.flatMap_map, Function.comp_def]

theorem splitSkipEmpty_encodeDBusCall (c : VariantCodec) (service path iface method : String)
    (arguments : List QVariant)
    (hs : IsToken service) (hp : IsToken path) (hi : IsToken iface) (hm : IsToken method)
    (ha : ∀ a ∈ arguments, IsToken (c.toBase64 a)) :
    splitSkipEmpty (encodeDBusCall c service path iface method arguments)
      = service :: path :: iface :: method :: arguments.map c.toBase64 := by
  have hall : ∀ t ∈ path :: iface :: method :: arguments.map c.toBase64, IsToken t := by
    intro t ht
    simp only [List.mem_cons, List.mem_map] at ht
    rcases ht with rfl | rfl | rfl | ⟨a, ha1, rfl⟩
    · exact hp
    · exact hi
    · exact hm
    · exact ha a ha1
  have hne : service.data ≠ [] := by
    intro h
    apply hs.1
    cases service
    simp_all
  unfold splitSkipEmpty
  rw [encodeDBusCall_data, splitSkipEmptyAux_word _ hs.2, splitSkipEmptyAux_tokens _ hall]
  simp [hne]

theorem decodeDBusCall_encodeDBusCall (c : VariantCodec) (service path iface method : String)
    (arguments : List QVariant)
    (hs : IsToken service) (hp : IsToken path) (hi : IsToken iface) (hm : IsToken method)
    (ha : ∀ a ∈ arguments, IsToken (c.toBase64 a) ∧ c.fromBase64 (c.toBase64 a) = a) :
    decodeDBusCall c (encodeDBusCall c service path iface method arguments)
      = [("arguments", QVariant.list arguments), ("iface", QVariant.string iface),
         ("method", QVariant.string method), ("path", QVariant.string path),
         ("service", QVariant.string service)] := by
  have hmap : List.map (fun arg => c.fromBase64 arg) (arguments.map c.toBase64) = arguments := by
    rw [List.map_map]
    conv => rhs; rw [← List.map_id arguments]
    exact List.map_congr_left (fun a h => (ha a h).2)
  unfold decodeDBusCall
  rw [splitSkipEmpty_encodeDBusCall c service path iface method arguments hs hp hi hm
    (fun a h => (ha a h).1)]
  simp only [hmap]
  rfl

/-- C3 (as stated, refuted): with the non-empty service name "a b", which contains a
space, and no arguments, the decoded callback target has the service "a", not "a b":
the four fields do not come back. -/
theorem C3_counterexample_space_in_service :
    ¬ ((decodeDBusCall sampleCodec (encodeDBusCall sampleCodec "a b" "p" "i" "m" [])).value
          "service" = QVariant.string "a b"
        ∧ (decodeDBusCall sampleCodec (encodeDBusCall sampleCodec "a b" "p" "i" "m" [])).value
          "path" = QVariant.string "p"
        ∧ (decodeDBusCall sampleCodec (encodeDBusCall sampleCodec "a b" "p" "i" "m" [])).value
          "iface" = QVariant.string "i"
        ∧ (decodeDBusCall sampleCodec (encodeDBusCall sampleCodec "a b" "p" "i" "m" [])).value
          "method" = QVariant.string "m"
        ∧ (decodeDBusCall sampleCodec (encodeDBusCall sampleCodec "a b" "p" "i" "m" [])).value
          "arguments" = QVariant.list []) := by
  decide

/-- C3 (amended): for a callback target whose service, path, interface and method are
non-empty and contain no space, and arguments whose Base64 tokens are non-empty, contain
no space and are inverted by the decoder, decoding the string produced by
`encodeDBusCall` returns the same service, path, interface and method and the same
arguments in the same order. -/
theorem C3_decodeDBusCall_roundtrip (c : VariantCodec) (service path iface method : String)
    (arguments : List QVariant)
    (hs : IsToken service) (hp : IsToken path) (hi : IsToken iface) (hm : IsToken method)
    (ha : ∀ a ∈ arguments, IsToken (c.toBase64 a) ∧ c.fromBase64 (c.toBase64 a) = a) :
    (decodeDBusCall c (encodeDBusCall c service path iface method arguments)).value "service"
        = QVariant.string service
      ∧ (decodeDBusCall c (encodeDBusCall c service path iface method arguments)).value "path"
        = QVariant.string path
      ∧ (decodeDBusCall c (encodeDBusCall c service path iface method arguments)).value "iface"
        = QVariant.string iface
      ∧ (decodeDBusCall c (encodeDBusCall c service path iface method arguments)).value "method"
        = QVariant.string method
      ∧ (decodeDBusCall c (encodeDBusCall c service path iface method arguments)).value
          "arguments" = QVariant.list arguments := by
  rw [decodeDBusCall_encodeDBusCall c service path iface method arguments hs hp hi hm ha]
  refine ⟨?_, ?_, ?_, ?_, ?_⟩ <;> rfl

/-- C3, at a concrete input: the target `org.example /obj org.example.If run` with the
arguments true and false. -/
theorem C3_decodeDBusCall_roundtrip_witness :
    (decodeDBusCall sampleCodec (encodeDBusCall sampleCodec "org.example" "/obj"
        "org.example.If" "run" [QVariant.bool true, QVariant.bool false])).value "service"
        = QVariant.string "org.example"
      ∧ (decodeDBusCall sampleCodec (encodeDBusCall sampleCodec "org.example" "/obj"
        "org.example.If" "run" [QVariant.bool true, QVariant.bool false])).value "path"
        = QVariant.string "/obj"
      ∧ (decodeDBusCall sampleCodec (encodeDBusCall sampleCodec "org.example" "/obj"
        "org.example.If" "run" [QVariant.bool true, QVariant.bool false])).value "iface"
        = QVariant.string "org.example.If"
      ∧ (decodeDBusCall sampleCodec (encodeDBusCall sampleCodec "org.example" "/obj"
        "org.example.If" "run" [QVariant.bool true, QVariant.bool false])).value "method"
        = QVariant.string "run"
      ∧ (decodeDBusCall sampleCodec (encodeDBusCall sampleCodec "org.example" "/obj"
        "org.example.If" "run" [QVariant.bool true, QVariant.bool false])).value "arguments"
        = QVariant.list [QVariant.bool true, QVariant.bool false] :=
  C3_decodeDBusCall_roundtrip sampleCodec "org.example" "/obj" "org.example.If" "run"
    [QVariant.bool true, QVariant.bool false] (by decide) (by decide) (by decide) (by decide)
    (by decide)

/-! ## Containers -/

theorem VMap.find_insert (k : String) (v : QVariant) (m : VMap) (k2 : String) :
    VMap.find k2 (VMap.insert k v m) = if k2 = k then some v else VMap.find k2 m := by
  induction m with
  | nil => simp [VMap.insert, VMap.find]
  | cons p t ih =>
    obtain ⟨k0, v0⟩ := p
    simp only [VMap.insert]
    by_cases h1 : k = k0
    · subst h1
      simp only [if_true, VMap.find]
      split <;> rfl
    · simp only [h1, if_false]
      by_cases h2 : ltChars k.data k0.data = true
      · simp [h2, VMap.find]
      · simp only [h2, VMap.find, ih]
        by_cases h3 : k2 = k0
        · have h4 : k2 ≠ k := fun h => h1 (h.symm.trans h3)
          simp [h3, h4, Ne.symm h1]
        · simp [h3]

theorem VMap.value_insert (k : String) (v : QVariant) (m : VMap) (k2 : String) :
    VMap.value (VMap.insert k v m) k2 = if k2 = k then v else VMap.value m k2 := by
  unfold VMap.value
  rw [VMap.find_insert]
  split <;> rfl

theorem VMap.contains_insert (k : String) (v : QVariant) (m : VMap) (k2 : String) :
    VMap.contains (VMap.insert k v m) k2 = if k2 = k then true else VMap.contains m k2 := by
  unfold VMap.contains
  rw [VMap.find_insert]
  split <;> rfl

theorem VMap.value_nil (k : String) : VMap.value [] k = QVariant.invalid := rfl

theorem VMap.contains_nil (k : String) : VMap.contains [] k = false := rfl

theorem VMap.value_of_not_contains (m : VMap) (k : String) (h : VMap.contains m k = false) :
    VMap.value m k = QVariant.invalid := by
  unfold VMap.contains at h
  unfold VMap.value
  cases hf : VMap.find k m with
  | none => rfl
  | some v => simp [hf] at h

/-! ## Malformed callback targets -/

theorem decodeDBusCall_short (c : VariantCodec) (hint : String)
    (h : (splitSkipEmpty hint).length < 4) : decodeDBusCall c hint = [] := by
  unfold decodeDBusCall
  split
  · rename_i heq
    rw [heq] at h
    simp at h
    omega
  · rfl

/-- C5: for a descriptor whose callback-target hint is a non-empty string with fewer
than 4 space-separated non-empty tokens, `decodeActionHints` (a total function) still
emits the action, with its name and display name and with none of the keys service,
path, iface, method, arguments. -/
theorem C5_malformed_callback_target (c : VariantCodec) (actionInfo : ActionInfo)
    (rest : List ActionInfo) (hints : QVariantHash) (hint : String)
    (hstored : hints.value (HINT_REMOTE_ACTION_PREFIX ++ actionInfo.name) = QVariant.string hint)
    (hne : hint ≠ "") (hshort : (splitSkipEmpty hint).length < 4) :
    ∃ action : QVariantMap,
      decodeActionHints c (actionInfo :: rest) hints
          = QVariant.map action :: decodeActionHints c rest hints
        ∧ action.value "name" = QVariant.string actionInfo.name
        ∧ action.value "displayName" = QVariant.string actionInfo.displayName
        ∧ action.contains "service" = false
        ∧ action.contains "path" = false
        ∧ action.contains "iface" = false
        ∧ action.contains "method" = false
        ∧ action.contains "arguments" = false := by
  have hd := decodeDBusCall_short c hint hshort
  have hs : (hints.value (HINT_REMOTE_ACTION_PREFIX ++ actionInfo.name)).toString = hint := by
    rw [hstored]
    rfl
  simp only [decodeActionHints, hs, hne, ne_eq, not_false_eq_true, if_true, hd]
  refine ⟨_, rfl, ?_⟩
  by_cases hi : (hints.value (HINT_REMOTE_ACTION_ICON_PREFIX ++ actionInfo.name)).toString = ""
    <;> by_cases hc : hints.contains (HINT_REMOTE_ACTION_INPUT_PREFIX ++ actionInfo.name) = true
    <;> simp only [hi, hc, if_true, if_false, not_true_eq_false, not_false_eq_true,
          Bool.false_eq_true]
    <;> simp [VMap.value_insert, VMap.contains_insert, VMap.value_nil, VMap.contains_nil]

/-- C5, at a concrete input: the hint `only three tokens` of the action `a`. -/
theorem C5_malformed_callback_target_witness :
    ∃ action : QVariantMap,
      decodeActionHints sampleCodec ({ name := "a", displayName := "A" } :: [])
          [("x-nemo-remote-action-a", QVariant.string "only three tokens")]
          = QVariant.map action :: decodeActionHints sampleCodec []
              [("x-nemo-remote-action-a", QVariant.string "only three tokens")]
        ∧ action.value "name" = QVariant.string "a"
        ∧ action.value "displayName" = QVariant.string "A"
        ∧ action.contains "service" = false
        ∧ action.contains "path" = false
        ∧ action.contains "iface" = false
        ∧ action.contains "method" = false
        ∧ action.contains "arguments" = false :=
  C5_malformed_callback_target sampleCodec { name := "a", displayName := "A" } []
    [("x-nemo-remote-action-a", QVariant.string "only three tokens")] "only three tokens"
    (by decide) (by decide) (by decide)

/-! ## Remote-action hint codec -/

theorem encodeActionHintsStep_eq (c : VariantCodec) (rv : List ActionInfo × QVariantHash)
    (action : QVariant) :
    encodeActionHintsStep c rv action
      = (rv.1 ++ actionDescriptor action,
          (actionHintEntries c action).foldl (fun h p => VMap.insert p.1 p.2 h) rv.2) := by
  unfold encodeActionHintsStep actionHintEntries actionDescriptor remoteActionFields
  simp only []
  by_cases hn : (action.toMap.value "name").toString = ""
  · simp [hn]
  · simp only [hn, ne_eq, not_false_eq_true, if_true]
    split_ifs <;> simp_all [List.foldl]

theorem foldl_encodeActionHintsStep (c : VariantCodec) (actions : List QVariant)
    (rv : List ActionInfo × QVariantHash) :
    actions.foldl (encodeActionHintsStep c) rv
      = (rv.1 ++ actions.flatMap actionDescriptor,
          (actions.flatMap (actionHintEntries c)).foldl (fun h p => VMap.insert p.1 p.2 h) rv.2) := by
  induction actions generalizing rv with
  | nil => simp
  | cons a rest ih =>
    rw [List.foldl_cons, ih, encodeActionHintsStep_eq]
    simp [List.foldl_append, List.append_assoc]

theorem encodeActionHints_eq (c : VariantCodec) (actions : List QVariant) :
    encodeActionHints c actions
      = (actions.flatMap actionDescriptor,
          (actions.flatMap (actionHintEntries c)).foldl (fun h p => VMap.insert p.1 p.2 h) []) := by
  unfold encodeActionHints
  rw [foldl_encodeActionHintsStep]
  simp

theorem VMap.find_foldl_insert_of_not_mem (l : List (String × QVariant)) (h : VMap) (k : String)
    (hk : ∀ p ∈ l, p.1 ≠ k) :
    VMap.find k (l.foldl (fun h p => VMap.insert p.1 p.2 h) h) = VMap.find k h := by
  induction l generalizing h with
  | nil => rfl
  | cons p l ih =>
    rw [List.foldl_cons, ih _ (fun q hq => hk q (by simp [hq])), VMap.find_insert]
    have hp : k ≠ p.1 := fun e => hk p (by simp) e.symm
    simp [hp]

theorem VMap.find_foldl_insert_of_mem (l : List (String × QVariant)) (h : VMap) (k : String)
    (v : QVariant) (hv : ∀ p ∈ l, p.1 = k → p.2 = v) (hex : ∃ p ∈ l, p.1 = k) :
    VMap.find k (l.foldl (fun h p => VMap.insert p.1 p.2 h) h) = some v := by
  induction l generalizing h with
  | nil => simp at hex
  | cons p l ih =>
    rw [List.foldl_cons]
    by_cases hl : ∃ q ∈ l, q.1 = k
    · exact ih _ (fun q hq => hv q (by simp [hq])) hl
    · have hl2 : ∀ q ∈ l, q.1 ≠ k := fun q hq e => hl ⟨q, hq, e⟩
      rw [VMap.find_foldl_insert_of_not_mem l _ k hl2, VMap.find_insert]
      obtain ⟨q, hq, hqk⟩ := hex
      have hqp : q = p := by
        rcases List.mem_cons.1 hq with e | e
        · exact e
        · exact absurd hqk (hl2 q e)
      subst hqp
      have hvq := hv q (by simp) hqk
      simp [hqk, hvq]

theorem String.append_left_cancel {a x y : String} (h : a ++ x = a ++ y) : x = y := by
  have h2 := congrArg String.data h
  simp only [String.data_append, List.append_cancel_left_eq] at h2
  exact String.ext h2

theorem iconKey_eq (n : String) :
    HINT_REMOTE_ACTION_ICON_PREFIX ++ n = HINT_REMOTE_ACTION_PREFIX ++ ("icon-" ++ n) := by
  rw [← String.append_assoc]
  rfl

theorem inputKey_eq (n : String) :
    HINT_REMOTE_ACTION_INPUT_PREFIX ++ n = HINT_REMOTE_ACTION_PREFIX ++ ("input-" ++ n) := by
  rw [← String.append_assoc]
  rfl

theorem typeKey_eq (n : String) :
    HINT_REMOTE_ACTION_TYPE_PREFIX ++ n = HINT_REMOTE_ACTION_PREFIX ++ ("type-" ++ n) := by
  rw [← String.append_assoc]
  rfl

theorem icon_ne_input (x y : String) : "icon-" ++ x ≠ "input-" ++ y := by
  intro h
  have h2 := congrArg String.data h
  have e1 : "icon-".data = ['i', 'c', 'o', 'n', '-'] := rfl
  have e2 : "input-".data = ['i', 'n', 'p', 'u', 't', '-'] := rfl
  simp only [String.data_append, e1, e2, List.cons_append, List.cons.injEq] at h2
  exact absurd h2.2.1 (by decide)

theorem icon_ne_type (x y : String) : "icon-" ++ x ≠ "type-" ++ y := by
  intro h
  have h2 := congrArg String.data h
  have e1 : "icon-".data = ['i', 'c', 'o', 'n', '-'] := rfl
  have e2 : "type-".data = ['t', 'y', 'p', 'e', '-'] := rfl
  simp only [String.data_append, e1, e2, List.cons_append, List.cons.injEq] at h2
  exact absurd h2.1 (by decide)

theorem input_ne_type (x y : String) : "input-" ++ x ≠ "type-" ++ y := by
  intro h
  have h2 := congrArg String.data h
  have e1 : "input-".data = ['i', 'n', 'p', 'u', 't', '-'] := rfl
  have e2 : "type-".data = ['t', 'y', 'p', 'e', '-'] := rfl
  simp only [String.data_append, e1, e2, List.cons_append, List.cons.injEq] at h2
  exact absurd h2.1 (by decide)

/-- Every hint entry of an action has one of the four key shapes, and its value is
fixed by the shape. -/
theorem mem_actionHintEntries (c : VariantCodec) (b : QVariant) (p : String × QVariant)
    (hp : p ∈ actionHintEntries c b) :
    (p = (HINT_REMOTE_ACTION_PREFIX ++ (remoteActionFields b).name,
          QVariant.string (encodeDBusCall c (remoteActionFields b).service
            (remoteActionFields b).path (remoteActionFields b).iface
            (remoteActionFields b).method (remoteActionFields b).arguments)))
      ∨ (p = (HINT_REMOTE_ACTION_PREFIX ++ ("icon-" ++ (remoteActionFields b).name),
            QVariant.string (remoteActionFields b).icon) ∧ (remoteActionFields b).icon ≠ "")
      ∨ (p = (HINT_REMOTE_ACTION_PREFIX ++ ("input-" ++ (remoteActionFields b).name),
            QVariant.map (remoteActionFields b).input) ∧ (remoteActionFields b).input ≠ [])
      ∨ p.1 = HINT_REMOTE_ACTION_PREFIX ++ ("type-" ++ (remoteActionFields b).name) := by
  unfold actionHintEntries at hp
  simp only [] at hp
  by_cases hn : (remoteActionFields b).name = ""
  · simp [hn] at hp
  · simp only [hn, ne_eq, not_false_eq_true, if_true, List.mem_append] at hp
    rcases hp with ((hp | hp) | hp) | hp
    · left
      split at hp
      · simpa using hp
      · simp at hp
    · right; left
      split at hp
      · rename_i hi
        rw [← iconKey_eq]
        exact ⟨by simpa using hp, hi⟩
      · simp at hp
    · right; right; left
      split at hp
      · rename_i hi
        rw [← inputKey_eq]
        exact ⟨by simpa using hp, hi⟩
      · simp at hp
    · right; right; right
      have hkey : ∀ (C : Prop) [Decidable C] (K : String) (V : QVariant),
          p ∈ (if C then [(K, V)] else []) → p.1 = K := by
        intro C _ K V h
        split at h
        · simp only [List.mem_singleton] at h
          rw [h]
        · simp at h
      exact (hkey _ _ _ hp).trans (typeKey_eq _)

theorem encodeDBusCall_ne_empty (c : VariantCodec) (service path iface method : String)
    (arguments : List QVariant) (hs : service ≠ "") :
    encodeDBusCall c service path iface method arguments ≠ "" := by
  intro h
  have h2 := congrArg String.data h
  rw [encodeDBusCall_data] at h2
  have h3 : service.data = [] := by
    have := congrArg List.length h2
    simp only [List.length_append] at this
    have h4 : ("" : String).data.length = 0 := rfl
    rw [h4] at this
    exact List.length_eq_zero.1 (by omega)
  exact hs (String.ext h3)

/-- The action `decodeActionHints` emits for the descriptor of a remote action whose
callback target, icon and input block are stored in the hints as `encodeActionHints`
stores them: every field is the one of the remote action, except the type, which is
not read back. -/
theorem decodeActionHints_cons_of_callback (c : VariantCodec) (a : QVariant)
    (rest : List ActionInfo) (H : QVariantHash) (hcb : HasCallbackTarget c a)
    (h1 : H.value (HINT_REMOTE_ACTION_PREFIX ++ (remoteActionFields a).name)
      = QVariant.string (encodeDBusCall c (remoteActionFields a).service
          (remoteActionFields a).path (remoteActionFields a).iface
          (remoteActionFields a).method (remoteActionFields a).arguments))
    (h2 : (H.value (HINT_REMOTE_ACTION_ICON_PREFIX ++ (remoteActionFields a).name)).toString
      = (remoteActionFields a).icon)
    (h3 : H.contains (HINT_REMOTE_ACTION_INPUT_PREFIX ++ (remoteActionFields a).name)
      = decide ((remoteActionFields a).input ≠ []))
    (h4 : (H.value (HINT_REMOTE_ACTION_INPUT_PREFIX ++ (remoteActionFields a).name)).toMap
      = (remoteActionFields a).input) :
    (decodeActionHints c
        ({ name := (remoteActionFields a).name
           displayName := (remoteActionFields a).displayName } :: rest) H).map remoteActionFields
      = { remoteActionFields a with type := "" }
          :: (decodeActionHints c rest H).map remoteActionFields := by
  obtain ⟨hn, hs, hp, hi, hm, ha⟩ := hcb
  have henc := encodeDBusCall_ne_empty c (remoteActionFields a).service
    (remoteActionFields a).path (remoteActionFields a).iface (remoteActionFields a).method
    (remoteActionFields a).arguments hs.1
  have hdec := decodeDBusCall_encodeDBusCall c (remoteActionFields a).service
    (remoteActionFields a).path (remoteActionFields a).iface (remoteActionFields a).method
    (remoteActionFields a).arguments hs hp hi hm ha
  have h1s : (H.value (HINT_REMOTE_ACTION_PREFIX ++ (remoteActionFields a).name)).toString
      = encodeDBusCall c (remoteActionFields a).service
          (remoteActionFields a).path (remoteActionFields a).iface
          (remoteActionFields a).method (remoteActionFields a).arguments := by
    rw [h1]
    rfl
  rw [decodeActionHints]
  simp only [h1s, henc, ne_eq, not_false_eq_true, if_true, hdec, h2, h3, h4, List.map_cons,
    List.cons.injEq, and_true]
  generalize remoteActionFields a = f
  obtain ⟨name, displayName, icon, service, path, iface, method, arguments, input, type⟩ := f
  simp only []
  by_cases hic : icon = "" <;> by_cases hin : input = []
    <;> simp [hic, hin, remoteActionFields, QVariant.toMap, VMap.value_insert, VMap.value,
          VMap.find, QVariant.toString, QVariant.toList]

theorem callback_mem_actionHintEntries (c : VariantCodec) (a : QVariant)
    (hcb : HasCallbackTarget c a) :
    (HINT_REMOTE_ACTION_PREFIX ++ (remoteActionFields a).name,
      QVariant.string (encodeDBusCall c (remoteActionFields a).service
        (remoteActionFields a).path (remoteActionFields a).iface
        (remoteActionFields a).method (remoteActionFields a).arguments))
      ∈ actionHintEntries c a := by
  obtain ⟨hn, hs, hp, hi, hm, _⟩ := hcb
  unfold actionHintEntries
  simp [hn, hs.1, hp.1, hi.1, hm.1]

theorem icon_mem_actionHintEntries (c : VariantCodec) (a : QVariant)
    (hn : (remoteActionFields a).name ≠ "") (hi : (remoteActionFields a).icon ≠ "") :
    (HINT_REMOTE_ACTION_PREFIX ++ ("icon-" ++ (remoteActionFields a).name),
      QVariant.string (remoteActionFields a).icon) ∈ actionHintEntries c a := by
  rw [← iconKey_eq]
  unfold actionHintEntries
  simp [hn, hi]

theorem input_mem_actionHintEntries (c : VariantCodec) (a : QVariant)
    (hn : (remoteActionFields a).name ≠ "") (hi : (remoteActionFields a).input ≠ []) :
    (HINT_REMOTE_ACTION_PREFIX ++ ("input-" ++ (remoteActionFields a).name),
      QVariant.map (remoteActionFields a).input) ∈ actionHintEntries c a := by
  rw [← inputKey_eq]
  unfold actionHintEntries
  simp [hn, hi]

/-- What the hints produced by `encodeActionHints` hold under the three keys that
`decodeActionHints` reads for one action of the list. -/
theorem encodeActionHints_lookup (c : VariantCodec) (actions : List QVariant)
    (hnodup : (actions.map (fun a => (remoteActionFields a).name)).Nodup)
    (hapart : HintKeysApart actions) (a : QVariant) (ha : a ∈ actions)
    (hcb : HasCallbackTarget c a) :
    (encodeActionHints c actions).2.value
        (HINT_REMOTE_ACTION_PREFIX ++ (remoteActionFields a).name)
        = QVariant.string (encodeDBusCall c (remoteActionFields a).service
            (remoteActionFields a).path (remoteActionFields a).iface
            (remoteActionFields a).method (remoteActionFields a).arguments)
      ∧ ((encodeActionHints c actions).2.value
          (HINT_REMOTE_ACTION_ICON_PREFIX ++ (remoteActionFields a).name)).toString
        = (remoteActionFields a).icon
      ∧ (encodeActionHints c actions).2.contains
          (HINT_REMOTE_ACTION_INPUT_PREFIX ++ (remoteActionFields a).name)
        = decide ((remoteActionFields a).input ≠ [])
      ∧ ((encodeActionHints c actions).2.value
          (HINT_REMOTE_ACTION_INPUT_PREFIX ++ (remoteActionFields a).name)).toMap
        = (remoteActionFields a).input := by
  have hinj : ∀ b ∈ actions, (remoteActionFields b).name = (remoteActionFields a).name → b = a :=
    fun b hb e => List.inj_on_of_nodup_map hnodup hb ha e
  rw [encodeActionHints_eq]
  simp only []
  -- the callback-target key
  have f1 : VMap.find (HINT_REMOTE_ACTION_PREFIX ++ (remoteActionFields a).name)
      ((actions.flatMap (actionHintEntries c)).foldl (fun h p => VMap.insert p.1 p.2 h) [])
      = some (QVariant.string (encodeDBusCall c (remoteActionFields a).service
            (remoteActionFields a).path (remoteActionFields a).iface
            (remoteActionFields a).method (remoteActionFields a).arguments)) := by
    apply VMap.find_foldl_insert_of_mem
    · intro p hp hk
      obtain ⟨b, hb, hpb⟩ := List.mem_flatMap.1 hp
      rcases mem_actionHintEntries c b p hpb with h | ⟨h, _⟩ | ⟨h, _⟩ | h
      · rw [h] at hk ⊢
        have e := hinj b hb (String.append_left_cancel hk)
        rw [e]
      · rw [h] at hk
        exact absurd (String.append_left_cancel hk).symm (hapart a ha b hb).1
      · rw [h] at hk
        exact absurd (String.append_left_cancel hk).symm (hapart a ha b hb).2.1
      · rw [h] at hk
        exact absurd (String.append_left_cancel hk).symm (hapart a ha b hb).2.2
    · exact ⟨_, List.mem_flatMap.2 ⟨a, ha, callback_mem_actionHintEntries c a hcb⟩, rfl⟩
  -- the icon key
  have f2 : VMap.find (HINT_REMOTE_ACTION_PREFIX ++ ("icon-" ++ (remoteActionFields a).name))
      ((actions.flatMap (actionHintEntries c)).foldl (fun h p => VMap.insert p.1 p.2 h) [])
      = if (remoteActionFields a).icon ≠ "" then some (QVariant.string (remoteActionFields a).icon)
        else none := by
    have hcases : ∀ p ∈ actions.flatMap (actionHintEntries c),
        p.1 = HINT_REMOTE_ACTION_PREFIX ++ ("icon-" ++ (remoteActionFields a).name) →
        p.2 = QVariant.string (remoteActionFields a).icon ∧ (remoteActionFields a).icon ≠ "" := by
      intro p hp hk
      obtain ⟨b, hb, hpb⟩ := List.mem_flatMap.1 hp
      rcases mem_actionHintEntries c b p hpb with h | ⟨h, hne⟩ | ⟨h, _⟩ | h
      · rw [h] at hk
        exact absurd (String.append_left_cancel hk) (hapart b hb a ha).1
      · rw [h] at hk
        have e := hinj b hb (String.append_left_cancel (String.append_left_cancel hk))
        rw [h, ← e]
        exact ⟨rfl, hne⟩
      · rw [h] at hk
        exact absurd (String.append_left_cancel hk).symm (icon_ne_input _ _)
      · rw [h] at hk
        exact absurd (String.append_left_cancel hk).symm (icon_ne_type _ _)
    by_cases hi : (remoteActionFields a).icon = ""
    · rw [VMap.find_foldl_insert_of_not_mem _ _ _ (fun p hp hk => (hcases p hp hk).2 hi)]
      simp [hi, VMap.find]
    · rw [VMap.find_foldl_insert_of_mem _ _ _ _ (fun p hp hk => (hcases p hp hk).1)
        ⟨_, List.mem_flatMap.2 ⟨a, ha, icon_mem_actionHintEntries c a hcb.1 hi⟩, rfl⟩]
      simp [hi]
  -- the input key
  have f3 : VMap.find (HINT_REMOTE_ACTION_PREFIX ++ ("input-" ++ (remoteActionFields a).name))
      ((actions.flatMap (actionHintEntries c)).foldl (fun h p => VMap.insert p.1 p.2 h) [])
      = if (remoteActionFields a).input ≠ [] then some (QVariant.map (remoteActionFields a).input)
        else none := by
    have hcases : ∀ p ∈ actions.flatMap (actionHintEntries c),
        p.1 = HINT_REMOTE_ACTION_PREFIX ++ ("input-" ++ (remoteActionFields a).name) →
        p.2 = QVariant.map (remoteActionFields a).input ∧ (remoteActionFields a).input ≠ [] := by
      intro p hp hk
      obtain ⟨b, hb, hpb⟩ := List.mem_flatMap.1 hp
      rcases mem_actionHintEntries c b p hpb with h | ⟨h, _⟩ | ⟨h, hne⟩ | h
      · rw [h] at hk
        exact absurd (String.append_left_cancel hk) (hapart b hb a ha).2.1
      · rw [h] at hk
        exact absurd (String.append_left_cancel hk) (icon_ne_input _ _)
      · rw [h] at hk
        have e := hinj b hb (String.append_left_cancel (String.append_left_cancel hk))
        rw [h, ← e]
        exact ⟨rfl, hne⟩
      · rw [h] at hk
        exact absurd (String.append_left_cancel hk).symm (input_ne_type _ _)
    by_cases hi : (remoteActionFields a).input = []
    · rw [VMap.find_foldl_insert_of_not_mem _ _ _ (fun p hp hk => (hcases p hp hk).2 hi)]
      simp [hi, VMap.find]
    · rw [VMap.find_foldl_insert_of_mem _ _ _ _ (fun p hp hk => (hcases p hp hk).1)
        ⟨_, List.mem_flatMap.2 ⟨a, ha, input_mem_actionHintEntries c a hcb.1 hi⟩, rfl⟩]
      simp [hi]
  rw [iconKey_eq, inputKey_eq]
  unfold VMap.value VMap.contains
  rw [f1, f2, f3]
  refine ⟨rfl, ?_, ?_, ?_⟩
  · by_cases hi : (remoteActionFields a).icon = ""
    · simp [hi, QVariant.toString]
    · simp [hi, QVariant.toString]
  · by_cases hi : (remoteActionFields a).input = [] <;> simp [hi]
  · by_cases hi : (remoteActionFields a).input = []
    · simp [hi, QVariant.toMap]
    · simp [hi, QVariant.toMap]

theorem decodeActionHints_of_lookup (c : VariantCodec) (H : QVariantHash) (l : List QVariant)
    (hl : ∀ a ∈ l, HasCallbackTarget c a
      ∧ H.value (HINT_REMOTE_ACTION_PREFIX ++ (remoteActionFields a).name)
        = QVariant.string (encodeDBusCall c (remoteActionFields a).service
            (remoteActionFields a).path (remoteActionFields a).iface
            (remoteActionFields a).method (remoteActionFields a).arguments)
      ∧ (H.value (HINT_REMOTE_ACTION_ICON_PREFIX ++ (remoteActionFields a).name)).toString
        = (remoteActionFields a).icon
      ∧ H.contains (HINT_REMOTE_ACTION_INPUT_PREFIX ++ (remoteActionFields a).name)
        = decide ((remoteActionFields a).input ≠ [])
      ∧ (H.value (HINT_REMOTE_ACTION_INPUT_PREFIX ++ (remoteActionFields a).name)).toMap
        = (remoteActionFields a).input) :
    (decodeActionHints c (l.flatMap actionDescriptor) H).map remoteActionFields
      = l.map (fun a => { remoteActionFields a with type := "" }) := by
  induction l with
  | nil => rfl
  | cons a l ih =>
    obtain ⟨hcb, h1, h2, h3, h4⟩ := hl a (by simp)
    have hd : actionDescriptor a
        = [{ name := (remoteActionFields a).name
             displayName := (remoteActionFields a).displayName }] := by
      unfold actionDescriptor
      simp [hcb.1]
    rw [List.flatMap_cons, hd, List.singleton_append,
      decodeActionHints_cons_of_callback c a _ H hcb h1 h2 h3 h4,
      ih (fun b hb => hl b (by simp [hb]))]
    rfl

/-- C4 (as stated, refuted): three lists of remote actions with distinct non-empty names
that do not come back from `decodeActionHints` as they went into `encodeActionHints`.
The type "custom" of the first comes back empty (the type hint is never read); the second,
which has no callback target, does not come back at all; in the third the icon hint of
`a` takes the key of the callback target of `icon-a`, whose service is lost. -/
theorem C4_counterexample_lossy :
    (([sampleRemoteAction].map (fun a => (remoteActionFields a).name)).Nodup
        ∧ (∀ a ∈ [sampleRemoteAction], (remoteActionFields a).name ≠ "")
        ∧ (roundTripActions sampleCodec [sampleRemoteAction]).map remoteActionFields
            ≠ [sampleRemoteAction].map remoteActionFields
        ∧ (roundTripActions sampleCodec [sampleRemoteAction]).map
            (fun a => (remoteActionFields a).type) = [""]
        ∧ [sampleRemoteAction].map (fun a => (remoteActionFields a).type) = ["custom"])
      ∧ (([samplePlainAction].map (fun a => (remoteActionFields a).name)).Nodup
        ∧ (∀ a ∈ [samplePlainAction], (remoteActionFields a).name ≠ "")
        ∧ roundTripActions sampleCodec [samplePlainAction] = [])
      ∧ (([sampleIconPrefixedAction, sampleIconAction].map
            (fun a => (remoteActionFields a).name)).Nodup
        ∧ (∀ a ∈ [sampleIconPrefixedAction, sampleIconAction], (remoteActionFields a).name ≠ "")
        ∧ (roundTripActions sampleCodec [sampleIconPrefixedAction, sampleIconAction]).map
            (fun a => (remoteActionFields a).service) = ["", "s"]
        ∧ [sampleIconPrefixedAction, sampleIconAction].map
            (fun a => (remoteActionFields a).service) = ["s", "s"]) := by
  decide

/-- C4 (amended): for every list of remote actions with distinct non-empty names, each
with a complete callback target whose service, path, interface and method contain no
space and whose arguments have usable Base64 tokens that the decoder inverts, and such
that no name is `icon-`, `input-` or `type-` followed by a name of the list,
`decodeActionHints` applied to the descriptors and hints produced by `encodeActionHints`
yields the same actions in the same order, with the same name, displayName, icon,
callback target (with arguments) and input block; the type is not read back and comes
out empty. -/
theorem C4_remote_actions_roundtrip (c : VariantCodec) (actions : List QVariant)
    (hnodup : (actions.map (fun a => (remoteActionFields a).name)).Nodup)
    (hcb : ∀ a ∈ actions, HasCallbackTarget c a)
    (hapart : HintKeysApart actions) :
    (roundTripActions c actions).map remoteActionFields
      = actions.map (fun a => { remoteActionFields a with type := "" }) := by
  unfold roundTripActions
  have hfirst : (encodeActionHints c actions).1 = actions.flatMap actionDescriptor := by
    rw [encodeActionHints_eq]
  rw [hfirst]
  exact decodeActionHints_of_lookup c _ actions
    (fun a ha => ⟨hcb a ha, encodeActionHints_lookup c actions hnodup hapart a ha (hcb a ha)⟩)

/-- C4, at a concrete input: the action `reply` with icon, input block, type and two
arguments, followed by the action `default`. -/
theorem C4_remote_actions_roundtrip_witness :
    (roundTripActions sampleCodec [sampleRemoteAction, sampleDefaultAction]).map
        remoteActionFields
      = [sampleRemoteAction, sampleDefaultAction].map
          (fun a => { remoteActionFields a with type := "" }) :=
  C4_remote_actions_roundtrip sampleCodec [sampleRemoteAction, sampleDefaultAction]
    (by decide) (by decide) (by decide)

/-! ## Urgency -/

/-- C6: for every integer v stored under the urgency hint, `urgency()` is the enumerator
with the value max(0, min(2, v)): Critical for every v >= 2, Low for every v <= 0, Normal
for 1. The cast always meets an enumerator, so nothing is surfaced as an error. -/
theorem C6_urgency_clamped (d : NotificationPrivate) (v : Int)
    (hstored : d.hints.value HINT_URGENCY = QVariant.int v) :
    Notification.urgencyValue d = max 0 (min 2 v)
      ∧ Notification.urgency d
          = some (if v ≤ 0 then Urgency.Low else if v = 1 then Urgency.Normal
              else Urgency.Critical)
      ∧ (Notification.urgency d).map Urgency.toInt = some (max 0 (min 2 v)) := by
  have hv : Notification.urgencyValue d = max 0 (min 2 v) := by
    simp [Notification.urgencyValue, hstored, QVariant.toInt, Urgency.toInt]
  have hu : Notification.urgency d
      = some (if v ≤ 0 then Urgency.Low else if v = 1 then Urgency.Normal
          else Urgency.Critical) := by
    unfold Notification.urgency
    rw [hv]
    unfold Urgency.ofInt?
    by_cases h0 : v ≤ 0
    · have e : max 0 (min 2 v) = 0 := by omega
      simp [e, h0]
    · by_cases h1 : v = 1
      · subst h1
        decide
      · have e : max 0 (min 2 v) = 2 := by omega
        simp [e, h0, h1]
  refine ⟨hv, hu, ?_⟩
  rw [hu]
  by_cases h0 : v ≤ 0
  · have e : max 0 (min 2 v) = 0 := by omega
    simp [e, h0, Urgency.toInt]
  · by_cases h1 : v = 1
    · subst h1
      decide
    · have e : max 0 (min 2 v) = 2 := by omega
      simp [e, h0, h1, Urgency.toInt]

/-- C6, at the concrete inputs of the specification: the urgency hint set to 5 reads as
Critical, and set to -3 it reads as Low. -/
theorem C6_urgency_clamped_witness :
    Notification.urgency
        (Notification.setHintValue Notification.new HINT_URGENCY (QVariant.int 5))
        = some Urgency.Critical
      ∧ Notification.urgency
        (Notification.setHintValue Notification.new HINT_URGENCY (QVariant.int (-3)))
        = some Urgency.Low :=
  ⟨(C6_urgency_clamped
      (Notification.setHintValue Notification.new HINT_URGENCY (QVariant.int 5)) 5
      (by decide)).2.1.trans (by decide),
    (C6_urgency_clamped
      (Notification.setHintValue Notification.new HINT_URGENCY (QVariant.int (-3))) (-3)
      (by decide)).2.1.trans (by decide)⟩

/-! ## Publication -/

theorem setDefaultPreview_value (hints : QVariantHash) (hint defaultValue k : String) :
    (Notification.setDefaultPreview hints hint defaultValue).value k
      = if k = hint ∧ hints.contains hint = false then QVariant.string defaultValue
        else hints.value k := by
  unfold Notification.setDefaultPreview
  by_cases hc : hints.contains hint = true
  · simp [hc]
  · simp only [hc, Bool.false_eq_true, if_false, VMap.value_insert]
    have hc2 : hints.contains hint = false := by simpa using hc
    simp [hc2]

theorem setDefaultPreview_contains (hints : QVariantHash) (hint defaultValue k : String) :
    (Notification.setDefaultPreview hints hint defaultValue).contains k
      = (decide (k = hint) || hints.contains k) := by
  unfold Notification.setDefaultPreview
  by_cases hc : hints.contains hint = true
  · by_cases hk : k = hint
    · simp [hc, hk]
    · simp [hc, hk]
  · simp only [hc, Bool.false_eq_true, if_false, VMap.contains_insert]
    by_cases hk : k = hint <;> simp [hk]

theorem publish_sent_hints (d : NotificationPrivate) (processName : String) (reply : Nat) :
    (Notification.publish d processName reply).sent.hints
      = Notification.setDefaultPreview
          (Notification.setDefaultPreview
            (if d.hints.contains HINT_OWNER then d.hints
              else d.hints.insert HINT_OWNER (QVariant.string processName))
            HINT_PREVIEW_SUMMARY d.summary)
          HINT_PREVIEW_BODY d.body := by
  unfold Notification.publish
  by_cases h : d.hints.contains HINT_OWNER = true <;> simp [h]

theorem publish_sent_preview (d : NotificationPrivate) (processName : String) (reply : Nat) :
    (Notification.publish d processName reply).sent.hints.value HINT_PREVIEW_SUMMARY
        = (if d.hints.contains HINT_PREVIEW_SUMMARY then d.hints.value HINT_PREVIEW_SUMMARY
            else QVariant.string d.summary)
      ∧ (Notification.publish d processName reply).sent.hints.value HINT_PREVIEW_BODY
        = (if d.hints.contains HINT_PREVIEW_BODY then d.hints.value HINT_PREVIEW_BODY
            else QVariant.string d.body) := by
  have e1 : HINT_PREVIEW_SUMMARY ≠ HINT_PREVIEW_BODY := by decide
  have e2 : HINT_PREVIEW_SUMMARY ≠ HINT_OWNER := by decide
  have e3 : HINT_PREVIEW_BODY ≠ HINT_OWNER := by decide
  have e4 : HINT_PREVIEW_BODY ≠ HINT_PREVIEW_SUMMARY := by decide
  rw [publish_sent_hints]
  constructor
  · rw [setDefaultPreview_value, setDefaultPreview_value]
    by_cases ho : d.hints.contains HINT_OWNER = true
      <;> by_cases hp : d.hints.contains HINT_PREVIEW_SUMMARY = true
      <;> simp [ho, hp, e1, e2, VMap.contains_insert, VMap.value_insert]
  · rw [setDefaultPreview_value, setDefaultPreview_contains, setDefaultPreview_value]
    by_cases ho : d.hints.contains HINT_OWNER = true
      <;> by_cases hp : d.hints.contains HINT_PREVIEW_BODY = true
      <;> simp [ho, hp, e3, e4, VMap.contains_insert, VMap.value_insert]

/-- C7: in the hint map that `publish()` sends, x-nemo-preview-summary is the stored hint
value when that key is present in the notification's hints (an empty string included) and
the summary when the key is absent; x-nemo-preview-body likewise with the body. With
summary "S", body "B" and no preview hints, the sent values are "S" and "B". -/
theorem C7_publish_preview_defaults (d : NotificationPrivate) (processName : String)
    (reply : Nat) :
    (Notification.publish d processName reply).sent.hints.value HINT_PREVIEW_SUMMARY
        = (if d.hints.contains HINT_PREVIEW_SUMMARY then d.hints.value HINT_PREVIEW_SUMMARY
            else QVariant.string d.summary)
      ∧ (Notification.publish d processName reply).sent.hints.value HINT_PREVIEW_BODY
        = (if d.hints.contains HINT_PREVIEW_BODY then d.hints.value HINT_PREVIEW_BODY
            else QVariant.string d.body)
      ∧ (Notification.publish
            (Notification.setBody (Notification.setSummary Notification.new "S").1 "B").1
            processName reply).sent.hints.value HINT_PREVIEW_SUMMARY = QVariant.string "S"
      ∧ (Notification.publish
            (Notification.setBody (Notification.setSummary Notification.new "S").1 "B").1
            processName reply).sent.hints.value HINT_PREVIEW_BODY = QVariant.string "B"
      ∧ (Notification.publish
            (Notification.setHintValue (Notification.setSummary Notification.new "S").1
              HINT_PREVIEW_SUMMARY (QVariant.string ""))
            processName reply).sent.hints.value HINT_PREVIEW_SUMMARY = QVariant.string "" := by
  refine ⟨(publish_sent_preview d processName reply).1, (publish_sent_preview d processName reply).2,
    ?_, ?_, ?_⟩
  · rw [(publish_sent_preview _ processName reply).1]
    decide
  · rw [(publish_sent_preview _ processName reply).2]
    decide
  · rw [(publish_sent_preview _ processName reply).1]
    decide

theorem setSummary_fields (d : NotificationPrivate) (summary : String) :
    (Notification.setSummary d summary).1.summary = summary
      ∧ (Notification.setSummary d summary).1.hints = d.hints := by
  unfold Notification.setSummary
  by_cases h : d.summary = summary <;> simp [h]

theorem setBody_fields (d : NotificationPrivate) (body : String) :
    (Notification.setBody d body).1.body = body
      ∧ (Notification.setBody d body).1.hints = d.hints := by
  unfold Notification.setBody
  by_cases h : d.body = body <;> simp [h]

theorem setPreviewSummary_absent (d : NotificationPrivate)
    (h : d.hints.contains HINT_PREVIEW_SUMMARY = false) :
    Notification.setPreviewSummary d "" = (d, []) := by
  unfold Notification.setPreviewSummary Notification.previewSummary
  rw [VMap.value_of_not_contains _ _ h]
  rfl

theorem setPreviewBody_absent (d : NotificationPrivate)
    (h : d.hints.contains HINT_PREVIEW_BODY = false) :
    Notification.setPreviewBody d "" = (d, []) := by
  unfold Notification.setPreviewBody Notification.previewBody
  rw [VMap.value_of_not_contains _ _ h]
  rfl

theorem setPreviewSummary_present (d : NotificationPrivate)
    (h : d.hints.contains HINT_PREVIEW_SUMMARY = true) :
    (Notification.setPreviewSummary d "").1.hints.contains HINT_PREVIEW_SUMMARY = true
      ∧ ((Notification.setPreviewSummary d "").1.hints.value HINT_PREVIEW_SUMMARY).toString = "" := by
  unfold Notification.setPreviewSummary
  by_cases hp : Notification.previewSummary d = ""
  · simp only [hp, ne_eq, not_true_eq_false, if_false]
    exact ⟨h, hp⟩
  · have hp2 : "" ≠ Notification.previewSummary d := fun e => hp e.symm
    simp only [hp2, ne_eq, not_false_eq_true, if_true, VMap.contains_insert, VMap.value_insert]
    exact ⟨trivial, rfl⟩

theorem setPreviewBody_present (d : NotificationPrivate)
    (h : d.hints.contains HINT_PREVIEW_BODY = true) :
    (Notification.setPreviewBody d "").1.hints.contains HINT_PREVIEW_BODY = true
      ∧ ((Notification.setPreviewBody d "").1.hints.value HINT_PREVIEW_BODY).toString = "" := by
  unfold Notification.setPreviewBody
  by_cases hp : Notification.previewBody d = ""
  · simp only [hp, ne_eq, not_true_eq_false, if_false]
    exact ⟨h, hp⟩
  · have hp2 : "" ≠ Notification.previewBody d := fun e => hp e.symm
    simp only [hp2, ne_eq, not_false_eq_true, if_true, VMap.contains_insert, VMap.value_insert]
    exact ⟨trivial, rfl⟩

/-- C8 (as stated, refuted): on a newly constructed notification with summary "S",
`setPreviewSummary("")` followed by `publish()` sends the preview summary "S", not the
empty string. -/
theorem C8_counterexample_fresh_preview :
    (Notification.publish
        (Notification.setPreviewSummary (Notification.setSummary Notification.new "S").1 "").1
        "app" 1).sent.hints.value HINT_PREVIEW_SUMMARY = QVariant.string "S"
      ∧ ¬ ((Notification.publish
        (Notification.setPreviewSummary (Notification.setSummary Notification.new "S").1 "").1
        "app" 1).sent.hints.value HINT_PREVIEW_SUMMARY = QVariant.string "") := by
  decide

/-- C8 (amended): when the preview-summary (preview-body) hint is present, calling
`setPreviewSummary("")` (`setPreviewBody("")`) before `publish()` makes the sent hint read
as the empty string, not as the summary (body). When the hint is absent, as on a newly
constructed notification with summary S (body B), the getter already reads empty, so the
setter changes nothing and `publish()` sends the summary (body). -/
theorem C8_preview_reset (d : NotificationPrivate) (S B processName : String) (reply : Nat) :
    ((Notification.publish (Notification.setPreviewSummary d "").1 processName
          reply).sent.hints.value HINT_PREVIEW_SUMMARY).toString
        = (if d.hints.contains HINT_PREVIEW_SUMMARY then "" else d.summary)
      ∧ ((Notification.publish (Notification.setPreviewBody d "").1 processName
          reply).sent.hints.value HINT_PREVIEW_BODY).toString
        = (if d.hints.contains HINT_PREVIEW_BODY then "" else d.body)
      ∧ Notification.setPreviewSummary (Notification.setSummary Notification.new S).1 ""
          = ((Notification.setSummary Notification.new S).1, [])
      ∧ (Notification.publish
          (Notification.setPreviewSummary (Notification.setSummary Notification.new S).1 "").1
          processName reply).sent.hints.value HINT_PREVIEW_SUMMARY = QVariant.string S
      ∧ Notification.setPreviewBody (Notification.setBody Notification.new B).1 ""
          = ((Notification.setBody Notification.new B).1, [])
      ∧ (Notification.publish
          (Notification.setPreviewBody (Notification.setBody Notification.new B).1 "").1
          processName reply).sent.hints.value HINT_PREVIEW_BODY = QVariant.string B
      ∧ (Notification.publish (Notification.setPreviewSummary
          (Notification.setPreviewSummary Notification.new "ps").1 "").1
          processName reply).sent.hints.value HINT_PREVIEW_SUMMARY = QVariant.string ""
      ∧ (Notification.publish (Notification.setPreviewBody
          (Notification.setPreviewBody Notification.new "pb").1 "").1
          processName reply).sent.hints.value HINT_PREVIEW_BODY = QVariant.string "" := by
  have hS := setSummary_fields Notification.new S
  have hB := setBody_fields Notification.new B
  have hSabs : (Notification.setSummary Notification.new S).1.hints.contains HINT_PREVIEW_SUMMARY
      = false := by
    rw [hS.2]
    decide
  have hBabs : (Notification.setBody Notification.new B).1.hints.contains HINT_PREVIEW_BODY
      = false := by
    rw [hB.2]
    decide
  refine ⟨?_, ?_, setPreviewSummary_absent _ hSabs, ?_, setPreviewBody_absent _ hBabs, ?_,
    ?_, ?_⟩
  · by_cases hs : d.hints.contains HINT_PREVIEW_SUMMARY = true
    · rw [(publish_sent_preview _ processName reply).1, (setPreviewSummary_present d hs).1,
        if_pos rfl, if_pos hs]
      exact (setPreviewSummary_present d hs).2
    · have hs2 : d.hints.contains HINT_PREVIEW_SUMMARY = false := by simpa using hs
      rw [setPreviewSummary_absent d hs2, (publish_sent_preview _ processName reply).1, hs2]
      rfl
  · by_cases hb : d.hints.contains HINT_PREVIEW_BODY = true
    · rw [(publish_sent_preview _ processName reply).2, (setPreviewBody_present d hb).1,
        if_pos rfl, if_pos hb]
      exact (setPreviewBody_present d hb).2
    · have hb2 : d.hints.contains HINT_PREVIEW_BODY = false := by simpa using hb
      rw [setPreviewBody_absent d hb2, (publish_sent_preview _ processName reply).2, hb2]
      rfl
  · rw [setPreviewSummary_absent _ hSabs, (publish_sent_preview _ processName reply).1, hSabs,
      hS.1]
    rfl
  · rw [setPreviewBody_absent _ hBabs, (publish_sent_preview _ processName reply).2, hBabs,
      hB.1]
    rfl
  · rw [(publish_sent_preview _ processName reply).1]
    decide
  · rw [(publish_sent_preview _ processName reply).2]
    decide

/-! ## Inbound action-invoked events -/

theorem inputRejected_eq_false_iff (inputText : String) (input : QVariantMap) :
    Notification.inputRejected inputText input = false ↔ InputAccepted inputText input := by
  unfold Notification.inputRejected InputAccepted
  by_cases ht : inputText = ""
  · simp [ht]
  · by_cases hc : input.contains "choices" = true
    · by_cases hm : inputText ∈ (input.value "choices").toStringList
      · simp [ht, hc, hm]
      · by_cases he : input.contains "editable" = true
        · simp [ht, hc, hm, he]
        · have he2 : input.contains "editable" = false := by simpa using he
          have hv := VMap.value_of_not_contains input "editable" he2
          simp [ht, hc, hm, he2, hv, QVariant.toBool]
    · have hc2 : input.contains "choices" = false := by simpa using hc
      simp [ht, hc2]

theorem checkActionInvokedLoop_eq (inputText actionKey : String) (actions : List QVariant) :
    Notification.checkActionInvokedLoop inputText actionKey actions
      = match findRemoteAction actionKey actions with
        | none => []
        | some vm =>
          if vm.contains "input" then
            if InputAccepted inputText (vm.value "input").toMap then
              [Signal.inputActionInvoked actionKey inputText]
            else []
          else [Signal.actionInvoked actionKey] := by
  induction actions with
  | nil => rfl
  | cons action rest ih =>
    have e1 : Notification.checkActionInvokedLoop inputText actionKey (action :: rest)
        = if (action.toMap.value "name").toString ≠ ""
              ∧ (action.toMap.value "name").toString = actionKey then
            if action.toMap.contains "input" then
              if Notification.inputRejected inputText (action.toMap.value "input").toMap then []
              else [Signal.inputActionInvoked actionKey inputText]
            else [Signal.actionInvoked actionKey]
          else Notification.checkActionInvokedLoop inputText actionKey rest := rfl
    have e2 : findRemoteAction actionKey (action :: rest)
        = if (action.toMap.value "name").toString ≠ ""
              ∧ (action.toMap.value "name").toString = actionKey then some action.toMap
          else findRemoteAction actionKey rest := rfl
    rw [e1, e2]
    by_cases hm : (action.toMap.value "name").toString ≠ ""
        ∧ (action.toMap.value "name").toString = actionKey
    · rw [if_pos hm, if_pos hm]
      by_cases hi : action.toMap.contains "input" = true
      · simp only [hi, if_true]
        by_cases hr : Notification.inputRejected inputText (action.toMap.value "input").toMap = true
        · have hna : ¬ InputAccepted inputText (action.toMap.value "input").toMap := by
            rw [← inputRejected_eq_false_iff]
            simp [hr]
          simp [hr, hna]
        · have hr2 : Notification.inputRejected inputText (action.toMap.value "input").toMap
              = false := by simpa using hr
          have ha := (inputRejected_eq_false_iff _ _).1 hr2
          simp [hr2, ha]
      · simp [hi]
    · rw [if_neg hm, if_neg hm]
      exact ih

theorem actionEvents_loop (inputText actionKey : String) (actions : List QVariant) :
    actionEvents (Notification.checkActionInvokedLoop inputText actionKey actions)
      = Notification.checkActionInvokedLoop inputText actionKey actions := by
  rw [checkActionInvokedLoop_eq]
  cases findRemoteAction actionKey actions with
  | none => rfl
  | some vm =>
    simp only []
    split
    · split <;> rfl
    · rfl

theorem actionEvents_checkActionInvoked (d : NotificationPrivate) (actionKey : String) :
    actionEvents (Notification.checkActionInvoked d d.replacesId actionKey)
      = Notification.checkActionInvokedLoop d.inputText actionKey d.remoteActions := by
  unfold Notification.checkActionInvoked
  simp only [if_true]
  unfold actionEvents
  rw [List.filter_append]
  have h := actionEvents_loop d.inputText actionKey d.remoteActions
  unfold actionEvents at h
  rw [h]
  split <;> simp

/-- C9: for an action-invoked event whose id matches and whose action name is matched by
the cached remote action `vm`: when `vm` has an input block, the input-action event
(action name, pending text) is the one action event raised if the pending text is not
empty and the block has no choices, or the text is one of the choices, or editable is
true, and no action event is raised otherwise; when `vm` has no input block the plain
`actionInvoked(name)` event is raised. -/
theorem C9_action_invoked_gating (d : NotificationPrivate) (actionKey : String)
    (vm : QVariantMap) (hfound : findRemoteAction actionKey d.remoteActions = some vm) :
    actionEvents (Notification.checkActionInvoked d d.replacesId actionKey)
      = if vm.contains "input" then
          if InputAccepted d.inputText (vm.value "input").toMap then
            [Signal.inputActionInvoked actionKey d.inputText]
          else []
        else [Signal.actionInvoked actionKey] := by
  rw [actionEvents_checkActionInvoked, checkActionInvokedLoop_eq, hfound]

/-- C9, at the concrete input of the specification: choices Yes and No, not editable;
the pending text `Yes` raises `inputActionInvoked("reply", "Yes")` and the pending text
`Maybe` raises nothing. -/
theorem C9_action_invoked_gating_witness :
    actionEvents (Notification.checkActionInvoked (sampleInputNotification "Yes") 7 "reply")
        = [Signal.inputActionInvoked "reply" "Yes"]
      ∧ actionEvents (Notification.checkActionInvoked (sampleInputNotification "Maybe") 7 "reply")
        = []
      ∧ Notification.checkActionInvoked (sampleInputNotification "Maybe") 7 "reply" = [] :=
  ⟨(C9_action_invoked_gating (sampleInputNotification "Yes") "reply"
      [("input", QVariant.map
          [("choices", QVariant.stringList ["Yes", "No"]), ("editable", QVariant.bool false),
           ("label", QVariant.string "Answer")]),
       ("name", QVariant.string "reply")] (by decide)).trans (by decide),
    (C9_action_invoked_gating (sampleInputNotification "Maybe") "reply"
      [("input", QVariant.map
          [("choices", QVariant.stringList ["Yes", "No"]), ("editable", QVariant.bool false),
           ("label", QVariant.string "Answer")]),
       ("name", QVariant.string "reply")] (by decide)).trans (by decide),
    by decide⟩

theorem checkActionInvokedLoop_count_clicked (inputText actionKey : String)
    (actions : List QVariant) :
    (Notification.checkActionInvokedLoop inputText actionKey actions).count Signal.clicked = 0 := by
  rw [checkActionInvokedLoop_eq]
  cases findRemoteAction actionKey actions with
  | none => rfl
  | some vm =>
    simp only []
    split
    · split <;> simp
    · simp

/-- C10: for every action-invoked event whose id is the notification's id and whose
action name is "default", the clicked event is raised exactly once, whatever the cached
remote actions and the pending input text are, also when the input gate rejects the
action. -/
theorem C10_default_action_clicked (d : NotificationPrivate) :
    (Notification.checkActionInvoked d d.replacesId DEFAULT_ACTION_NAME).count Signal.clicked = 1
      ∧ (Notification.checkActionInvoked d d.replacesId "default").count Signal.clicked = 1 := by
  have h : (Notification.checkActionInvoked d d.replacesId DEFAULT_ACTION_NAME).count
      Signal.clicked = 1 := by
    unfold Notification.checkActionInvoked
    simp only [if_true, List.count_append, checkActionInvokedLoop_count_clicked]
    simp
  exact ⟨h, h⟩

/-! ## Closing -/

/-- C11: `close()` sends a `CloseNotification(id)` request exactly when the current id is
not zero; after `close()` the id reads back as 0 in every case; and when the id was
already 0 nothing is sent, no change event is raised and the state is unchanged. -/
theorem C11_close (d : NotificationPrivate) :
    (Notification.close d).sent = (if d.replacesId ≠ 0 then [d.replacesId] else [])
      ∧ Notification.replacesId (Notification.close d).state = 0
      ∧ Notification.close d
          = (if d.replacesId = 0 then { state := d, signals := [], sent := [] }
              else { state := { d with replacesId := 0 }
                     signals := [Signal.replacesIdChanged]
                     sent := [d.replacesId] }) := by
  unfold Notification.close Notification.replacesId Notification.setReplacesId
  by_cases h : d.replacesId = 0
  · simp [h]
  · simp [h]

/-! ## The ownership hint -/

theorem publish_state_hints (d : NotificationPrivate) (processName : String) (reply : Nat) :
    (Notification.publish d processName reply).state.hints
      = if d.hints.contains HINT_OWNER then d.hints
        else d.hints.insert HINT_OWNER (QVariant.string processName) := by
  unfold Notification.publish Notification.setReplacesId
  by_cases h : d.hints.contains HINT_OWNER = true
  · by_cases hr : d.replacesId = reply <;> simp [h, hr]
  · simp only [h, Bool.false_eq_true, if_false]
    split <;> rfl

theorem publish_state_contains_owner (d : NotificationPrivate) (processName : String)
    (reply : Nat) :
    (Notification.publish d processName reply).state.hints.contains HINT_OWNER = true := by
  rw [publish_state_hints]
  by_cases h : d.hints.contains HINT_OWNER = true
  · simp [h]
  · simp [h, VMap.contains_insert]

theorem publishSequence_hints (d : NotificationPrivate) (calls : List (String × Nat))
    (h : d.hints.contains HINT_OWNER = true) :
    (Notification.publishSequence d calls).hints = d.hints := by
  induction calls generalizing d with
  | nil => rfl
  | cons call rest ih =>
    unfold Notification.publishSequence
    rw [ih _ (publish_state_contains_owner d call.1 call.2), publish_state_hints]
    simp [h]

/-- C12: `publish()` never changes an x-nemo-owner hint that is already present; when the
key is absent it is set to the process name; and for every sequence of `publish()` calls
the owner hint after the last call is the owner hint after the first, whatever process
names the later calls carry. -/
theorem C12_owner_set_once (d : NotificationPrivate) (processName : String) (reply : Nat)
    (later : List (String × Nat)) :
    (Notification.publish d processName reply).state.hints.value HINT_OWNER
        = (if d.hints.contains HINT_OWNER then d.hints.value HINT_OWNER
            else QVariant.string processName)
      ∧ (Notification.publishSequence d ((processName, reply) :: later)).hints.value HINT_OWNER
        = (Notification.publish d processName reply).state.hints.value HINT_OWNER
      ∧ (Notification.publishSequence
            (Notification.setHintValue Notification.new HINT_OWNER (QVariant.string "first"))
            [("second", 1), ("third", 1)]).hints.value HINT_OWNER = QVariant.string "first" := by
  refine ⟨?_, ?_, by decide⟩
  · rw [publish_state_hints]
    by_cases h : d.hints.contains HINT_OWNER = true
    · simp [h]
    · simp [h, VMap.value_insert]
  · show (Notification.publishSequence (Notification.publish d processName reply).state
        later).hints.value HINT_OWNER = _
    rw [publishSequence_hints _ _ (publish_state_contains_owner d processName reply)]

/-! ## Inbound closed and input-text-set events -/

/-- C13: for an inbound closed(id, reason) event whose id is the notification's current
id, exactly one closed event is raised, it carries the same reason, and the id becomes 0;
every other field of the record is unchanged. -/
theorem C13_notification_closed (d : NotificationPrivate) (reason : Nat) :
    closedEvents (Notification.checkNotificationClosed d d.replacesId reason).2
        = [Signal.closed reason]
      ∧ (Notification.checkNotificationClosed d d.replacesId reason).1
          = { d with replacesId := 0 }
      ∧ (Notification.checkNotificationClosed d d.replacesId reason).2
          = Signal.closed reason
              :: (if d.replacesId ≠ 0 then [Signal.replacesIdChanged] else []) := by
  unfold Notification.checkNotificationClosed Notification.setReplacesId closedEvents
  by_cases h : d.replacesId = 0
  · have hd : ({ d with replacesId := 0 } : NotificationPrivate) = d := by
      obtain ⟨⟨appName, replacesId, appIcon, summary, body, actions, hints, expireTimeout⟩,
        remoteActions, inputText⟩ := d
      simp only at h
      subst h
      rfl
    rw [hd]
    simp [h, List.filter]
  · simp [h, List.filter]

/-- C14: for each of the three inbound handlers, an event whose id differs from the
notification's current id raises no event and leaves the whole state unchanged. -/
theorem C14_unmatched_id_ignored (d : NotificationPrivate) (id : Nat) (actionKey : String)
    (reason : Nat) (inputText : String) (hid : id ≠ d.replacesId) :
    Notification.checkActionInvoked d id actionKey = []
      ∧ Notification.checkNotificationClosed d id reason = (d, [])
      ∧ Notification.checkInputTextSet d id inputText = (d, []) := by
  unfold Notification.checkActionInvoked Notification.checkNotificationClosed
    Notification.checkInputTextSet
  simp [hid]

/-- C14, at a concrete input: events for id 8 on a notification whose id is 7. -/
theorem C14_unmatched_id_ignored_witness :
    Notification.checkActionInvoked samplePublished 8 "default" = []
      ∧ Notification.checkNotificationClosed samplePublished 8 2 = (samplePublished, [])
      ∧ Notification.checkInputTextSet samplePublished 8 "text" = (samplePublished, []) :=
  C14_unmatched_id_ignored samplePublished 8 "default" 2 "text" (by decide)

/-- C15: for an inbound input-text-set(id, text) event whose id is the current id, the
pending input text afterwards is the text; no event is raised and no other field
changes. -/
theorem C15_input_text_set (d : NotificationPrivate) (inputText : String) :
    (Notification.checkInputTextSet d d.replacesId inputText).1 = { d with inputText := inputText }
      ∧ (Notification.checkInputTextSet d d.replacesId inputText).1.inputText = inputText
      ∧ (Notification.checkInputTextSet d d.replacesId inputText).2 = [] := by
  unfold Notification.checkInputTextSet
  by_cases h : inputText = d.inputText
  · subst h
    simp
  · simp [h]

/-! ## Property setters -/

theorem urgency_isSome (d : NotificationPrivate) : ∃ u, Notification.urgency d = some u := by
  unfold Notification.urgency Notification.urgencyValue Urgency.ofInt?
  simp only [Urgency.toInt]
  generalize (d.hints.value HINT_URGENCY).toInt = v
  by_cases h0 : v ≤ 0
  · have e : max 0 (min 2 v) = 0 := by omega
    exact ⟨Urgency.Low, by simp [e]⟩
  · by_cases h1 : v = 1
    · subst h1
      exact ⟨Urgency.Normal, by decide⟩
    · have e : max 0 (min 2 v) = 2 := by omega
      exact ⟨Urgency.Critical, by simp [e]⟩

/-- C16: every property setter with a change signal, called with the value the matching
getter currently returns, leaves the whole state unchanged and raises no change event:
category, appName, replacesId, icon, appIcon, summary, body, urgency, expireTimeout,
previewSummary, previewBody, subText, sound, soundName, itemCount, isTransient, origin,
maxContentLines and remoteActions. -/
theorem C16_setter_same_value_noop (c : VariantCodec) (d : NotificationPrivate) :
    Notification.setCategory d (Notification.category d) = (d, [])
      ∧ Notification.setAppName d (Notification.appName d) = (d, [])
      ∧ Notification.setReplacesId d (Notification.replacesId d) = (d, [])
      ∧ Notification.setIcon d (Notification.icon d) = (d, [])
      ∧ Notification.setAppIcon d (Notification.appIcon d) = (d, [])
      ∧ Notification.setSummary d (Notification.summary d) = (d, [])
      ∧ Notification.setBody d (Notification.body d) = (d, [])
      ∧ (∃ u, Notification.urgency d = some u ∧ Notification.setUrgency d u = (d, []))
      ∧ Notification.setExpireTimeout d (Notification.expireTimeout d) = (d, [])
      ∧ Notification.setPreviewSummary d (Notification.previewSummary d) = (d, [])
      ∧ Notification.setPreviewBody d (Notification.previewBody d) = (d, [])
      ∧ Notification.setSubText d (Notification.subText d) = (d, [])
      ∧ Notification.setSound d (Notification.sound d) = (d, [])
      ∧ Notification.setSoundName d (Notification.soundName d) = (d, [])
      ∧ Notification.setItemCount d (Notification.itemCount d) = (d, [])
      ∧ Notification.setIsTransient d (Notification.isTransient d) = (d, [])
      ∧ Notification.setOrigin d (Notification.origin d) = (d, [])
      ∧ Notification.setMaxContentLines d (Notification.maxContentLines d) = (d, [])
      ∧ Notification.setRemoteActions c d (Notification.remoteActions d) = (d, []) := by
  refine ⟨?_, ?_, ?_, ?_, ?_, ?_, ?_, ?_, ?_, ?_, ?_, ?_, ?_, ?_, ?_, ?_, ?_, ?_, ?_⟩
  · simp [Notification.setCategory]
  · simp [Notification.setAppName]
  · simp [Notification.setReplacesId, Notification.replacesId]
  · simp [Notification.setIcon]
  · simp [Notification.setAppIcon]
  · simp [Notification.setSummary, Notification.summary]
  · simp [Notification.setBody, Notification.body]
  · obtain ⟨u, hu⟩ := urgency_isSome d
    exact ⟨u, hu, by simp [Notification.setUrgency, hu]⟩
  · simp [Notification.setExpireTimeout, Notification.expireTimeout]
  · simp [Notification.setPreviewSummary]
  · simp [Notification.setPreviewBody]
  · simp [Notification.setSubText]
  · simp [Notification.setSound]
  · simp [Notification.setSoundName]
  · simp [Notification.setItemCount]
  · simp [Notification.setIsTransient]
  · simp [Notification.setOrigin]
  · simp [Notification.setMaxContentLines]
  · simp [Notification.setRemoteActions, Notification.remoteActions]

/-! ## Decoding without a callback-target hint -/

/-- C17 (the code at the failing input): for the descriptor (`extra`, `Extra action`)
and a hint map that holds an icon and an input block for it but no callback-target hint,
`decodeActionHints` returns no action at all; with the hint map empty it returns none
either. The descriptor's name, display name, icon and input block are not carried. -/
theorem C17_decodeActionHints_drops_action :
    decodeActionHints sampleCodec [{ name := "extra", displayName := "Extra action" }]
        [("x-nemo-remote-action-icon-extra", QVariant.string "icon-extra"),
         ("x-nemo-remote-action-input-extra",
            QVariant.map [("label", QVariant.string "Text")])] = []
      ∧ decodeActionHints sampleCodec [{ name := "extra", displayName := "Extra action" }] [] = []
      ∧ (encodeActionHints sampleCodec [samplePlainAction]).1
          = [{ name := "extra", displayName := "Extra action" }]
      ∧ roundTripActions sampleCodec [samplePlainAction] = [] := by
  decide

/-! ## What `encodeActionHints` emits -/

theorem flatMap_filter_of_nil {α β : Type} (p : α → Bool) (f : α → List β) (l : List α)
    (hf : ∀ a, p a = false → f a = []) : (l.filter p).flatMap f = l.flatMap f := by
  induction l with
  | nil => rfl
  | cons a l ih =>
    by_cases h : p a = true
    · simp [List.filter, h, ih]
    · have h2 : p a = false := by simpa using h
      simp [List.filter, h2, ih, hf a h2]

theorem actionDescriptor_of_empty (a : QVariant)
    (h : decide ((remoteActionFields a).name ≠ "") = false) : actionDescriptor a = [] := by
  unfold actionDescriptor
  simp only [decide_eq_false_iff_not] at h
  simp [h]

theorem actionHintEntries_of_empty (c : VariantCodec) (a : QVariant)
    (h : decide ((remoteActionFields a).name ≠ "") = false) : actionHintEntries c a = [] := by
  unfold actionHintEntries
  simp only [decide_eq_false_iff_not] at h
  simp [h]

/-- C18: the descriptor list returned by `encodeActionHints` is exactly the (name,
displayName) pairs of the remote actions whose name is not empty, in the original order;
an action with an empty name contributes no descriptor and no hint (the result is the one
of the list without those actions). -/
theorem C18_encodeActionHints_descriptors (c : VariantCodec) (actions : List QVariant) :
    (encodeActionHints c actions).1
        = (actions.filter (fun a => decide ((remoteActionFields a).name ≠ ""))).map
            (fun a => { name := (remoteActionFields a).name
                        displayName := (remoteActionFields a).displayName })
      ∧ encodeActionHints c actions
        = encodeActionHints c
            (actions.filter (fun a => decide ((remoteActionFields a).name ≠ ""))) := by
  constructor
  · rw [encodeActionHints_eq]
    simp only []
    rw [← flatMap_filter_of_nil (fun a => decide ((remoteActionFields a).name ≠ ""))
      actionDescriptor actions actionDescriptor_of_empty]
    generalize hl : actions.filter (fun a => decide ((remoteActionFields a).name ≠ "")) = l
    have hall : ∀ a ∈ l, (remoteActionFields a).name ≠ "" := by
      intro a ha
      rw [← hl] at ha
      simpa using (List.mem_filter.1 ha).2
    clear hl
    induction l with
    | nil => rfl
    | cons a l ih =>
      have hn : (remoteActionFields a).name ≠ "" := hall a (by simp)
      rw [List.flatMap_cons, List.map_cons, ih (fun b hb => hall b (by simp [hb]))]
      simp [actionDescriptor, hn]
  · rw [encodeActionHints_eq, encodeActionHints_eq,
      flatMap_filter_of_nil _ actionDescriptor actions actionDescriptor_of_empty,
      flatMap_filter_of_nil _ (actionHintEntries c) actions (actionHintEntries_of_empty c)]

theorem self_ne_tag_append (tag n : String) (ht : tag ≠ "") : n ≠ tag ++ n := by
  intro h
  have h2 := congrArg (fun s => s.data.length) h
  simp only [String.data_append, List.length_append] at h2
  have h3 : tag.data = [] := List.length_eq_zero.1 (by omega)
  exact ht (String.ext h3)

/-- The four hint keys of one action name are different from each other. -/
theorem hintKeys_distinct (n : String) :
    HINT_REMOTE_ACTION_PREFIX ++ n ≠ HINT_REMOTE_ACTION_ICON_PREFIX ++ n
      ∧ HINT_REMOTE_ACTION_PREFIX ++ n ≠ HINT_REMOTE_ACTION_INPUT_PREFIX ++ n
      ∧ HINT_REMOTE_ACTION_PREFIX ++ n ≠ HINT_REMOTE_ACTION_TYPE_PREFIX ++ n
      ∧ HINT_REMOTE_ACTION_ICON_PREFIX ++ n ≠ HINT_REMOTE_ACTION_INPUT_PREFIX ++ n
      ∧ HINT_REMOTE_ACTION_ICON_PREFIX ++ n ≠ HINT_REMOTE_ACTION_TYPE_PREFIX ++ n
      ∧ HINT_REMOTE_ACTION_INPUT_PREFIX ++ n ≠ HINT_REMOTE_ACTION_TYPE_PREFIX ++ n := by
  rw [iconKey_eq, inputKey_eq, typeKey_eq]
  refine ⟨?_, ?_, ?_, ?_, ?_, ?_⟩
  · exact fun h => self_ne_tag_append "icon-" n (by decide) (String.append_left_cancel h)
  · exact fun h => self_ne_tag_append "input-" n (by decide) (String.append_left_cancel h)
  · exact fun h => self_ne_tag_append "type-" n (by decide) (String.append_left_cancel h)
  · exact fun h => icon_ne_input n n (String.append_left_cancel h)
  · exact fun h => icon_ne_type n n (String.append_left_cancel h)
  · exact fun h => input_ne_type n n (String.append_left_cancel h)

/-- The value a key has in the hints that `encodeActionHints` emits for one remote
action with a name: the last of the four conditional insertions that wrote the key. -/
theorem encodeActionHints_single_find (c : VariantCodec) (a : QVariant)
    (hn : (remoteActionFields a).name ≠ "") (k : String) :
    VMap.find k (encodeActionHints c [a]).2
      = if (if (remoteActionFields a).input ≠ [] ∧ (remoteActionFields a).type = "" then "input"
              else (remoteActionFields a).type) ≠ ""
            ∧ k = HINT_REMOTE_ACTION_TYPE_PREFIX ++ (remoteActionFields a).name then
          some (QVariant.string
            (if (remoteActionFields a).input ≠ [] ∧ (remoteActionFields a).type = "" then "input"
              else (remoteActionFields a).type))
        else if (remoteActionFields a).input ≠ []
            ∧ k = HINT_REMOTE_ACTION_INPUT_PREFIX ++ (remoteActionFields a).name then
          some (QVariant.map (remoteActionFields a).input)
        else if (remoteActionFields a).icon ≠ ""
            ∧ k = HINT_REMOTE_ACTION_ICON_PREFIX ++ (remoteActionFields a).name then
          some (QVariant.string (remoteActionFields a).icon)
        else if ((remoteActionFields a).service ≠ "" ∧ (remoteActionFields a).path ≠ ""
              ∧ (remoteActionFields a).iface ≠ "" ∧ (remoteActionFields a).method ≠ "")
            ∧ k = HINT_REMOTE_ACTION_PREFIX ++ (remoteActionFields a).name then
          some (QVariant.string (encodeDBusCall c (remoteActionFields a).service
            (remoteActionFields a).path (remoteActionFields a).iface
            (remoteActionFields a).method (remoteActionFields a).arguments))
        else none := by
  rw [encodeActionHints_eq]
  simp only [List.flatMap_cons, List.flatMap_nil, List.append_nil]
  unfold actionHintEntries
  simp only [hn, ne_eq, not_false_eq_true, if_true]
  generalize (if ¬(remoteActionFields a).input = [] ∧ (remoteActionFields a).type = "" then "input"
    else (remoteActionFields a).type) = ty
  by_cases h1 : ¬(remoteActionFields a).service = "" ∧ ¬(remoteActionFields a).path = ""
      ∧ ¬(remoteActionFields a).iface = "" ∧ ¬(remoteActionFields a).method = ""
    <;> by_cases h2 : (remoteActionFields a).icon = ""
    <;> by_cases h3 : (remoteActionFields a).input = []
    <;> by_cases h4 : ty = ""
    <;> simp [h1, h2, h3, h4, List.foldl, VMap.find_insert, VMap.find]
  all_goals
    obtain ⟨k1, k2, k3, k4, k5, k6⟩ := hintKeys_distinct (remoteActionFields a).name
    split_ifs <;> simp_all

/-- C19: for a single remote action with the non-empty name n, `encodeActionHints` emits
the hint x-nemo-remote-action-n if and only if service, path, iface and method are all
non-empty, and its value is then `encodeDBusCall(service, path, iface, method,
arguments)`; it emits the hint x-nemo-remote-action-icon-n if and only if icon is
non-empty (its value is then the icon). -/
theorem C19_callback_and_icon_hints (c : VariantCodec) (a : QVariant)
    (hn : (remoteActionFields a).name ≠ "") :
    VMap.find (HINT_REMOTE_ACTION_PREFIX ++ (remoteActionFields a).name)
        (encodeActionHints c [a]).2
        = (if (remoteActionFields a).service ≠ "" ∧ (remoteActionFields a).path ≠ ""
              ∧ (remoteActionFields a).iface ≠ "" ∧ (remoteActionFields a).method ≠ "" then
            some (QVariant.string (encodeDBusCall c (remoteActionFields a).service
              (remoteActionFields a).path (remoteActionFields a).iface
              (remoteActionFields a).method (remoteActionFields a).arguments))
          else none)
      ∧ ((encodeActionHints c [a]).2.contains
            (HINT_REMOTE_ACTION_PREFIX ++ (remoteActionFields a).name) = true
          ↔ (remoteActionFields a).service ≠ "" ∧ (remoteActionFields a).path ≠ ""
              ∧ (remoteActionFields a).iface ≠ "" ∧ (remoteActionFields a).method ≠ "")
      ∧ VMap.find (HINT_REMOTE_ACTION_ICON_PREFIX ++ (remoteActionFields a).name)
          (encodeActionHints c [a]).2
        = (if (remoteActionFields a).icon ≠ "" then
            some (QVariant.string (remoteActionFields a).icon)
          else none)
      ∧ ((encodeActionHints c [a]).2.contains
            (HINT_REMOTE_ACTION_ICON_PREFIX ++ (remoteActionFields a).name) = true
          ↔ (remoteActionFields a).icon ≠ "") := by
  obtain ⟨k1, k2, k3, k4, k5, k6⟩ := hintKeys_distinct (remoteActionFields a).name
  have f1 := encodeActionHints_single_find c a hn
    (HINT_REMOTE_ACTION_PREFIX ++ (remoteActionFields a).name)
  have f2 := encodeActionHints_single_find c a hn
    (HINT_REMOTE_ACTION_ICON_PREFIX ++ (remoteActionFields a).name)
  simp only [k1, k2, k3, k4, k5, k6, Ne.symm k1, Ne.symm k2, Ne.symm k3, Ne.symm k4, Ne.symm k5,
    Ne.symm k6, and_false, and_true, if_false] at f1 f2
  unfold VMap.contains
  rw [f1, f2]
  refine ⟨rfl, ?_, rfl, ?_⟩
  · split <;> simp_all
  · split <;> simp_all

/-- C19, at a concrete input: the action `reply`, which has a complete callback target
and an icon. -/
theorem C19_callback_and_icon_hints_witness :
    VMap.find "x-nemo-remote-action-reply" (encodeActionHints sampleCodec [sampleRemoteAction]).2
        = some (QVariant.string "org.example /obj org.example.If run AQ== AA==")
      ∧ VMap.find "x-nemo-remote-action-icon-reply"
          (encodeActionHints sampleCodec [sampleRemoteAction]).2
        = some (QVariant.string "icon-reply") :=
  ⟨(C19_callback_and_icon_hints sampleCodec sampleRemoteAction (by decide)).1.trans (by decide),
    (C19_callback_and_icon_hints sampleCodec sampleRemoteAction (by decide)).2.2.1.trans
      (by decide)⟩

/-- C20: for a single remote action with the non-empty name n, `encodeActionHints` emits
x-nemo-remote-action-type-n with the given type when the type is non-empty, with the value
"input" when the type is unset and the input map is non-empty, and emits no type hint when
both are empty; it emits x-nemo-remote-action-input-n, holding the input map, exactly when
the input map is non-empty. -/
theorem C20_type_and_input_hints (c : VariantCodec) (a : QVariant)
    (hn : (remoteActionFields a).name ≠ "") :
    VMap.find (HINT_REMOTE_ACTION_TYPE_PREFIX ++ (remoteActionFields a).name)
        (encodeActionHints c [a]).2
        = (if (remoteActionFields a).type ≠ "" then
            some (QVariant.string (remoteActionFields a).type)
          else if (remoteActionFields a).input ≠ [] then some (QVariant.string "input")
          else none)
      ∧ VMap.find (HINT_REMOTE_ACTION_INPUT_PREFIX ++ (remoteActionFields a).name)
          (encodeActionHints c [a]).2
        = (if (remoteActionFields a).input ≠ [] then
            some (QVariant.map (remoteActionFields a).input)
          else none)
      ∧ ((encodeActionHints c [a]).2.contains
            (HINT_REMOTE_ACTION_INPUT_PREFIX ++ (remoteActionFields a).name) = true
          ↔ (remoteActionFields a).input ≠ []) := by
  obtain ⟨k1, k2, k3, k4, k5, k6⟩ := hintKeys_distinct (remoteActionFields a).name
  have f1 := encodeActionHints_single_find c a hn
    (HINT_REMOTE_ACTION_TYPE_PREFIX ++ (remoteActionFields a).name)
  have f2 := encodeActionHints_single_find c a hn
    (HINT_REMOTE_ACTION_INPUT_PREFIX ++ (remoteActionFields a).name)
  simp only [k1, k2, k3, k4, k5, k6, Ne.symm k1, Ne.symm k2, Ne.symm k3, Ne.symm k4, Ne.symm k5,
    Ne.symm k6, and_false, and_true, if_false] at f1 f2
  unfold VMap.contains
  rw [f1, f2]
  refine ⟨?_, rfl, ?_⟩
  · by_cases ht : (remoteActionFields a).type = ""
      <;> by_cases hi : (remoteActionFields a).input = []
      <;> simp [ht, hi]
  · split <;> simp_all

/-- C20, at concrete inputs: the action `reply` has the type `custom` and an input map;
the same action without a type gets the type `input`; the action `default` has neither
and gets no type hint. -/
theorem C20_type_and_input_hints_witness :
    VMap.find "x-nemo-remote-action-type-reply"
        (encodeActionHints sampleCodec [sampleRemoteAction]).2 = some (QVariant.string "custom")
      ∧ VMap.find "x-nemo-remote-action-type-reply"
          (encodeActionHints sampleCodec [sampleUntypedInputAction]).2
        = some (QVariant.string "input")
      ∧ VMap.find "x-nemo-remote-action-type-default"
          (encodeActionHints sampleCodec [sampleDefaultAction]).2 = none
      ∧ VMap.find "x-nemo-remote-action-input-reply"
          (encodeActionHints sampleCodec [sampleUntypedInputAction]).2
        = some (QVariant.map [("label", QVariant.string "Text")]) :=
  ⟨(C20_type_and_input_hints sampleCodec sampleRemoteAction (by decide)).1.trans (by decide),
    (C20_type_and_input_hints sampleCodec sampleUntypedInputAction (by decide)).1.trans
      (by decide),
    (C20_type_and_input_hints sampleCodec sampleDefaultAction (by decide)).1.trans (by decide),
    (C20_type_and_input_hints sampleCodec sampleUntypedInputAction (by decide)).2.1.trans
      (by decide)⟩

/-! ## Marshaling -/

theorem decodeActions_encodeActions (actions : List ActionInfo) :
    decodeActions (encodeActions actions) = actions := by
  induction actions with
  | nil => rfl
  | cons a rest ih => simp [encodeActions, decodeActions, ih]

/-- C21: marshaling a notification record writes exactly the eight fields appName, id,
appIcon, summary, body, flattened actions, hints, expireTimeout, in that order, as one
structure; and demarshaling what was marshaled returns a record equal to the original,
actions included, whatever the record read into held before and whatever follows in the
argument. -/
theorem C21_marshal_roundtrip (data into : NotificationData) (rest : List DBusItem) :
    marshalNotificationData [] data
        = [DBusItem.beginStructure, DBusItem.string data.appName,
           DBusItem.uint32 data.replacesId, DBusItem.string data.appIcon,
           DBusItem.string data.summary, DBusItem.string data.body,
           DBusItem.stringList (encodeActions data.actions), DBusItem.variantHash data.hints,
           DBusItem.int32 data.expireTimeout, DBusItem.endStructure]
      ∧ demarshalNotificationData (marshalNotificationData [] data ++ rest) into
        = some (rest, data) := by
  refine ⟨rfl, ?_⟩
  simp [marshalNotificationData, demarshalNotificationData, decodeActions_encodeActions]

/-! ## Set-then-get -/

theorem urgency_of_stored (d : NotificationPrivate) (u : Urgency)
    (h : d.hints.value HINT_URGENCY = QVariant.int u.toInt) :
    Notification.urgency d = some u := by
  unfold Notification.urgency Notification.urgencyValue
  rw [h]
  cases u <;> decide

/-- C22: the set-then-get law. After a property setter is called with a value, the
matching getter returns that value: category, appName, icon, appIcon, summary, body,
previewSummary, previewBody, subText, sound, soundName and origin with a string;
itemCount, maxContentLines and expireTimeout with an integer; isTransient with a boolean;
urgency with Low, Normal or Critical; replacesId with an unsigned number. -/
theorem C22_set_then_get (d : NotificationPrivate) (s : String) (i : Int) (b : Bool)
    (u : Urgency) (n : Nat) :
    Notification.category (Notification.setCategory d s).1 = s
      ∧ Notification.appName (Notification.setAppName d s).1 = s
      ∧ Notification.icon (Notification.setIcon d s).1 = s
      ∧ Notification.appIcon (Notification.setAppIcon d s).1 = s
      ∧ Notification.summary (Notification.setSummary d s).1 = s
      ∧ Notification.body (Notification.setBody d s).1 = s
      ∧ Notification.previewSummary (Notification.setPreviewSummary d s).1 = s
      ∧ Notification.previewBody (Notification.setPreviewBody d s).1 = s
      ∧ Notification.subText (Notification.setSubText d s).1 = s
      ∧ Notification.sound (Notification.setSound d s).1 = s
      ∧ Notification.soundName (Notification.setSoundName d s).1 = s
      ∧ Notification.origin (Notification.setOrigin d s).1 = s
      ∧ Notification.itemCount (Notification.setItemCount d i).1 = i
      ∧ Notification.maxContentLines (Notification.setMaxContentLines d i).1 = i
      ∧ Notification.expireTimeout (Notification.setExpireTimeout d i).1 = i
      ∧ Notification.isTransient (Notification.setIsTransient d b).1 = b
      ∧ Notification.urgency (Notification.setUrgency d u).1 = some u
      ∧ Notification.replacesId (Notification.setReplacesId d n).1 = n := by
  refine ⟨?_, ?_, ?_, ?_, ?_, ?_, ?_, ?_, ?_, ?_, ?_, ?_, ?_, ?_, ?_, ?_, ?_, ?_⟩
  · unfold Notification.setCategory
    by_cases h : s = Notification.category d
    · rw [if_neg (not_not.2 h)]
      exact h.symm
    · rw [if_pos h]
      simp [Notification.category, VMap.value_insert, QVariant.toString]
  · unfold Notification.setAppName
    by_cases h : s = Notification.appName d
    · rw [if_neg (not_not.2 h)]
      exact h.symm
    · rw [if_pos h]
      rfl
  · unfold Notification.setIcon
    by_cases h : s = Notification.icon d
    · rw [if_neg (not_not.2 h)]
      exact h.symm
    · rw [if_pos h]
      simp [Notification.icon, VMap.value_insert, QVariant.toString]
  · unfold Notification.setAppIcon
    by_cases h : s = Notification.appIcon d
    · rw [if_neg (not_not.2 h)]
      exact h.symm
    · rw [if_pos h]
      rfl
  · exact (setSummary_fields d s).1
  · exact (setBody_fields d s).1
  · unfold Notification.setPreviewSummary
    by_cases h : s = Notification.previewSummary d
    · rw [if_neg (not_not.2 h)]
      exact h.symm
    · rw [if_pos h]
      simp [Notification.previewSummary, VMap.value_insert, QVariant.toString]
  · unfold Notification.setPreviewBody
    by_cases h : s = Notification.previewBody d
    · rw [if_neg (not_not.2 h)]
      exact h.symm
    · rw [if_pos h]
      simp [Notification.previewBody, VMap.value_insert, QVariant.toString]
  · unfold Notification.setSubText
    by_cases h : s = Notification.subText d
    · rw [if_neg (not_not.2 h)]
      exact h.symm
    · rw [if_pos h]
      simp [Notification.subText, VMap.value_insert, QVariant.toString]
  · unfold Notification.setSound
    by_cases h : s = Notification.sound d
    · rw [if_neg (not_not.2 h)]
      exact h.symm
    · rw [if_pos h]
      simp [Notification.sound, VMap.value_insert, QVariant.toString]
  · unfold Notification.setSoundName
    by_cases h : s = Notification.soundName d
    · rw [if_neg (not_not.2 h)]
      exact h.symm
    · rw [if_pos h]
      simp [Notification.soundName, VMap.value_insert, QVariant.toString]
  · unfold Notification.setOrigin
    by_cases h : s = Notification.origin d
    · rw [if_neg (not_not.2 h)]
      exact h.symm
    · rw [if_pos h]
      simp [Notification.origin, VMap.value_insert, QVariant.toString]
  · unfold Notification.setItemCount
    by_cases h : i = Notification.itemCount d
    · rw [if_neg (not_not.2 h)]
      exact h.symm
    · rw [if_pos h]
      simp [Notification.itemCount, VMap.value_insert, QVariant.toInt]
  · unfold Notification.setMaxContentLines
    by_cases h : i = Notification.maxContentLines d
    · rw [if_neg (not_not.2 h)]
      exact h.symm
    · rw [if_pos h]
      simp [Notification.maxContentLines, VMap.value_insert, QVariant.toInt]
  · unfold Notification.setExpireTimeout Notification.expireTimeout
    by_cases h : i = d.expireTimeout
    · rw [if_neg (not_not.2 h)]
      exact h.symm
    · rw [if_pos h]
  · unfold Notification.setIsTransient
    by_cases h : b = Notification.isTransient d
    · rw [if_neg (not_not.2 h)]
      exact h.symm
    · rw [if_pos h]
      simp [Notification.isTransient, VMap.value_insert, QVariant.toBool]
  · unfold Notification.setUrgency
    by_cases h : some u = Notification.urgency d
    · rw [if_neg (not_not.2 h)]
      exact h.symm
    · rw [if_pos h]
      exact urgency_of_stored _ u (by simp [VMap.value_insert])
  · unfold Notification.setReplacesId Notification.replacesId
    by_cases h : d.replacesId = n
    · rw [if_neg (not_not.2 h)]
      exact h
    · rw [if_pos h]

/-! ## Wire keys of the hint-backed properties -/

theorem storedOnlyUnder_insert (d : NotificationPrivate) (key : String) (v : QVariant) :
    StoredOnlyUnder key true v d { d with hints := d.hints.insert key v } := by
  refine ⟨fun k => ?_, rfl⟩
  simp [VMap.find_insert]

theorem storedOnlyUnder_same (d : NotificationPrivate) (key : String) (v : QVariant) :
    StoredOnlyUnder key false v d d := by
  refine ⟨fun k => ?_, rfl⟩
  simp

theorem storedOnlyUnder_setter {α : Type} [DecidableEq α] (d : NotificationPrivate)
    (key : String) (new current : α) (stored : QVariant) (signals : List Signal) :
    StoredOnlyUnder key (decide (new ≠ current)) stored d
      (if new ≠ current then
          (({ d with hints := d.hints.insert key stored } : NotificationPrivate), signals)
        else (d, [])).1 := by
  by_cases h : new = current
  · rw [if_neg (not_not.2 h)]
    have hd : decide (new ≠ current) = false := by simp [h]
    rw [hd]
    exact storedOnlyUnder_same d key stored
  · rw [if_pos h]
    have hd : decide (new ≠ current) = true := by simp [h]
    rw [hd]
    exact storedOnlyUnder_insert d key stored

/-- C23: each hint-backed property is stored under its documented wire key and nowhere
else. When a setter is called with a value different from the current one, the value is
stored under exactly that key (category, image-path, urgency, transient,
x-nemo-item-count, x-nemo-preview-summary, x-nemo-preview-body, x-nemo-sub-text,
x-nemo-origin, x-nemo-max-content-lines, sound-file, sound-name); every other hint key
and every field outside the hint map is unchanged (and with the current value nothing
changes at all). -/
theorem C23_setters_store_under_wire_key (d : NotificationPrivate) (s : String) (i : Int)
    (b : Bool) (u : Urgency) :
    StoredOnlyUnder "category" (decide (s ≠ Notification.category d)) (QVariant.string s) d
        (Notification.setCategory d s).1
      ∧ StoredOnlyUnder "image-path" (decide (s ≠ Notification.icon d)) (QVariant.string s) d
        (Notification.setIcon d s).1
      ∧ StoredOnlyUnder "urgency" (decide (some u ≠ Notification.urgency d))
        (QVariant.int u.toInt) d (Notification.setUrgency d u).1
      ∧ StoredOnlyUnder "transient" (decide (b ≠ Notification.isTransient d)) (QVariant.bool b) d
        (Notification.setIsTransient d b).1
      ∧ StoredOnlyUnder "x-nemo-item-count" (decide (i ≠ Notification.itemCount d))
        (QVariant.int i) d (Notification.setItemCount d i).1
      ∧ StoredOnlyUnder "x-nemo-preview-summary" (decide (s ≠ Notification.previewSummary d))
        (QVariant.string s) d (Notification.setPreviewSummary d s).1
      ∧ StoredOnlyUnder "x-nemo-preview-body" (decide (s ≠ Notification.previewBody d))
        (QVariant.string s) d (Notification.setPreviewBody d s).1
      ∧ StoredOnlyUnder "x-nemo-sub-text" (decide (s ≠ Notification.subText d))
        (QVariant.string s) d (Notification.setSubText d s).1
      ∧ StoredOnlyUnder "x-nemo-origin" (decide (s ≠ Notification.origin d))
        (QVariant.string s) d (Notification.setOrigin d s).1
      ∧ StoredOnlyUnder "x-nemo-max-content-lines" (decide (i ≠ Notification.maxContentLines d))
        (QVariant.int i) d (Notification.setMaxContentLines d i).1
      ∧ StoredOnlyUnder "sound-file" (decide (s ≠ Notification.sound d)) (QVariant.string s) d
        (Notification.setSound d s).1
      ∧ StoredOnlyUnder "sound-name" (decide (s ≠ Notification.soundName d))
        (QVariant.string s) d (Notification.setSoundName d s).1 :=
  ⟨storedOnlyUnder_setter d HINT_CATEGORY s (Notification.category d) _ _,
    storedOnlyUnder_setter d HINT_IMAGE_PATH s (Notification.icon d) _ _,
    storedOnlyUnder_setter d HINT_URGENCY (some u) (Notification.urgency d) _ _,
    storedOnlyUnder_setter d HINT_TRANSIENT b (Notification.isTransient d) _ _,
    storedOnlyUnder_setter d HINT_ITEM_COUNT i (Notification.itemCount d) _ _,
    storedOnlyUnder_setter d HINT_PREVIEW_SUMMARY s (Notification.previewSummary d) _ _,
    storedOnlyUnder_setter d HINT_PREVIEW_BODY s (Notification.previewBody d) _ _,
    storedOnlyUnder_setter d HINT_SUB_TEXT s (Notification.subText d) _ _,
    storedOnlyUnder_setter d HINT_ORIGIN s (Notification.origin d) _ _,
    storedOnlyUnder_setter d HINT_MAX_CONTENT_LINES i (Notification.maxContentLines d) _ _,
    storedOnlyUnder_setter d HINT_SOUND_FILE s (Notification.sound d) _ _,
    storedOnlyUnder_setter d HINT_SOUND_NAME s (Notification.soundName d) _ _⟩

/-! ## A newly constructed notification -/

/-- C24 (the code at the failing input): on a newly constructed notification, on which
itemCount was never set, `itemCount()` returns 0, not 1: the constructor stores no
x-nemo-item-count hint and the getter reads the absent hint as 0. -/
theorem C24_itemCount_of_new :
    Notification.itemCount Notification.new = 0
      ∧ Notification.new.hints.contains HINT_ITEM_COUNT = false
      ∧ Notification.itemCount Notification.new ≠ 1 := by
  decide

/-- C25: a newly constructed notification has the id 0, the expireTimeout -1, the
urgency Normal (the urgency hint is stored as 1), an empty action list and no cached
remote actions. -/
theorem C25_new_notification :
    Notification.replacesId Notification.new = 0
      ∧ Notification.expireTimeout Notification.new = -1
      ∧ Notification.urgency Notification.new = some Urgency.Normal
      ∧ Notification.new.hints.value "urgency" = QVariant.int 1
      ∧ Notification.new.actions = []
      ∧ Notification.remoteActions Notification.new = [] := by
  decide

/-! ## Hint values -/

/-- C26: for every hint key k and every valid value v, after `setHintValue(k, v)`
`hintValue(k)` returns v and `hintValue(k2)` returns what it returned before for every
other key k2; `hintValue` of a key that is not set returns the invalid value (the
function is total). -/
theorem C26_setHintValue_hintValue (d : NotificationPrivate) (k k2 k0 : String) (v : QVariant)
    (hv : v ≠ QVariant.invalid) (h0 : d.hints.contains k0 = false) :
    Notification.hintValue (Notification.setHintValue d k v) k = v
      ∧ Notification.hintValue (Notification.setHintValue d k v) k2
        = (if k2 = k then v else Notification.hintValue d k2)
      ∧ Notification.hintValue d k0 = QVariant.invalid := by
  unfold Notification.setHintValue Notification.hintValue
  simp only [hv, if_false, VMap.value_insert, if_true]
  exact ⟨trivial, trivial, VMap.value_of_not_contains _ _ h0⟩

/-- C26, at a concrete input: the hint `x-app-key` set to the text `v` on a new
notification, read back next to the urgency hint and a key that was never set. -/
theorem C26_setHintValue_hintValue_witness :
    Notification.hintValue
        (Notification.setHintValue Notification.new "x-app-key" (QVariant.string "v")) "x-app-key"
        = QVariant.string "v"
      ∧ Notification.hintValue
          (Notification.setHintValue Notification.new "x-app-key" (QVariant.string "v")) "urgency"
        = QVariant.int 1
      ∧ Notification.hintValue Notification.new "never-set" = QVariant.invalid :=
  ⟨(C26_setHintValue_hintValue Notification.new "x-app-key" "urgency" "never-set"
      (QVariant.string "v") (by decide) (by decide)).1,
    (C26_setHintValue_hintValue Notification.new "x-app-key" "urgency" "never-set"
      (QVariant.string "v") (by decide) (by decide)).2.1.trans (by decide),
    (C26_setHintValue_hintValue Notification.new "x-app-key" "urgency" "never-set"
      (QVariant.string "v") (by decide) (by decide)).2.2⟩

/-- C27: `setHintValue(k, v)` with an invalid value v leaves the hint map and every other
field of the notification unchanged, for every key k, also a key that holds a value (the
function is total and returns nothing to the caller). -/
theorem C27_setHintValue_invalid (d : NotificationPrivate) (k : String) :
    Notification.setHintValue d k QVariant.invalid = d
      ∧ Notification.hintValue
          (Notification.setHintValue Notification.new "urgency" QVariant.invalid) "urgency"
        = QVariant.int 1 := by
  refine ⟨?_, by decide⟩
  unfold Notification.setHintValue
  simp

/-! ## Publication: the id and the call that is sent -/

theorem setReplacesId_result (e : NotificationPrivate) (id : Nat) :
    (Notification.setReplacesId e id).1.replacesId = id
      ∧ (Notification.setReplacesId e id).2
        = (if id ≠ e.replacesId then [Signal.replacesIdChanged] else []) := by
  unfold Notification.setReplacesId
  by_cases hr : e.replacesId = id
  · simp [hr]
  · have hr2 : id ≠ e.replacesId := fun x => hr x.symm
    simp [hr, hr2]

theorem publish_id (d : NotificationPrivate) (processName : String) (reply : Nat) :
    (Notification.publish d processName reply).sent.replacesId = d.replacesId
      ∧ (Notification.publish d processName reply).state.replacesId = reply
      ∧ (Notification.publish d processName reply).signals
        = (if reply ≠ d.replacesId then [Signal.replacesIdChanged] else []) := by
  have hmain : (Notification.publish d processName reply).sent.replacesId = d.replacesId
      ∧ (Notification.publish d processName reply).state
        = (Notification.setReplacesId
            (if d.hints.contains HINT_OWNER then d
              else { d with hints := d.hints.insert HINT_OWNER (QVariant.string processName) })
            reply).1
      ∧ (Notification.publish d processName reply).signals
        = (Notification.setReplacesId
            (if d.hints.contains HINT_OWNER then d
              else { d with hints := d.hints.insert HINT_OWNER (QVariant.string processName) })
            reply).2 := by
    unfold Notification.publish
    by_cases ho : d.hints.contains HINT_OWNER = true <;> simp [ho]
  have hid : (if d.hints.contains HINT_OWNER then d
      else { d with hints := d.hints.insert HINT_OWNER (QVariant.string processName) }
        : NotificationPrivate).replacesId = d.replacesId := by
    split <;> rfl
  refine ⟨hmain.1, ?_, ?_⟩
  · rw [hmain.2.1]
    exact (setReplacesId_result _ reply).1
  · rw [hmain.2.2, (setReplacesId_result _ reply).2, hid]

/-- C28: `publish()` passes the current id as the replaces-id argument of `Notify`, and
afterwards the notification's id is the id the service returned (from id 0 the returned
id); the replacesId change event is raised exactly when the returned id differs from the
previous one, and no other event is raised. -/
theorem C28_publish_id (d : NotificationPrivate) (processName : String) (reply : Nat) :
    (Notification.publish d processName reply).sent.replacesId = d.replacesId
      ∧ Notification.replacesId (Notification.publish d processName reply).state = reply
      ∧ (Notification.publish d processName reply).signals
        = (if reply ≠ d.replacesId then [Signal.replacesIdChanged] else [])
      ∧ Notification.replacesId
          (Notification.publish Notification.new processName reply).state = reply
      ∧ (Notification.publish Notification.new processName reply).sent.replacesId = 0 :=
  ⟨(publish_id d processName reply).1, (publish_id d processName reply).2.1,
    (publish_id d processName reply).2.2,
    (publish_id Notification.new processName reply).2.1,
    (publish_id Notification.new processName reply).1⟩

theorem setDefaultPreview_find (hints : QVariantHash) (hint defaultValue k : String) :
    VMap.find k (Notification.setDefaultPreview hints hint defaultValue)
      = if k = hint ∧ hints.contains hint = false then some (QVariant.string defaultValue)
        else VMap.find k hints := by
  unfold Notification.setDefaultPreview
  by_cases hc : hints.contains hint = true
  · simp [hc]
  · have hc2 : hints.contains hint = false := by simpa using hc
    simp only [hc, Bool.false_eq_true, if_false, VMap.find_insert, hc2, and_true]

/-- C29: validation never blocks publication. For every state `publish()` sends one
`Notify` call, and it carries the appName, id, appIcon, summary, body,
`encodeActions(actions)`, hints and expireTimeout of the record: every hint of the record
is in the call with its value, and the call holds besides them only the owner hint and the
preview defaults, where the record has none. This is so for a notification whose cached
remote actions are logged as invalid (one without a name and one with 1 of the 4
callback-target fields). -/
theorem C29_publish_sends_record (d : NotificationPrivate) (processName : String)
    (reply : Nat) (k : String) :
    (Notification.publish d processName reply).sent
        = { appName := d.appName, replacesId := d.replacesId, appIcon := d.appIcon,
            summary := d.summary, body := d.body, actions := encodeActions d.actions,
            hints := (Notification.publish d processName reply).sent.hints,
            expireTimeout := d.expireTimeout }
      ∧ VMap.find k (Notification.publish d processName reply).sent.hints
        = (if d.hints.contains k then VMap.find k d.hints
            else if k = HINT_OWNER then some (QVariant.string processName)
            else if k = HINT_PREVIEW_SUMMARY then some (QVariant.string d.summary)
            else if k = HINT_PREVIEW_BODY then some (QVariant.string d.body)
            else none)
      ∧ (Notification.invalidRemoteActions sampleInvalidActions).length = 2
      ∧ (Notification.publish sampleInvalidActions "app" 7).sent
        = { appName := "app", replacesId := 0, appIcon := "", summary := "S", body := "",
            actions := ["partial", "Partial"],
            hints := [("urgency", QVariant.int 1), ("x-nemo-owner", QVariant.string "app"),
                      ("x-nemo-preview-body", QVariant.string ""),
                      ("x-nemo-preview-summary", QVariant.string "S")],
            expireTimeout := -1 } := by
  refine ⟨?_, ?_, by decide, by decide⟩
  · unfold Notification.publish
    by_cases ho : d.hints.contains HINT_OWNER = true <;> simp [ho]
  · have e1 : HINT_PREVIEW_SUMMARY ≠ HINT_PREVIEW_BODY := by decide
    have e2 : HINT_PREVIEW_SUMMARY ≠ HINT_OWNER := by decide
    have e3 : HINT_PREVIEW_BODY ≠ HINT_OWNER := by decide
    rw [publish_sent_hints, setDefaultPreview_find, setDefaultPreview_contains,
      setDefaultPreview_find]
    have hnone : d.hints.contains k = false → VMap.find k d.hints = none := by
      intro h
      unfold VMap.contains at h
      cases hf : VMap.find k d.hints with
      | none => rfl
      | some v => simp [hf] at h
    by_cases ho : d.hints.contains HINT_OWNER = true
    · simp only [ho, if_true]
      by_cases hk : d.hints.contains k = true
      · have hkb : k = HINT_PREVIEW_BODY → d.hints.contains HINT_PREVIEW_BODY = true :=
          fun e => e ▸ hk
        have hks : k = HINT_PREVIEW_SUMMARY → d.hints.contains HINT_PREVIEW_SUMMARY = true :=
          fun e => e ▸ hk
        simp only [hk, if_true]
        by_cases hb : k = HINT_PREVIEW_BODY
        · simp [hb, hkb hb, Ne.symm e1]
        · by_cases hs : k = HINT_PREVIEW_SUMMARY
          · simp [hs, hks hs, e1]
          · simp [hb, hs]
      · have hk2 : d.hints.contains k = false := by simpa using hk
        have hko : k ≠ HINT_OWNER := fun e => by rw [e, ho] at hk2; exact absurd hk2 (by decide)
        simp only [hk2, Bool.false_eq_true, if_false, hko, hnone hk2]
        by_cases hb : k = HINT_PREVIEW_BODY
        · subst hb
          simp [hk2, Ne.symm e1]
        · by_cases hs : k = HINT_PREVIEW_SUMMARY
          · subst hs
            simp [hk2, e1]
          · simp [hb, hs]
    · have ho2 : d.hints.contains HINT_OWNER = false := by simpa using ho
      simp only [ho2, Bool.false_eq_true, if_false, VMap.find_insert, VMap.contains_insert]
      by_cases hk : d.hints.contains k = true
      · have hko : k ≠ HINT_OWNER := fun e => by rw [e, ho2] at hk; exact absurd hk (by decide)
        have hkb : k = HINT_PREVIEW_BODY → d.hints.contains HINT_PREVIEW_BODY = true :=
          fun e => e ▸ hk
        have hks : k = HINT_PREVIEW_SUMMARY → d.hints.contains HINT_PREVIEW_SUMMARY = true :=
          fun e => e ▸ hk
        simp only [hk, if_true, hko, if_false]
        by_cases hb : k = HINT_PREVIEW_BODY
        · simp [hb, hkb hb, Ne.symm e1, e3]
        · by_cases hs : k = HINT_PREVIEW_SUMMARY
          · simp [hs, hks hs, e1, e2]
          · simp [hb, hs]
      · have hk2 : d.hints.contains k = false := by simpa using hk
        simp only [hk2, Bool.false_eq_true, if_false, hnone hk2]
        by_cases hb : k = HINT_PREVIEW_BODY
        · subst hb
          simp [hk2, Ne.symm e1, e3]
        · by_cases hs : k = HINT_PREVIEW_SUMMARY
          · subst hs
            simp [hk2, e1, e2]
          · by_cases hko : k = HINT_OWNER
            · simp [hko, e2, e3, Ne.symm e2, Ne.symm e3]
            · simp [hb, hs, hko]

/-! ## Connection provider -/

theorem run_proxy_of_some (connMgr : NotificationConnectionManager)
    (proxy : NotificationManagerProxy) (calls : List ConnectionCall)
    (h : connMgr.proxy = some proxy) :
    NotificationConnectionManager.run connMgr calls = connMgr := by
  induction calls with
  | nil => rfl
  | cons call rest ih =>
    cases call with
    | useDBusConnection conn =>
      unfold NotificationConnectionManager.run
      have e : (connMgr.useDBusConnection conn).2 = connMgr := by
        unfold NotificationConnectionManager.useDBusConnection
        simp [h]
      rw [e, ih]
    | notificationManager sessionBus =>
      unfold NotificationConnectionManager.run
      have e : (notificationManager connMgr sessionBus).2 = connMgr := by
        unfold notificationManager
        simp [h]
      rw [e, ih]

/-- C30: `useDBusConnection` returns true and records the supplied connection if and
only if no proxy has been created yet and the supplied connection is connected;
otherwise it returns false and changes nothing. Once the proxy exists every call returns
false and leaves the connection and the proxy unchanged, and no sequence of calls of
`useDBusConnection` and `notificationManager` replaces the proxy. -/
theorem C30_useDBusConnection (connMgr : NotificationConnectionManager)
    (conn sessionBus : QDBusConnection) (proxy : NotificationManagerProxy)
    (calls : List ConnectionCall) :
    (connMgr.useDBusConnection conn).1 = (connMgr.proxy.isNone && conn.isConnected)
      ∧ (connMgr.useDBusConnection conn).2
        = (if connMgr.proxy.isNone ∧ conn.isConnected = true then
            { connMgr with dBusConnection := some conn }
          else connMgr)
      ∧ NotificationConnectionManager.useDBusConnection { connMgr with proxy := some proxy } conn
        = (false, { connMgr with proxy := some proxy })
      ∧ NotificationConnectionManager.run { connMgr with proxy := some proxy } calls
        = { connMgr with proxy := some proxy }
      ∧ (notificationManager connMgr sessionBus).2.proxy
        = some (notificationManager connMgr sessionBus).1
      ∧ (NotificationConnectionManager.run (notificationManager connMgr sessionBus).2 calls).proxy
        = some (notificationManager connMgr sessionBus).1 := by
  have hp : (notificationManager connMgr sessionBus).2.proxy
      = some (notificationManager connMgr sessionBus).1 := by
    unfold notificationManager
    cases h : connMgr.proxy with
    | none => simp
    | some p => simp [h]
  refine ⟨?_, ?_, ?_, run_proxy_of_some _ proxy calls rfl, hp, ?_⟩
  · unfold NotificationConnectionManager.useDBusConnection
    cases h : connMgr.proxy <;> cases hc : conn.isConnected <;> simp
  · unfold NotificationConnectionManager.useDBusConnection
    cases h : connMgr.proxy <;> cases hc : conn.isConnected <;> simp
  · unfold NotificationConnectionManager.useDBusConnection
    simp
  · rw [run_proxy_of_some _ _ calls hp, hp]

/-! ## Extra spaces in a callback-target hint -/

theorem splitSkipEmptyAux_space_before_boundary (l2 : List Char)
    (h2 : l2 = [] ∨ l2.head? = some ' ') (l1 cur : List Char) :
    splitSkipEmptyAux (l1 ++ ' ' :: l2) cur = splitSkipEmptyAux (l1 ++ l2) cur := by
  induction l1 generalizing cur with
  | nil =>
    rcases h2 with h | h
    · subst h
      simp [splitSkipEmptyAux]
    · cases l2 with
      | nil => simp at h
      | cons ch l2 =>
        simp only [List.head?_cons, Option.some.injEq] at h
        subst h
        by_cases hc : cur = [] <;> simp [splitSkipEmptyAux, hc]
  | cons ch l1 ih =>
    show splitSkipEmptyAux (ch :: (l1 ++ ' ' :: l2)) cur = splitSkipEmptyAux (ch :: (l1 ++ l2)) cur
    rw [splitSkipEmptyAux, splitSkipEmptyAux]
    simp only [ih]

theorem splitSkipEmptyAux_extra_space (l1 l2 : List Char)
    (h : l1 = [] ∨ l1.getLast? = some ' ' ∨ l2 = [] ∨ l2.head? = some ' ') :
    splitSkipEmptyAux (l1 ++ ' ' :: l2) [] = splitSkipEmptyAux (l1 ++ l2) [] := by
  rcases h with h | h | h | h
  · subst h
    simp [splitSkipEmptyAux]
  · obtain ⟨l0, rfl⟩ : ∃ l0, l1 = l0 ++ [' '] := by
      rcases List.eq_nil_or_concat l1 with e | ⟨l0, ch, e⟩
      · subst e
        simp at h
      · subst e
        have hc : ch = ' ' := by
          rw [List.concat_eq_append, List.getLast?_concat] at h
          exact Option.some.inj h
        exact ⟨l0, by rw [hc]; simp⟩
    have e1 : l0 ++ [' '] ++ ' ' :: l2 = l0 ++ ' ' :: (' ' :: l2) := by simp
    have e2 : l0 ++ [' '] ++ l2 = l0 ++ (' ' :: l2) := by simp
    rw [e1, e2]
    exact splitSkipEmptyAux_space_before_boundary (' ' :: l2) (Or.inr rfl) l0 []
  · exact splitSkipEmptyAux_space_before_boundary l2 (Or.inl h) l1 []
  · exact splitSkipEmptyAux_space_before_boundary l2 (Or.inr h) l1 []

theorem splitSkipEmptyAux_extra_spaces (n : Nat) (l1 l2 : List Char)
    (h : l1 = [] ∨ l1.getLast? = some ' ' ∨ l2 = [] ∨ l2.head? = some ' ') :
    splitSkipEmptyAux (l1 ++ (List.replicate n ' ' ++ l2)) []
      = splitSkipEmptyAux (l1 ++ l2) [] := by
  induction n with
  | zero => simp
  | succ n ih =>
    have e : l1 ++ (List.replicate (n + 1) ' ' ++ l2) = l1 ++ ' ' :: (List.replicate n ' ' ++ l2) := by
      simp [List.replicate_succ]
    rw [e, ← ih]
    apply splitSkipEmptyAux_extra_space
    rcases h with h | h | h | h
    · exact Or.inl h
    · exact Or.inr (Or.inl h)
    · cases n with
      | zero => exact Or.inr (Or.inr (Or.inl (by simp [h])))
      | succ m => exact Or.inr (Or.inr (Or.inr (by simp [List.replicate_succ])))
    · cases n with
      | zero => exact Or.inr (Or.inr (Or.inr (by simpa using h)))
      | succ m => exact Or.inr (Or.inr (Or.inr (by simp [List.replicate_succ])))

/-- C31: decoding a callback-target hint is insensitive to extra spaces. For a hint text
cut at any place before, after or between its tokens (at the start, at the end, or next
to a space), inserting any number of space characters there changes neither the tokens
of the split nor the service, path, iface, method and arguments that are extracted:
empty tokens are never counted. -/
theorem C31_extra_spaces_ignored (c : VariantCodec) (n : Nat) (l1 l2 : List Char)
    (h : l1 = [] ∨ l1.getLast? = some ' ' ∨ l2 = [] ∨ l2.head? = some ' ') :
    splitSkipEmpty (String.mk (l1 ++ (List.replicate n ' ' ++ l2)))
        = splitSkipEmpty (String.mk (l1 ++ l2))
      ∧ decodeDBusCall c (String.mk (l1 ++ (List.replicate n ' ' ++ l2)))
        = decodeDBusCall c (String.mk (l1 ++ l2)) := by
  have hs : splitSkipEmpty (String.mk (l1 ++ (List.replicate n ' ' ++ l2)))
      = splitSkipEmpty (String.mk (l1 ++ l2)) := by
    unfold splitSkipEmpty
    exact splitSkipEmptyAux_extra_spaces n l1 l2 h
  refine ⟨hs, ?_⟩
  unfold decodeDBusCall
  rw [hs]

/-- C31, at a concrete input: the hint `s p i m AQ==` with two spaces put in front, three
more between `p` and `i`, and one at the end. -/
theorem C31_extra_spaces_ignored_witness :
    decodeDBusCall sampleCodec "  s p i m AQ==" = decodeDBusCall sampleCodec "s p i m AQ=="
      ∧ decodeDBusCall sampleCodec "s p    i m AQ==" = decodeDBusCall sampleCodec "s p i m AQ=="
      ∧ decodeDBusCall sampleCodec "s p i m AQ== " = decodeDBusCall sampleCodec "s p i m AQ=="
      ∧ (decodeDBusCall sampleCodec "  s p    i m AQ== ").value "arguments"
        = QVariant.list [QVariant.bool true] :=
  ⟨(C31_extra_spaces_ignored sampleCodec 2 [] "s p i m AQ==".data (by decide)).2,
    (C31_extra_spaces_ignored sampleCodec 3 "s p ".data "i m AQ==".data (by decide)).2,
    (C31_extra_spaces_ignored sampleCodec 1 "s p i m AQ==".data [] (by decide)).2,
    by decide⟩

/-! ## Decoding, then encoding, a flat action list -/

theorem encodeActions_decodeActions (f : List String) :
    encodeActions (decodeActions f) = if f.length % 2 = 0 then f else f ++ [""] := by
  induction f using decodeActions.induct with
  | case1 => rfl
  | case2 name => rfl
  | case3 name displayName rest ih =>
    simp only [decodeActions, encodeActions, ih, List.length_cons]
    by_cases h : rest.length % 2 = 0
    · have h2 : (rest.length + 1 + 1) % 2 = 0 := by omega
      simp [h, h2]
    · have h2 : ¬ (rest.length + 1 + 1) % 2 = 0 := by omega
      simp [h, h2]

theorem encodeActions_length (actions : List ActionInfo) :
    (encodeActions actions).length = 2 * actions.length := by
  induction actions with
  | nil => rfl
  | cons a rest ih =>
    simp only [encodeActions, List.length_cons, ih]
    omega

/-- C33: for every flat string list f, `encodeActions(decodeActions(f))` is f when f has
even length and f with one empty string appended when f has odd length; so the result
always has even length, and decoding then encoding a second time changes nothing. -/
theorem C33_encode_decode (f : List String) :
    encodeActions (decodeActions f) = (if f.length % 2 = 0 then f else f ++ [""])
      ∧ (encodeActions (decodeActions f)).length % 2 = 0
      ∧ encodeActions (decodeActions (encodeActions (decodeActions f)))
        = encodeActions (decodeActions f) := by
  refine ⟨encodeActions_decodeActions f, ?_, ?_⟩
  · rw [encodeActions_length]
    omega
  · rw [decodeActions_encodeActions]

/-! ## Hint keys of different action names -/

/-- C37: one inbound action-invoked event raises at most one action event (either
`actionInvoked` or `inputActionInvoked`), and which one is decided by the first cached
remote action whose non-empty name is the event's action name; when no cached remote
action has that name, or the id does not match, no action event is raised. The handler
writes no state (it returns the raised signals only). -/
theorem C37_at_most_one_action_event (d : NotificationPrivate) (id : Nat) (actionKey : String) :
    (actionEvents (Notification.checkActionInvoked d id actionKey)).length ≤ 1
      ∧ actionEvents (Notification.checkActionInvoked d id actionKey)
        = (if id = d.replacesId then
            match findRemoteAction actionKey d.remoteActions with
            | none => []
            | some vm =>
              if vm.contains "input" then
                if InputAccepted d.inputText (vm.value "input").toMap then
                  [Signal.inputActionInvoked actionKey d.inputText]
                else []
              else [Signal.actionInvoked actionKey]
          else []) := by
  have h : actionEvents (Notification.checkActionInvoked d id actionKey)
      = (if id = d.replacesId then
          match findRemoteAction actionKey d.remoteActions with
          | none => []
          | some vm =>
            if vm.contains "input" then
              if InputAccepted d.inputText (vm.value "input").toMap then
                [Signal.inputActionInvoked actionKey d.inputText]
              else []
            else [Signal.actionInvoked actionKey]
        else []) := by
    by_cases hid : id = d.replacesId
    · subst hid
      rw [actionEvents_checkActionInvoked, checkActionInvokedLoop_eq]
      simp
    · unfold Notification.checkActionInvoked
      simp [hid, actionEvents]
  refine ⟨?_, h⟩
  rw [h]
  split
  · cases findRemoteAction actionKey d.remoteActions with
    | none => simp
    | some vm =>
      simp only []
      split
      · split <;> simp
      · simp
  · simp

/-! ## What `publish` changes -/

theorem publish_state_eq (d : NotificationPrivate) (processName : String) (reply : Nat) :
    (Notification.publish d processName reply).state
      = { d with
          replacesId := reply
          hints := if d.hints.contains HINT_OWNER then d.hints
                   else d.hints.insert HINT_OWNER (QVariant.string processName) } := by
  unfold Notification.publish Notification.setReplacesId
  by_cases ho : d.hints.contains HINT_OWNER = true
  · by_cases hr : d.replacesId = reply
    · subst hr
      simp [ho]
    · simp [ho, hr]
  · by_cases hr : d.replacesId = reply
    · subst hr
      simp [ho]
    · simp [ho, hr]

/-- C38: `publish()` changes the local state only by adding the x-nemo-owner hint when
it is absent and by setting the id to the service's reply; summary, body, actions, cached
remote actions and every other hint are unchanged. The preview defaults go into the sent
copy only, so `previewSummary()` and `previewBody()` return the same values before and
after `publish()`. -/
theorem C38_publish_frame (d : NotificationPrivate) (processName : String) (reply : Nat) :
    (Notification.publish d processName reply).state
        = { d with
            replacesId := reply
            hints := if d.hints.contains HINT_OWNER then d.hints
                     else d.hints.insert HINT_OWNER (QVariant.string processName) }
      ∧ (∀ k : String, VMap.find k (Notification.publish d processName reply).state.hints
          = if k = HINT_OWNER ∧ d.hints.contains HINT_OWNER = false then
              some (QVariant.string processName)
            else VMap.find k d.hints)
      ∧ Notification.previewSummary (Notification.publish d processName reply).state
        = Notification.previewSummary d
      ∧ Notification.previewBody (Notification.publish d processName reply).state
        = Notification.previewBody d := by
  have hstate := publish_state_eq d processName reply
  have hfind : ∀ k : String, VMap.find k (Notification.publish d processName reply).state.hints
      = if k = HINT_OWNER ∧ d.hints.contains HINT_OWNER = false then
          some (QVariant.string processName)
        else VMap.find k d.hints := by
    intro k
    rw [publish_state_hints]
    by_cases ho : d.hints.contains HINT_OWNER = true
    · simp [ho]
    · have ho2 : d.hints.contains HINT_OWNER = false := by simpa using ho
      simp [ho2, VMap.find_insert]
  have e1 : HINT_PREVIEW_SUMMARY ≠ HINT_OWNER := by decide
  have e2 : HINT_PREVIEW_BODY ≠ HINT_OWNER := by decide
  refine ⟨hstate, hfind, ?_, ?_⟩
  · unfold Notification.previewSummary VMap.value
    rw [hfind]
    simp [e1]
  · unfold Notification.previewBody VMap.value
    rw [hfind]
    simp [e2]

/-! ## The stored urgency -/

/-- C39 (as stated, refuted): with the urgency hint set to 5 through `setHintValue`,
`urgency()` already reads Critical, so `setUrgency(Critical)` stores nothing: the value
under the urgency hint stays 5, which is not the integer value 2 of Critical and not
within [0, 2]; `publish()` sends that 5. -/
theorem C39_counterexample_out_of_range_kept :
    Notification.urgency
        (Notification.setHintValue Notification.new HINT_URGENCY (QVariant.int 5))
        = some Urgency.Critical
      ∧ (Notification.setUrgency
          (Notification.setHintValue Notification.new HINT_URGENCY (QVariant.int 5))
          Urgency.Critical).1.hints.value HINT_URGENCY = QVariant.int 5
      ∧ ¬ ((Notification.setUrgency
          (Notification.setHintValue Notification.new HINT_URGENCY (QVariant.int 5))
          Urgency.Critical).1.hints.value HINT_URGENCY = QVariant.int Urgency.Critical.toInt)
      ∧ (Notification.publish (Notification.setUrgency
          (Notification.setHintValue Notification.new HINT_URGENCY (QVariant.int 5))
          Urgency.Critical).1 "app" 1).sent.hints.value HINT_URGENCY = QVariant.int 5 := by
  decide

/-- C39 (amended): for every urgency u in {Low, Normal, Critical} and every state in
which `urgency()` differs from u or the urgency hint holds the integer value of an
urgency, after `setUrgency(u)` the value stored under the urgency hint, which is the
value `publish()` sends, is the integer value of u, hence within [0, 2]. -/
theorem C39_setUrgency_stored (d : NotificationPrivate) (u : Urgency) (processName : String)
    (reply : Nat)
    (h : some u ≠ Notification.urgency d
      ∨ ∃ u0 : Urgency, d.hints.value HINT_URGENCY = QVariant.int u0.toInt) :
    (Notification.setUrgency d u).1.hints.value HINT_URGENCY = QVariant.int u.toInt
      ∧ (Notification.publish (Notification.setUrgency d u).1 processName
          reply).sent.hints.value HINT_URGENCY = QVariant.int u.toInt
      ∧ 0 ≤ u.toInt ∧ u.toInt ≤ 2 := by
  have hstored : (Notification.setUrgency d u).1.hints.value HINT_URGENCY
      = QVariant.int u.toInt := by
    unfold Notification.setUrgency
    by_cases hu : some u = Notification.urgency d
    · rw [if_neg (not_not.2 hu)]
      rcases h with h | ⟨u0, h0⟩
      · exact absurd hu h
      · have h1 := urgency_of_stored d u0 h0
        rw [h1] at hu
        have hu0 : u = u0 := Option.some.inj hu
        rw [hu0]
        exact h0
    · rw [if_pos hu]
      simp [VMap.value_insert]
  have hsent : ∀ e : NotificationPrivate,
      (Notification.publish e processName reply).sent.hints.value HINT_URGENCY
        = e.hints.value HINT_URGENCY := by
    intro e
    have e1 : HINT_URGENCY ≠ HINT_PREVIEW_BODY := by decide
    have e2 : HINT_URGENCY ≠ HINT_PREVIEW_SUMMARY := by decide
    have e3 : HINT_URGENCY ≠ HINT_OWNER := by decide
    rw [publish_sent_hints, setDefaultPreview_value, setDefaultPreview_value]
    by_cases ho : e.hints.contains HINT_OWNER = true
    · simp [ho, e1, e2]
    · simp [ho, e1, e2, e3, VMap.value_insert]
  refine ⟨hstored, ?_, ?_, ?_⟩
  · rw [hsent, hstored]
  · cases u <;> decide
  · cases u <;> decide

/-- C39, at a concrete input: a new notification, set to Critical. -/
theorem C39_setUrgency_stored_witness :
    (Notification.setUrgency Notification.new Urgency.Critical).1.hints.value HINT_URGENCY
        = QVariant.int 2
      ∧ (Notification.publish (Notification.setUrgency Notification.new Urgency.Critical).1
          "app" 1).sent.hints.value HINT_URGENCY = QVariant.int 2 :=
  ⟨(C39_setUrgency_stored Notification.new Urgency.Critical "app" 1 (Or.inl (by decide))).1,
    (C39_setUrgency_stored Notification.new Urgency.Critical "app" 1 (Or.inl (by decide))).2.1⟩

/-! ## What the operations leave alone -/

theorem foldl_removeExistingAction_frame (l : List QVariant) (d : NotificationPrivate) :
    (l.foldl Notification.removeExistingAction d).remoteActions = d.remoteActions
      ∧ (l.foldl Notification.removeExistingAction d).inputText = d.inputText := by
  induction l generalizing d with
  | nil => exact ⟨rfl, rfl⟩
  | cons a l ih =>
    rw [List.foldl_cons]
    have h : (Notification.removeExistingAction d a).remoteActions = d.remoteActions
        ∧ (Notification.removeExistingAction d a).inputText = d.inputText := by
      unfold Notification.removeExistingAction
      simp only []
      split <;> exact ⟨rfl, rfl⟩
    exact ⟨(ih _).1.trans h.1, (ih _).2.trans h.2⟩

theorem removeFirstAction_head (a : ActionInfo) (rest : List ActionInfo) :
    Notification.removeFirstAction a.name (a :: rest) = rest := by
  simp [Notification.removeFirstAction]

theorem foldl_removeExistingAction_actions (l : List QVariant) (d : NotificationPrivate)
    (tail : List ActionInfo) (h : d.actions = l.flatMap actionDescriptor ++ tail) :
    (l.foldl Notification.removeExistingAction d).actions = tail := by
  induction l generalizing d with
  | nil => simpa using h
  | cons a l ih =>
    rw [List.foldl_cons]
    apply ih
    unfold Notification.removeExistingAction
    simp only []
    by_cases hn : (a.toMap.value "name").toString = ""
    · have hd : actionDescriptor a = [] := by
        unfold actionDescriptor remoteActionFields
        simp [hn]
      simp only [hn, ne_eq, not_true_eq_false, if_false]
      rw [h, List.flatMap_cons, hd, List.nil_append]
    · have hd : actionDescriptor a
          = [{ name := (a.toMap.value "name").toString
               displayName := (a.toMap.value "displayName").toString }] := by
        unfold actionDescriptor remoteActionFields
        simp [hn]
      simp only [hn, ne_eq, not_false_eq_true, if_true]
      rw [h, List.flatMap_cons, hd]
      simp [Notification.removeFirstAction]

theorem setRemoteActions_frame (c : VariantCodec) (d : NotificationPrivate)
    (l : List QVariant) :
    (Notification.setRemoteActions c d l).1.remoteActions = l
      ∧ (Notification.setRemoteActions c d l).1.inputText = d.inputText
      ∧ (d.actions = d.remoteActions.flatMap actionDescriptor →
          (Notification.setRemoteActions c d l).1.actions = l.flatMap actionDescriptor) := by
  unfold Notification.setRemoteActions
  by_cases h : l = d.remoteActions
  · rw [if_neg (not_not.2 h)]
    refine ⟨h.symm, rfl, fun hinv => ?_⟩
    rw [h]
    exact hinv
  · rw [if_pos h]
    refine ⟨rfl, (foldl_removeExistingAction_frame _ d).2, fun hinv => ?_⟩
    simp only []
    rw [foldl_removeExistingAction_actions d.remoteActions d [] (by simpa using hinv),
      encodeActionHints_eq]
    simp

theorem setRemoteDBusCall_frame (c : VariantCodec) (d : NotificationPrivate)
    (cond : Prop) [Decidable cond] (vm : QVariantMap) (signals : List Signal) :
    (if cond then
        ((Notification.setFirstRemoteAction c d vm).1,
          (Notification.setFirstRemoteAction c d vm).2 ++ signals)
      else (d, [])).1.inputText = d.inputText
      ∧ (d.actions = d.remoteActions.flatMap actionDescriptor →
          (if cond then
              ((Notification.setFirstRemoteAction c d vm).1,
                (Notification.setFirstRemoteAction c d vm).2 ++ signals)
            else (d, [])).1.actions
            = (if cond then
                ((Notification.setFirstRemoteAction c d vm).1,
                  (Notification.setFirstRemoteAction c d vm).2 ++ signals)
              else (d, [])).1.remoteActions.flatMap actionDescriptor) := by
  by_cases h : cond
  · rw [if_pos h]
    unfold Notification.setFirstRemoteAction
    simp only []
    refine ⟨(setRemoteActions_frame c d _).2.1, fun hinv => ?_⟩
    rw [(setRemoteActions_frame c d _).2.2 hinv, (setRemoteActions_frame c d _).1]
  · rw [if_neg h]
    exact ⟨rfl, fun hinv => hinv⟩

theorem apply_inputText {QDateTime QImage : Type} (c : VariantCodec)
    (q : QtLibrary QDateTime QImage) (d : NotificationPrivate)
    (op : Operation QDateTime QImage) :
    (Notification.apply c q d op).inputText
      = match op with
        | Operation.inputTextSet id inputText =>
          if id = d.replacesId then inputText else d.inputText
        | _ => d.inputText := by
  cases op with
  | setRemoteActions l => exact (setRemoteActions_frame c d l).2.1
  | setRemoteAction v => exact (setRemoteActions_frame c d [v]).2.1
  | setRemoteDBusCallServiceName v => exact (setRemoteDBusCall_frame c d _ _ _).1
  | setRemoteDBusCallObjectPath v => exact (setRemoteDBusCall_frame c d _ _ _).1
  | setRemoteDBusCallInterface v => exact (setRemoteDBusCall_frame c d _ _ _).1
  | setRemoteDBusCallMethodName v => exact (setRemoteDBusCall_frame c d _ _ _).1
  | setRemoteDBusCallArguments v => exact (setRemoteDBusCall_frame c d _ _ _).1
  | inputTextSet id inputText =>
    simp only [Notification.apply, Notification.checkInputTextSet]
    by_cases hid : id = d.replacesId
    · by_cases ht : inputText = d.inputText
      · simp [hid, ht]
      · simp [hid, ht]
    · simp [hid]
  | publish processName reply =>
    simp only [Notification.apply]
    rw [publish_state_eq]
  | actionInvoked id actionKey => rfl
  | _ =>
    simp only [Notification.apply, Notification.setCategory, Notification.setAppName,
      Notification.setReplacesId, Notification.setIcon, Notification.setAppIcon,
      Notification.setSummary, Notification.setBody, Notification.setUrgency,
      Notification.setExpireTimeout, Notification.setPreviewSummary,
      Notification.setPreviewBody, Notification.setSubText, Notification.setSound,
      Notification.setSoundName, Notification.setItemCount, Notification.setIsTransient,
      Notification.setOrigin, Notification.setMaxContentLines, Notification.setHintValue,
      Notification.close, Notification.checkNotificationClosed,
      Notification.checkInputTextSet, Notification.setTimestamp, Notification.setIconData,
      Notification.setProgress, Notification.resetProgress]
    split_ifs <;> rfl

/-- C32: the pending input text is changed only by an input-text-set event with a
matching id. Every other operation leaves it as it is: `publish()`, `close()`, every
property setter (timestamp, iconData, progress and the obsolete remoteDBusCall setters
included), `resetProgress`, `setHintValue`, and the action-invoked and closed handlers, a
successful input-action dispatch included. -/
theorem C32_input_text_frame {QDateTime QImage : Type} (c : VariantCodec)
    (q : QtLibrary QDateTime QImage) (d : NotificationPrivate)
    (op : Operation QDateTime QImage) :
    (Notification.apply c q d op).inputText
        = (match op with
          | Operation.inputTextSet id inputText =>
            if id = d.replacesId then inputText else d.inputText
          | _ => d.inputText)
      ∧ Notification.checkActionInvoked (sampleInputNotification "Yes") 7 "reply"
        = [Signal.inputActionInvoked "reply" "Yes"]
      ∧ (Notification.apply c q (sampleInputNotification "Yes")
          (Operation.actionInvoked 7 "reply")).inputText = "Yes" :=
  ⟨apply_inputText c q d op, by decide, rfl⟩

/-- C35 (the code at the failing input): a new notification gets the remote action
`reply` (callback target, icon, input block, type) and then an empty list of remote
actions. The action name `reply` occurs in the previous list and not in the new one, and
the hint map still holds x-nemo-remote-action-icon-reply, x-nemo-remote-action-input-reply
and x-nemo-remote-action-type-reply; only x-nemo-remote-action-reply was removed. -/
theorem C35_stale_hints_after_replacing :
    (Notification.setRemoteActions sampleCodec
        (Notification.setRemoteActions sampleCodec Notification.new [sampleRemoteAction]).1
        []).1.remoteActions = []
      ∧ (Notification.setRemoteActions sampleCodec
          (Notification.setRemoteActions sampleCodec Notification.new [sampleRemoteAction]).1
          []).1.hints.contains "x-nemo-remote-action-reply" = false
      ∧ (Notification.setRemoteActions sampleCodec
          (Notification.setRemoteActions sampleCodec Notification.new [sampleRemoteAction]).1
          []).1.hints.value "x-nemo-remote-action-icon-reply" = QVariant.string "icon-reply"
      ∧ (Notification.setRemoteActions sampleCodec
          (Notification.setRemoteActions sampleCodec Notification.new [sampleRemoteAction]).1
          []).1.hints.contains "x-nemo-remote-action-input-reply" = true
      ∧ (Notification.setRemoteActions sampleCodec
          (Notification.setRemoteActions sampleCodec Notification.new [sampleRemoteAction]).1
          []).1.hints.value "x-nemo-remote-action-type-reply" = QVariant.string "custom" := by
  decide

end Nemo
